import Mathlib

/-! Event listener: importance, batching, routing, price cache, dedup and rate limit.

A shallow embedding of `listener/event_watcher.go`.

Modelling conventions

* Go strings are Lean `String`s (valid UTF-8 text).  The byte-wise searches of
  the source look for ASCII bytes or for whole UTF-8 encoded substrings, which
  on valid UTF-8 text find the same positions as a search by code point.
* A finite `float64` is represented by the rational number it denotes.  The
  arithmetic of `big.Float` and the conversions to `float64` round to the nearest
  value, a tie going to the even one (`roundToPrec`, `float64Round`), and the
  products of `int64` wrap (`wrapInt64`).
* A `time.Time` is an `Int`: nanoseconds on the monotonic clock; a
  `time.Duration` is an `Int` number of nanoseconds.
* What the code reads from outside itself (standard library functions that are
  not part of the repository, environment variables, the configured bot) is
  collected in `Env` and passed explicitly, so that the theorems quantified over
  `Env` hold whatever these return.
* Logging has no effect on the results and is left out.
-/

namespace EventListener

/-! ## Strings -/

/-- Whether the character list `p` starts the character list `s` (`strings.HasPrefix`). -/
def startsWith : List Char → List Char → Bool
  | _, [] => true
  | [], _ :: _ => false
  | c :: s, d :: p => c == d && startsWith s p

/-- Whether `p` occurs in `s` as a contiguous block. -/
def containsChars : List Char → List Char → Bool
  | [], p => p.isEmpty
  | c :: s, p => startsWith (c :: s) p || containsChars s p

/-- Go `strings.Contains(s, sub)`. -/
def Contains (s sub : String) : Bool := containsChars s.data sub.data

/-- Lower-casing of the ASCII letters only.  On text whose cased letters are all
ASCII this is what Go `strings.ToLower` returns. -/
def asciiLower (s : String) : String := String.mk (s.data.map Char.toLower)

/-- Value of a run of ASCII decimal digits, most significant first. -/
def digitsValue (ds : List Char) : Nat :=
  ds.foldl (fun acc c => 10 * acc + (c.toNat - 48)) 0

/-- Exact value of a numeral made of decimal digits with at most one dot (`"12"`,
`"12."`, `".5"`, `"12.50"`); `none` for anything else.  On these numerals Go
`strconv.ParseFloat` succeeds and returns the `float64` nearest to this value
(the value itself when it is representable, as `50.00`, `100.00`, `25.00` are). -/
def parseDecimal (s : String) : Option ℚ :=
  let whole := s.data.takeWhile Char.isDigit
  match s.data.dropWhile Char.isDigit with
  | [] => if whole.isEmpty then none else some (digitsValue whole)
  | c :: frac =>
    if c == '.' && frac.all Char.isDigit && !(whole.isEmpty && frac.isEmpty) then
      some ((digitsValue (whole ++ frac) : ℚ) / 10 ^ frac.length)
    else none

/-! ## Environment -/

/-- What the listener reads from outside its own source. -/
structure Env where
  /-- Go `strings.ToLower`. -/
  toLower : String → String
  /-- Go `strconv.ParseFloat(s, 64)`: the parsed value when `err == nil`. -/
  parseFloat : String → Option ℚ
  /-- The value of `strings.TrimSpace(os.Getenv("USD_THRESHOLD"))`. -/
  usdThresholdVar : String
  /-- Length of the global `notifiers` slice. -/
  notifiers : Nat
  /-- Whether `getBotInstance()` is non-nil. -/
  bot : Bool
  /-- What `getChatID()` returns (0: unset or unparsable). -/
  chatID : Int
  /-- What `getChatID2()` returns (0: unset or unparsable). -/
  chatID2 : Int

/-- A reference environment for evaluating the code on concrete inputs: ASCII
lower-casing, exact decimal parsing, `USD_THRESHOLD` unset, no legacy notifier,
a bot, and the two given chat ids. -/
def refEnv (chatID chatID2 : Int) : Env where
  toLower := asciiLower
  parseFloat := parseDecimal
  usdThresholdVar := ""
  notifiers := 0
  bot := true
  chatID := chatID
  chatID2 := chatID2

/-! ## Importance -/

/-- Source `extractUSDFromBody`: the number written right after the first `$`. -/
def extractUSDFromBody (env : Env) (body : String) : ℚ :=
  match body.data.dropWhile (fun c => c != '$') with
  | [] => 0
  | _ :: rest =>
    let num := rest.takeWhile (fun c => c.isDigit || c == '.')
    if num.isEmpty then 0
    else
      match env.parseFloat (String.mk num) with
      | some f => f
      | none => 0

/-- The threshold computed inside `determineImportance`: 50.0, or the value of
`USD_THRESHOLD` when it parses to a positive number. -/
def usdThreshold (env : Env) : ℚ :=
  if env.usdThresholdVar ≠ "" then
    match env.parseFloat env.usdThresholdVar with
    | some f => if f > 0 then f else 50
    | none => 50
  else 50

/-- Source `determineImportance`. -/
def determineImportance (env : Env) (title body : String) : Bool :=
  let lt := env.toLower title
  if Contains lt "moduleinstalled" || Contains lt "installmodule"
      || (Contains lt "install" && Contains lt "module") then true
  else
    let lb := env.toLower body
    if Contains lb "moduleinstalled" || Contains lb "installmodule"
        || Contains lb "diamondcut→installmodule"
        || (Contains lb "install" && Contains lb "module") then true
    else if Contains (env.toLower title) "diamondcut" then true
    else if Contains title "Transfer" then
      let usd := extractUSDFromBody env body
      let threshold := usdThreshold env
      decide (usd ≥ threshold)
    else false

/-! ## Dispatch to the messaging sink -/

/-- The characters `escapeMarkdownV2` escapes, in the order of the source. -/
def escapeChars : List Char :=
  ['_', '*', '[', ']', '(', ')', '~', '\x60', '>', '#', '+', '-', '=', '|', '\x7b', '\x7d',
    '.', '!']

/-- Go `strings.ReplaceAll(s, c, "\\" + c)` for a pattern `c` of one character. -/
def escapeOne (c : Char) (s : List Char) : List Char :=
  s.flatMap (fun x => if x = c then ['\\', c] else [x])

/-- Source `escapeMarkdownV2`: one `ReplaceAll` pass per escaped character. -/
def escapeMarkdownV2 (text : String) : String :=
  String.mk (escapeChars.foldl (fun result c => escapeOne c result) text.data)

/-- What a dispatch does to the outside, in program order. -/
inductive Effect where
  /-- The `i`-th entry of `notifiers` is given the message (`n.Notify`). -/
  | notify (i : Nat) (message : String)
  /-- A call of `bot.SendMessage(chatID, text)`. -/
  | sendMessage (chatID : Int) (text : String)
  /-- A call of `time.Sleep` for so many milliseconds. -/
  | sleep (ms : Nat)
  deriving DecidableEq

/-- The text of an alert ping. -/
def alarmText : String := "🚨 ALARM"

/-- Source `sendPreAlarms`: `count` pings, each followed by a pause of one second. -/
def sendPreAlarms (chatID : Int) : Nat → List Effect
  | 0 => []
  | count + 1 => Effect.sendMessage chatID alarmText :: Effect.sleep 1000 :: sendPreAlarms chatID count

/-- The message `SendNotificationToAllNotifiers` builds from a title and a body. -/
def formatMessage (title body : String) : String :=
  "*" ++ escapeMarkdownV2 title ++ "*" ++ "\n\n" ++ body

/-- Source `SendNotificationToAllNotifiers`. -/
def SendNotificationToAllNotifiers (env : Env) (title body : String) : List Effect :=
  let message := formatMessage title body
  let legacy := (List.range env.notifiers).map (fun i => Effect.notify i message)
  let isImportantEvent := determineImportance env title body
  let viaBot : List Effect :=
    if env.bot then
      if isImportantEvent then
        if env.chatID2 ≠ 0 then
          Effect.sendMessage env.chatID2 message :: (sendPreAlarms env.chatID2 4 ++ [Effect.sleep 1300])
        else if env.chatID ≠ 0 then [Effect.sendMessage env.chatID message]
        else []
      else
        if env.chatID ≠ 0 then [Effect.sendMessage env.chatID message]
        else if env.chatID2 ≠ 0 then [Effect.sendMessage env.chatID2 message]
        else []
    else []
  legacy ++ viaBot

/-- The bot messages of a trace: destination and text of every `bot.SendMessage`. -/
def botSends : List Effect → List (Int × String)
  | [] => []
  | Effect.sendMessage chat text :: rest => (chat, text) :: botSends rest
  | _ :: rest => botSends rest

/-! ## Batching -/

/-- Source `notificationItem`. -/
structure notificationItem where
  title : String
  body : String
  time : Int

/-- The test `sendGroupedNotifications` makes on each pending item before it merges. -/
def hasInstallMarker (env : Env) (it : notificationItem) : Bool :=
  let lt := env.toLower it.title
  let lb := env.toLower it.body
  Contains lt "installmodule" || Contains lb "installmodule" || Contains lt "diamondcut"
    || Contains lb "diamondcut→installmodule"

/-- One numbered entry of the digest: `fmt.Sprintf("**%d\\.** %s\n%s\n\n", i+1, title, body)`. -/
def digestEntry (i : Nat) (item : notificationItem) : String :=
  "**" ++ toString (i + 1) ++ "\\.** " ++ item.title ++ "\n" ++ item.body ++ "\n\n"

/-- The loop that writes the entries into the string builder, from index `i` on. -/
def writeDigestEntries (builder : String) (i : Nat) : List notificationItem → String
  | [] => builder
  | item :: rest => writeDigestEntries (builder ++ digestEntry i item) (i + 1) rest

/-- Source `sendGroupedNotifications`.  The result lists the calls of
`SendNotificationToAllNotifiers` it makes, as (title, body), in order.  `clock` is
`time.Now().Format("15:04:05")` and `stamp` is
`time.Now().Format("02.01.2006 15:04:05")` as read while the digest is built. -/
def sendGroupedNotifications (env : Env) (clock stamp : String)
    (notifications : List notificationItem) : List (String × String) :=
  match notifications with
  | [] => []
  | [item] => [(item.title, item.body)]
  | _ =>
    if notifications.any (hasInstallMarker env) then
      notifications.map (fun single => (single.title, single.body))
    else
      let title := "📢 " ++ toString notifications.length ++ " Yeni Event (" ++ clock ++ ")"
      let body := writeDigestEntries ("⏰ \x60" ++ stamp ++ "\x60\n\n") 0 notifications
      [(title, body)]

/-! ## Price oracle -/

/-- Source `tokenSymbols`, keyed by the lower-cased hex address. -/
def tokenSymbols (addr : String) : Option String :=
  if addr = "0xfd086bc7cd5c481dcc9c85ebe478a1c0b69fcbb9" then some "USDT"
  else if addr = "0x82af49447d8a07e3bd95bd0d56f35241523fbab1" then some "WETH"
  else if addr = "0x2f2a2543b76a4166549f7aab2e75bef0aefc5b0f" then some "WBTC"
  else if addr = "0xaf88d065e77c8cc2239327c5edb3a432268e5831" then some "USDC"
  else if addr = "0xea1523eb5f0ecddb1875122ac2c9470a978e3010" then some "USDC"
  else if addr = "0xc5efb9e4efd91e68948d5039819494eea56ffa46" then some "PAXG"
  else none

/-- Source `tokenPriceEntry`. -/
structure tokenPriceEntry where
  price : ℚ
  cachedAt : Int

/-- The rate limiter's variables `lastRequestTime` and `requestCount`. -/
structure RateLimit where
  lastRequestTime : Int
  requestCount : Int
  deriving DecidableEq

/-- One minute, in nanoseconds (`time.Minute`). -/
def minute : Int := 60000000000

/-- Source `isRateLimited`, called at time `now`: the answer and the new limiter. -/
def isRateLimited (s : RateLimit) (now : Int) : Bool × RateLimit :=
  if now - s.lastRequestTime < minute then
    if s.requestCount ≥ 30 then (true, s)
    else (false, { s with requestCount := s.requestCount + 1 })
  else (false, { lastRequestTime := now, requestCount := 1 })

/-- The external price sources. -/
inductive PriceSource where
  | dexScreener
  | coinGecko
  deriving DecidableEq

/-- What the outside answers during one call of `fetchTokenUSDPrice`. -/
structure FetchWorld where
  /-- What `getTokenPriceTTL()` returns. -/
  ttl : Int
  /-- The clock as read by `time.Since` in the cache check. -/
  sinceNow : Int
  /-- The clock as read by `isRateLimited`. -/
  limiterNow : Int
  /-- The clock as read when the cache entry is written. -/
  storeNow : Int
  /-- What `fetchFromDexScreener(addr)` returns when it is called. -/
  dexScreener : ℚ
  /-- What `fetchFromCoinGecko(addr)` returns when it is called. -/
  coinGecko : ℚ

/-- Source `fetchFromMultipleSources`: the price, the sources queried (in order)
and the new limiter. -/
def fetchFromMultipleSources (lim : RateLimit) (w : FetchWorld) :
    ℚ × List PriceSource × RateLimit :=
  match isRateLimited lim w.limiterNow with
  | (true, lim1) => (0, [], lim1)
  | (false, lim1) =>
    if w.dexScreener > 0 then (w.dexScreener, [PriceSource.dexScreener], lim1)
    else if w.coinGecko > 0 then
      (w.coinGecko, [PriceSource.dexScreener, PriceSource.coinGecko], lim1)
    else (0, [PriceSource.dexScreener, PriceSource.coinGecko], lim1)

/-- The package state of the price oracle. -/
structure OracleState where
  tokenPriceCache : String → Option tokenPriceEntry
  limiter : RateLimit

/-- The result of one call of `fetchTokenUSDPrice`. -/
structure FetchResult where
  price : ℚ
  queried : List PriceSource
  state : OracleState

/-- Whether `tokenSymbols` names the address USDC or USDT. -/
def isStablecoin (addr : String) : Bool :=
  match tokenSymbols addr with
  | some sym => sym == "USDC" || sym == "USDT"
  | none => false

/-- Source `fetchTokenUSDPrice`; `addr` is `strings.ToLower(tokenAddr.Hex())`. -/
def fetchTokenUSDPrice (st : OracleState) (addr : String) (w : FetchWorld) : FetchResult :=
  if addr = "" ∨ addr = "0x0000000000000000000000000000000000000000" then
    { price := 0, queried := [], state := st }
  else
    let hit : Option ℚ :=
      match st.tokenPriceCache addr with
      | some ent => if w.sinceNow - ent.cachedAt < w.ttl then some ent.price else none
      | none => none
    match hit with
    | some p => { price := p, queried := [], state := st }
    | none =>
      let fetched := fetchFromMultipleSources st.limiter w
      let price : ℚ := if isStablecoin addr then 1 else fetched.1
      let cache := if price > 0 then
          fun a => if a = addr then some { price := price, cachedAt := w.storeNow }
            else st.tokenPriceCache a
        else st.tokenPriceCache
      { price := price, queried := fetched.2.1,
        state := { tokenPriceCache := cache, limiter := fetched.2.2 } }

/-- Every cached price of a stablecoin is 1. -/
def StablePinned (st : OracleState) : Prop :=
  ∀ (a : String) (e : tokenPriceEntry),
    isStablecoin a = true → st.tokenPriceCache a = some e → e.price = 1

/-- A run of calls of `fetchTokenUSDPrice`: the address and price of each call. -/
def runFetches (st : OracleState) : List (String × FetchWorld) → List (String × ℚ)
  | [] => []
  | (addr, w) :: rest =>
    let r := fetchTokenUSDPrice st addr w
    (addr, r.price) :: runFetches r.state rest

/-- A run of calls of `isRateLimited` at the given times: the answers and the
limiter afterwards. -/
def runLimiter (s : RateLimit) : List Int → List Bool × RateLimit
  | [] => ([], s)
  | now :: rest =>
    let r := isRateLimited s now
    let rs := runLimiter r.2 rest
    (r.1 :: rs.1, rs.2)

/-- The calls of a run that were let through (answer `false`) at a time in
`[a, a + minute)`. -/
def allowedIn (a : Int) (s : RateLimit) : List Int → Nat
  | [] => 0
  | now :: rest =>
    let r := isRateLimited s now
    (if r.1 = false ∧ a ≤ now ∧ now < a + minute then 1 else 0) + allowedIn a r.2 rest

/-- How many more calls the interval `[a, a + minute)` can still let through, seen
from a limiter state: the rest of the current window when that window started at
or after `a`, the rest of it and one further window when it started before `a`
and reaches into the interval, two windows when it ends before `a`. -/
def budget (a : Int) (s : RateLimit) : Int :=
  if a ≤ s.lastRequestTime then 30 - s.requestCount
  else if a < s.lastRequestTime + minute then (30 - s.requestCount) + 30
  else 60

/-! ## Native transfer dedup -/

/-- Source `nativeSeenTTL`: ten minutes. -/
def nativeSeenTTL : Int := 10 * minute

/-- The `width` hexadecimal digits (lower case, most significant first) of `n`
modulo `16 ^ width`. -/
def hexFixed : Nat → Nat → List Char
  | 0, _ => []
  | width + 1, n => Nat.digitChar (n / 16 ^ width % 16) :: hexFixed width n

/-- The key under which the package tables file a 20-byte address:
`strings.ToLower(addr.Hex())`, that is `0x` and 40 lower-case hexadecimal digits. -/
def lowerHex (addr : Nat) : String := String.mk ('0' :: 'x' :: hexFixed 40 addr)

/-- Go `common.Hash.Hex()`: `0x` and 64 lower-case hexadecimal digits (lower-casing
it again changes nothing). -/
def hashHex (h : Nat) : String := String.mk ('0' :: 'x' :: hexFixed 64 h)

/-- Source `transferTopic`: the hash of `Transfer(address,address,uint256)`. -/
def transferTopic : Nat :=
  0xddf252ad1be2c89b69c2b068fc378daa952ba7f163c4a11628f55a4df523b3ef

/-- Source `moduleInstalledTopic`: the hash of `ModuleInstalled(bytes32)`. -/
def moduleInstalledTopic : Nat :=
  0x84e86d019bcb2870cd4a319c9e0fa1851216ac61b928f6b09ff7a6f8b2218e12

/-- Source `specialWallet`. -/
def specialWallet : Nat := 0x049A025EA9e0807f2fd38c62923fCe688cBd8460

/-- Go `types.Log`, with the fields the listener reads.  An address is the number
its 20 bytes denote, a hash the number its 32 bytes denote (big endian), `Data` is
the list of bytes. -/
structure Log where
  Address : Nat
  Topics : List Nat
  Data : List Nat
  TxHash : Nat

/-- Go `common.BytesToAddress(topic.Bytes())`: the last 20 bytes of the topic. -/
def topicAddress (topic : Nat) : Nat := topic % 2 ^ 160

/-- Source `isRelevantLog`; `WatchMap` is the package table of that name (a key
that is absent reads as false). -/
def isRelevantLog (WatchMap : String → Bool) (lg : Log) : Bool :=
  match lg.Topics with
  | [] => false
  | topic0 :: rest =>
    if topic0 = transferTopic then
      match rest with
      | t1 :: t2 :: _ =>
        let src := lowerHex (topicAddress t1)
        let dst := lowerHex (topicAddress t2)
        WatchMap src || WatchMap dst
      | _ => false
    else WatchMap (lowerHex lg.Address)

/-! ## Reconnection -/

/-- One second, in nanoseconds (`time.Second`). -/
def second : Int := 1000000000

/-- How one pass of the subscription loop ends. -/
inductive SubscribeOutcome where
  /-- The call of `SubscribeFilterLogs` failed with an error that is not of the
  unsupported kind. -/
  | transientError
  /-- It failed with an error that names missing subscription support: the loop
  calls the polling function with `context.Background()`, which does not return. -/
  | unsupported
  /-- The subscription was set up; it later ended with an error from `sub.Err()`. -/
  | subscribed
  deriving DecidableEq

/-- The loop shared by `subscribeWithReconnect` and
`subscribeTransferSideWithReconnect`, with the loop variable `backoff`: the
durations passed to `time.Sleep(backoff)`, in order. -/
def reconnectLoop (backoff : Int) : List SubscribeOutcome → List Int
  | [] => []
  | SubscribeOutcome.transientError :: rest =>
    let doubled := backoff * 2
    let next := if doubled > 30 * second then 30 * second else doubled
    backoff :: reconnectLoop next rest
  | SubscribeOutcome.unsupported :: _ => []
  | SubscribeOutcome.subscribed :: rest => reconnectLoop second rest

/-- Source `subscribeWithReconnect`: the backoff sleeps for a run of outcomes. -/
def subscribeWithReconnect (outcomes : List SubscribeOutcome) : List Int :=
  reconnectLoop second outcomes

/-- Source `subscribeTransferSideWithReconnect`: the same loop, for either topic
index. -/
def subscribeTransferSideWithReconnect (_topicIndex : Int)
    (outcomes : List SubscribeOutcome) : List Int :=
  reconnectLoop second outcomes

/-! ## Event classifier -/

/-- The package tables of the listener, keyed by lower-case hexadecimal strings. -/
structure Registry where
  /-- Source `WatchMap` (an absent key reads as false). -/
  WatchMap : String → Bool
  /-- Source `AddressCategory`. -/
  AddressCategory : String → Option String
  /-- Source `addressTopicNames`: address key, then topic key. -/
  addressTopicNames : String → String → Option String
  /-- Source `globalTopicNames`. -/
  globalTopicNames : String → Option String

/-- Source `GetAddressCategory`. -/
def GetAddressCategory (reg : Registry) (addr : Nat) : String :=
  match reg.AddressCategory (lowerHex addr) with
  | some v => v
  | none => "General"

/-- Source `GetCategoryLabel`. -/
def GetCategoryLabel (reg : Registry) (addr : Nat) : String := GetAddressCategory reg addr

/-- Source `resolveEventName`. -/
def resolveEventName (reg : Registry) (addr topic0 : Nat) : String :=
  match reg.addressTopicNames (lowerHex addr) (hashHex topic0) with
  | some n => n
  | none =>
    match reg.globalTopicNames (hashHex topic0) with
    | some n => n
    | none => "Event " ++ String.mk ((hashHex topic0).data.take 10)

/-- Go `strings.EqualFold`, as the comparison of the ASCII lower-casings.  Against
`"DiamondCut"`, the only way the classifier calls it, this is exact: none of its
letters folds to a character outside ASCII. -/
def EqualFold (s t : String) : Bool := asciiLower s == asciiLower t

/-- Go `hex.EncodeToString`: two lower-case hexadecimal digits per byte. -/
def hexBytes : List Nat → List Char
  | [] => []
  | b :: bs => Nat.digitChar (b / 16 % 16) :: Nat.digitChar (b % 16) :: hexBytes bs

/-- Go `new(big.Int).SetBytes`: the big-endian value of the bytes. -/
def bytesValue (bs : List Nat) : Nat := bs.foldl (fun acc b => acc * 256 + b % 256) 0

/-- Source `tokenDecimals`, keyed like `tokenSymbols`. -/
def tokenDecimals (addr : String) : Option Int :=
  if addr = "0xfd086bc7cd5c481dcc9c85ebe478a1c0b69fcbb9" then some 6
  else if addr = "0x82af49447d8a07e3bd95bd0d56f35241523fbab1" then some 18
  else if addr = "0x2f2a2543b76a4166549f7aab2e75bef0aefc5b0f" then some 8
  else if addr = "0xaf88d065e77c8cc2239327c5edb3a432268e5831" then some 6
  else if addr = "0xea1523eb5f0ecddb1875122ac2c9470a978e3010" then some 6
  else if addr = "0xc5efb9e4efd91e68948d5039819494eea56ffa46" then some 18
  else none

/-- Source `getTokenDecimals`. -/
def getTokenDecimals (addr : Nat) : Int :=
  match tokenDecimals (lowerHex addr) with
  | some d => d
  | none => 18

/-- Source `getAssetSymbol`. -/
def getAssetSymbol (addr : Nat) : String :=
  match tokenSymbols (lowerHex addr) with
  | some s => s
  | none => ""

/-- Source `formatTokenAmount` (`big.Int` division and modulus are Euclidean). -/
def formatTokenAmount (value : Int) (decimals : Int) : String :=
  if value = 0 then "0"
  else if decimals ≤ 0 then toString value
  else
    let divisor : Int := 10 ^ decimals.toNat
    let whole := value / divisor
    let remainder := value % divisor
    if remainder = 0 then toString whole
    else
      let digits := (toString remainder).data
      let padded := List.replicate (decimals.toNat - digits.length) '0' ++ digits
      let trimmed := (padded.reverse.dropWhile (fun c => c == '0')).reverse
      if trimmed.isEmpty then toString whole
      else toString whole ++ "." ++ String.mk trimmed

/-- Source `transferDetails`; `src` and `dst` are the fields `from` and `to`. -/
structure transferDetails where
  src : Nat
  dst : Nat
  value : Nat
  usdValue : ℚ
  isSpecialWalletInvolved : Bool

/-- Source `isSpecialTransfer`. -/
def isSpecialTransfer (src dst : Nat) : Bool := src == specialWallet || dst == specialWallet

/-- What the outside answers while one log is turned into a message. -/
structure LogIO where
  /-- The text `time.Now().Format("02.01.2006 15:04:05")`. -/
  stamp : String
  /-- The clock as read for the `time` field of the notification item. -/
  now : Int
  /-- What `estimateUSDValue` returns for the log (read for Transfer logs only). -/
  usdValue : ℚ
  /-- The text `fmt.Sprintf("%.2f", usdValue)`. -/
  usdText : String
  /-- Go `common.Address.Hex()`: the mixed-case checksummed form of an address. -/
  addressHex : Nat → String

/-- Source `parseTransferDetails`. -/
def parseTransferDetails (io : LogIO) (lg : Log) : Option transferDetails :=
  match lg.Topics with
  | _ :: t1 :: t2 :: _ =>
    let src := topicAddress t1
    let dst := topicAddress t2
    let value := if lg.Data.length ≥ 32 then bytesValue lg.Data else 0
    some { src := src, dst := dst, value := value, usdValue := io.usdValue,
           isSpecialWalletInvolved := isSpecialTransfer src dst }
  | _ => none

/-- Source `formatEventMessage`.  `none` stands for the run-time panic of
`lg.Topics[0]` on a log without topics. -/
def formatEventMessage (env : Env) (reg : Registry) (io : LogIO) (lg : Log) :
    Option (String × String) :=
  let cat := GetCategoryLabel reg lg.Address
  let tx := hashHex lg.TxHash
  if lg.Topics.head? = some moduleInstalledTopic then
    let moduleId := String.mk (hexBytes lg.Data)
    some ("🔴 [" ++ cat ++ "] InstallModule",
      "📋 **Tx:** \x60" ++ tx ++ "\x60\n🔧 **Modül:** \x60" ++ moduleId
        ++ "\x60\n⏰ **Zaman:** \x60" ++ io.stamp ++ "\x60")
  else
    let details : Option transferDetails :=
      if lg.Topics.head? = some transferTopic then parseTransferDetails io lg else none
    match details with
    | some d =>
      let fromWatched := reg.WatchMap (lowerHex d.src)
      let toWatched := reg.WatchMap (lowerHex d.dst)
      if !fromWatched && !toWatched then some ("", "")
      else
        let sym := getAssetSymbol lg.Address
        let dec := getTokenDecimals lg.Address
        let amount := formatTokenAmount (d.value : Int) dec
        let computedBody :=
          "📋 **Tx:** \x60" ++ tx ++ "\x60\n"
            ++ ("📤 **From:** \x60" ++ io.addressHex d.src ++ "\x60\n")
            ++ ("📥 **To:** \x60" ++ io.addressHex d.dst ++ "\x60\n")
            ++ (if sym ≠ "" then "💰 **Value:** \x60" ++ amount ++ " " ++ sym ++ "\x60\n"
                else "💰 **Value:** \x60" ++ amount ++ "\x60\n")
            ++ (if d.usdValue > 0 then "💵 **USD:** \x60~$" ++ io.usdText ++ "\x60\n" else "")
            ++ (if d.isSpecialWalletInvolved then "🚨 **ÖZEL CÜZDAN İLGİLİ**\n" else "")
            ++ ("⏰ **Zaman:** \x60" ++ io.stamp ++ "\x60")
        let titleCategory := if sym ≠ "" then sym else cat
        let isImportant := determineImportance env ("[" ++ titleCategory ++ "] Transfer") computedBody
        let emoji := if isImportant then "🔴" else "🔵"
        some (emoji ++ " [" ++ titleCategory ++ "] Transfer", computedBody)
    | none =>
      match lg.Topics with
      | [] => none
      | topic0 :: _ =>
        let eventName := resolveEventName reg lg.Address topic0
        if EqualFold eventName "DiamondCut" then
          some ("🔴 [" ++ cat ++ "] InstallModule",
            "📋 **Tx:** \x60" ++ tx
              ++ "\x60\n⚙️ **Event:** \x60DiamondCut→InstallModule\x60\n⏰ **Zaman:** \x60"
              ++ io.stamp ++ "\x60")
        else
          some ("🔵 [" ++ cat ++ "] " ++ eventName,
            "📋 **Tx:** \x60" ++ tx ++ "\x60\n⏰ **Zaman:** \x60" ++ io.stamp ++ "\x60")

/-! ## Live events and the notification buffer -/

/-- The transaction of a log as `client.TransactionByHash` returns it. -/
structure NativeTx where
  /-- Go `tx.Value()`, in wei. -/
  value : Int
  /-- Go `tx.To()` (`none`: nil, a contract creation). -/
  recipient : Option Nat
  /-- The sender recovered by `types.Sender` (`none`: the chain id or the sender
  could not be obtained). -/
  sender : Option Nat
  /-- The text `valueEth.Text('f', 6)` of the value in ether. -/
  valStr : String

/-- What the outside answers during one call of `tryBuildNativeTransferNotification`. -/
structure TxLookupIO where
  /-- The clock as read by `time.Since` in the dedup check. -/
  sinceNow : Int
  /-- The clock as read when the hash is recorded in `nativeSeen`. -/
  storeNow : Int
  /-- The text `time.Now().Format("02.01.2006 15:04:05")`. -/
  stamp : String
  /-- The transaction (`none`: `ARBITRUM_RPC` blank, the dial or the lookup failed,
  or no transaction came back). -/
  tx : Option NativeTx

/-- Source `tryBuildNativeTransferNotification`: the title and body when the third
result is true, and `nativeSeen` afterwards. -/
def tryBuildNativeTransferNotification (reg : Registry) (nativeSeen : String → Option Int)
    (lg : Log) (io : TxLookupIO) : Option (String × String) × (String → Option Int) :=
  let txh := hashHex lg.TxHash
  let seenLately : Bool :=
    match nativeSeen txh with
    | some ts => decide (io.sinceNow - ts < nativeSeenTTL)
    | none => false
  if seenLately then (none, nativeSeen)
  else
    match io.tx with
    | none => (none, nativeSeen)
    | some tx =>
      if tx.value ≤ 0 then (none, nativeSeen)
      else
        let toAddr := match tx.recipient with
          | some a => lowerHex a
          | none => ""
        match tx.sender with
        | none => (none, nativeSeen)
        | some sender =>
          let fromAddr := lowerHex sender
          let isToWatched := decide (toAddr ≠ "") && reg.WatchMap toAddr
          let isFromWatched := reg.WatchMap fromAddr
          if !isToWatched && !isFromWatched then (none, nativeSeen)
          else
            let dir := if isFromWatched && isToWatched then "internal"
              else if isFromWatched then "out" else "in"
            let title := "🔵" ++ " [" ++ "ETH" ++ "] Transfer (ETH)"
            let body := "📋 **Tx:** \x60" ++ txh ++ "\x60\n📤 **From:** \x60" ++ fromAddr
              ++ "\x60\n📥 **To:** \x60" ++ toAddr ++ "\x60\n💰 **Value:** \x60" ++ tx.valStr
              ++ " ETH\x60\n🏷️ **Dir:** \x60" ++ dir ++ "\x60\n⏰ **Zaman:** \x60" ++ io.stamp
              ++ "\x60"
            (some (title, body), fun h => if h = txh then some io.storeNow else nativeSeen h)

/-- The state the live path works on. -/
structure ListenerState where
  /-- Source `nativeSeen`. -/
  nativeSeen : String → Option Int
  /-- The items waiting in the channel `notificationBuffer` (capacity 100). -/
  notificationBuffer : List notificationItem

/-- The non-blocking send `select { case notificationBuffer <- item: default: }`:
the item is dropped when the channel is full. -/
def offer (buffer : List notificationItem) (item : notificationItem) : List notificationItem :=
  if buffer.length < 100 then buffer ++ [item] else buffer

/-- Source `handleLiveEvent` (`none`: a panic inside `formatEventMessage`). -/
def handleLiveEvent (env : Env) (reg : Registry) (st : ListenerState) (lg : Log)
    (lookup : TxLookupIO) (io : LogIO) : Option ListenerState :=
  if !isRelevantLog reg.WatchMap lg then some st
  else
    let native : Option (String × String) × (String → Option Int) :=
      if lg.TxHash ≠ 0 then tryBuildNativeTransferNotification reg st.nativeSeen lg lookup
      else (none, st.nativeSeen)
    match native with
    | (some (titleN, bodyN), seen) =>
      some { nativeSeen := seen,
             notificationBuffer :=
               offer st.notificationBuffer { title := titleN, body := bodyN, time := io.now } }
    | (none, seen) =>
      match formatEventMessage env reg io lg with
      | none => none
      | some (title, body) =>
        some { nativeSeen := seen,
               notificationBuffer :=
                 offer st.notificationBuffer { title := title, body := body, time := io.now } }

/-- The inner loop of `bootstrapScanWindowed` over the logs of one window: the items
sent on `notificationBuffer`, in order (the send blocks until there is room).
`notify` is `os.Getenv("BOOTSTRAP_NOTIFY") != "false"`; `none` stands for a panic
inside `formatEventMessage`. -/
def bootstrapNotify (env : Env) (reg : Registry) (notify : Bool) (io : Log → LogIO) :
    List Log → Option (List notificationItem)
  | [] => some []
  | lg :: rest =>
    match formatEventMessage env reg (io lg) lg with
    | none => none
    | some (title, body) =>
      (bootstrapNotify env reg notify io rest).map (fun items =>
        if notify then { title := title, body := body, time := (io lg).now } :: items
        else items)

/-! ## Historical backfill -/

/-- One window of the backfill: the inclusive block range that was queried, what
`client.FilterLogs` answered (`none`: an error, after which the loop sleeps half a
second and goes on), and whether `formatEventMessage` panicked on one of the logs
returned, which ends the scan. -/
structure WindowScan where
  fromBlock : Int
  toBlock : Int
  logs : Option (List Log)
  panicked : Bool

/-- The block range of a window. -/
def WindowScan.range (w : WindowScan) : Int × Int := (w.fromBlock, w.toBlock)

/-- The loop of `bootstrapScanWindowed`, with the loop variables `remaining` and
`cursor`; the first argument bounds the number of iterations (`none`: the bound was
reached with `remaining > 0`).  `math.Min` on the two counts is their minimum
(both are far below `2 ^ 53`, where the conversion to `float64` is exact).  The
logs a window returns go through `bootstrapNotify`; when `formatEventMessage`
panics on one of them the goroutine ends there and no further window is queried. -/
def scanWindows (env : Env) (reg : Registry) (notify : Bool) (io : Log → LogIO)
    (filterLogs : Int → Int → Option (List Log)) (maxWindow toHead : Int) :
    Nat → Int → Int → Option (List WindowScan)
  | 0, remaining, _ => if remaining > 0 then none else some []
  | fuel + 1, remaining, cursor =>
    if remaining > 0 then
      let win := min maxWindow remaining
      let toIncl := if cursor + win - 1 > toHead then toHead else cursor + win - 1
      let logs := filterLogs cursor toIncl
      match bootstrapNotify env reg notify io (logs.getD []) with
      | none =>
        some [{ fromBlock := cursor, toBlock := toIncl, logs := logs, panicked := true }]
      | some _ =>
        let scan : WindowScan :=
          { fromBlock := cursor, toBlock := toIncl, logs := logs, panicked := false }
        let processed := toIncl - cursor + 1
        if processed ≤ 0 then some [scan]
        else
          (scanWindows env reg notify io filterLogs maxWindow toHead fuel
            (remaining - processed) (cursor + processed)).map (fun rest => scan :: rest)
    else some []

/-- Source `bootstrapScanWindowed`, as the windows it queries.  `blocksEnv` and
`maxWindowEnv` are what `strconv.Atoi` makes of `BOOTSTRAP_BLOCKS` and
`BOOTSTRAP_MAX_WINDOW` (`none`: unset or not a number), `head` is the answer of
`client.BlockNumber` (`none`: an error, and the scan returns at once), `notify` is
`os.Getenv("BOOTSTRAP_NOTIFY") != "false"`.  The loop runs for at most `total`
iterations, which the theorems show to be enough. -/
def bootstrapScanWindowed (env : Env) (reg : Registry) (notify : Bool) (io : Log → LogIO)
    (filterLogs : Int → Int → Option (List Log))
    (blocksEnv maxWindowEnv : Option Int) (head : Option Int) : Option (List WindowScan) :=
  let total0 : Int :=
    match blocksEnv with
    | some v => if v ≤ 0 then 2000 else v
    | none => 2000
  let maxWindow : Int :=
    match maxWindowEnv with
    | some v => if v > 0 then v else 500
    | none => 500
  match head with
  | none => some []
  | some head =>
    let total := if total0 > head then head else total0
    let start0 := head - total
    let start := if start0 < 0 then 0 else start0
    scanWindows env reg notify io filterLogs maxWindow head total.toNat total start

/-- The items the whole backfill sends, window after window. -/
def bootstrapSends (env : Env) (reg : Registry) (notify : Bool) (io : Log → LogIO) :
    List WindowScan → Option (List notificationItem)
  | [] => some []
  | w :: rest =>
    match bootstrapNotify env reg notify io (w.logs.getD []) with
    | none => none
    | some items => (bootstrapSends env reg notify io rest).map (fun more => items ++ more)

/-- Symbols without letter case that the listener writes into its messages. -/
def caselessSymbols : List Char :=
  ['📋', '⏰', '🔧', '⚙', '\uFE0F', '→', '🔴', '🔵', '📤', '📥', '💰', '💵', '🚨', '🏷', '📊', '⛽', '📢']

/-- What the theorems on emitted messages assume of Go `strings.ToLower`: it maps
a text character by character, ASCII characters as `Char.toLower` does, and leaves
the symbols of `caselessSymbols` as they are. -/
def GoToLower (env : Env) : Prop :=
  ∃ f : Char → Char, (∀ s : String, env.toLower s = String.mk (s.data.map f))
    ∧ (∀ c : Char, c.val < 128 → f c = c.toLower)
    ∧ (∀ c ∈ caselessSymbols, f c = c)

/-- The characters of a time stamp `02.01.2006 15:04:05`. -/
def stampAlphabet : List Char := "0123456789.: ".data

/-- Source `RegisterEventName`. -/
def RegisterEventName (reg : Registry) (addr topic0 : Nat) (name : String) : Registry :=
  { reg with
    addressTopicNames := fun addrKey topicKey =>
      if addrKey = lowerHex addr ∧ topicKey = hashHex topic0 then some name
      else reg.addressTopicNames addrKey topicKey }

/-- The first production wallet of `prodWallets`, labelled `Main App`. -/
def mainApp : Nat := 0x33381eC82DD811b1BABa841f1e2410468aeD7047

/-- The hash of `Approval(address,address,uint256)`. -/
def approvalTopic : Nat :=
  0x8c5be1e5ebec7d5bd14f71427d1e84f3dd0314c0f7b2291e5b200ac8c7c3b925

/-- A small registry for evaluating the code on concrete logs: the wallet
`mainApp` is watched and labelled, no interface file is loaded, and `Approval` is
registered globally. -/
def sampleRegistry : Registry where
  WatchMap := fun key => key == lowerHex mainApp
  AddressCategory := fun key => if key = lowerHex mainApp then some "Main App" else none
  addressTopicNames := fun _ _ => none
  globalTopicNames := fun key => if key = hashHex approvalTopic then some "Approval" else none

/-- Answers of the outside for evaluating the code on concrete logs (addresses
are printed without the capitals of the checksum). -/
def sampleIO : LogIO where
  stamp := "01.01.2025 12:00:00"
  now := 0
  usdValue := 0
  usdText := "0.00"
  addressHex := fun a => (lowerHex a)

/-- The ASCII characters of the body of an event that is neither a module install
nor a Transfer: those of the fixed text, of a hash in hexadecimal and of a time
stamp. -/
def quietAlphabet : List Char := "0123456789abcdefx.: *T\x60\nZmn".data

/-! ## Amounts as decimal strings -/

/-- Source `formatBalance` (balance.go).  `big.Int` division and modulus are
Euclidean, and `Exp` with an exponent that is not positive gives 1. -/
def formatBalance (balance : Int) (decimals : Int) : String :=
  if balance = 0 then "0"
  else
    let divisor : Int := 10 ^ decimals.toNat
    let whole := balance / divisor
    let remainder := balance % divisor
    if remainder = 0 then toString whole
    else
      let digits := (toString remainder).data
      let padded := List.replicate (decimals.toNat - digits.length) '0' ++ digits
      let trimmed := (padded.reverse.dropWhile (fun c => c == '0')).reverse
      if trimmed.isEmpty then toString whole
      else toString whole ++ "." ++ String.mk trimmed

/-- Source `formatWei`: the same steps with 18 decimals written out. -/
def formatWei (value : Int) : String :=
  if value = 0 then "0"
  else
    let divisor : Int := 10 ^ 18
    let whole := value / divisor
    let remainder := value % divisor
    if remainder = 0 then toString whole
    else
      let digits := (toString remainder).data
      let padded := List.replicate (18 - digits.length) '0' ++ digits
      let trimmed := (padded.reverse.dropWhile (fun c => c == '0')).reverse
      if trimmed.isEmpty then toString whole
      else toString whole ++ "." ++ String.mk trimmed

/-- The number a decimal string denotes: an optional minus sign, then a numeral
read by `parseDecimal`. -/
def decimalValue (s : String) : Option ℚ :=
  match s.data with
  | '-' :: rest => (parseDecimal (String.mk rest)).map (fun q => -q)
  | _ => parseDecimal s

/-- The digits after the first dot of a string (none when there is no dot). -/
def fractionDigits (s : String) : List Char :=
  (s.data.dropWhile (fun c => c != '.')).drop 1

/-! ## Machine numbers -/

/-- The integer nearest to `x`, a tie going to the even one: the rounding mode of
`big.Float` (`ToNearestEven`, the default) and of `float64`. -/
def roundHalfEven (x : ℚ) : Int :=
  let k := ⌊x⌋
  let r := x - k
  if r < 1 / 2 then k
  else if r > 1 / 2 then k + 1
  else if k % 2 = 0 then k else k + 1

/-- The number `x` rounded to a mantissa of `prec` bits, as a `big.Float` of
precision `prec` holds the exact result `x` of an operation. -/
def roundToPrec (prec : Nat) (x : ℚ) : ℚ :=
  if x = 0 then 0
  else
    let e := Int.log 2 |x|
    let ulp : ℚ := 2 ^ (e + 1 - prec)
    roundHalfEven (x / ulp) * ulp

/-- The `float64` nearest to `x`: 53 bits of mantissa, and below `2 ^ (-1022)` the
multiples of `2 ^ (-1074)`.  A result of `2 ^ 1024` or more stands for an infinity. -/
def float64Round (x : ℚ) : ℚ :=
  if x = 0 then 0
  else
    let e := Int.log 2 |x|
    let ulp : ℚ := 2 ^ (max e (-1022) - 52)
    roundHalfEven (x / ulp) * ulp

/-- The value an `int64` holds after an operation whose exact result is `x`. -/
def wrapInt64 (x : Int) : Int := (x + 2 ^ 63) % 2 ^ 64 - 2 ^ 63

/-- A Go `big.Float`: its precision in bits and its value. -/
structure BigFloat where
  prec : Nat
  val : ℚ

/-- Go `new(big.Float).SetInt(x)`: the precision becomes the larger of the bit
length of `x` and 64, so the value is held exactly. -/
def BigFloat.SetInt (x : Int) : BigFloat :=
  { prec := max (Nat.size x.natAbs) 64, val := x }

/-- Go `new(big.Float).SetFloat64(x)`: 53 bits, the value of the `float64`. -/
def BigFloat.SetFloat64 (x : ℚ) : BigFloat :=
  { prec := 53, val := x }

/-- Go `z.Quo(x, y)` on a receiver `z` of precision `zprec`: a precision of 0 (a
new `big.Float`) becomes the larger of the precisions of the operands, and the
quotient is rounded to it. -/
def BigFloat.Quo (zprec : Nat) (x y : BigFloat) : BigFloat :=
  let p := if zprec = 0 then max x.prec y.prec else zprec
  { prec := p, val := roundToPrec p (x.val / y.val) }

/-- Go `z.Mul(x, y)` on a receiver `z` of precision `zprec`, as for `Quo`. -/
def BigFloat.Mul (zprec : Nat) (x y : BigFloat) : BigFloat :=
  let p := if zprec = 0 then max x.prec y.prec else zprec
  { prec := p, val := roundToPrec p (x.val * y.val) }

/-- Go `x.Float64()`: the nearest `float64` (`2 ^ 1024` or more: an infinity). -/
def BigFloat.Float64 (x : BigFloat) : ℚ := float64Round x.val

/-- Go `math.Pow10(n)` for `0 ≤ n ≤ 31`, where it is read from a table of the
constants `1e0` to `1e31`: the `float64` nearest to `10 ^ n`. -/
def Pow10 (n : Int) : ℚ := float64Round (10 ^ n.toNat)

/-! ## Cache lifetime -/

/-- Source `tokenPriceTTL`: 30 seconds. -/
def tokenPriceTTL : Int := 30 * second

/-- Source `getTokenPriceTTL`; `ttlVar` is
`strings.TrimSpace(os.Getenv("TOKEN_PRICE_CACHE_TTL"))`.  The conversion
`time.Duration(x)` of a positive `float64` below `2 ^ 63` drops its fraction; for
`2 ^ 63` or more Go leaves the result of the conversion to the implementation
(`none`).  The products with `time.Minute` and `time.Second` are products of
`int64`, and `f * 60` is a product of `float64`. -/
def getTokenPriceTTL (env : Env) (ttlVar : String) : Option Int :=
  if ttlVar ≠ "" then
    match env.parseFloat ttlVar with
    | some f =>
      if f > 0 then
        if f ≥ 1 then
          if f < 2 ^ 63 then some (wrapInt64 (⌊f⌋ * minute)) else none
        else some (wrapInt64 (⌊float64Round (f * 60)⌋ * second))
      else some tokenPriceTTL
    | none => some tokenPriceTTL
  else some tokenPriceTTL

/-! ## Block search by time -/

/-- The loop of `findBlockByTimestamp`, run for at most the given number of
iterations.  `header b` is the `Time` field of `HeaderByNumber(b)` (`none`: the
call failed); `target` is `uint64(target.Unix())`.  The outer `none` means that the
iterations did not suffice, the inner `none` is the error return.  Block numbers
stay far below `2 ^ 63`, where `lo + hi` does not wrap. -/
def findBlockLoop (header : Nat → Option Nat) (target : Nat) :
    Nat → Nat → Nat → Option (Option Nat)
  | 0, lo, hi => if lo < hi then none else some (some lo)
  | fuel + 1, lo, hi =>
    if lo < hi then
      let mid := (lo + hi) / 2
      match header mid with
      | none => some none
      | some t =>
        if t ≥ target then findBlockLoop header target fuel lo mid
        else findBlockLoop header target fuel (mid + 1) hi
    else some (some lo)

/-- Source `findBlockByTimestamp` (stats.go).  `blockNumber` is what
`client.BlockNumber` returns (`none`: an error), `targetUnix` is `target.Unix()`,
an `int64` that the source converts to `uint64`. -/
def findBlockByTimestamp (blockNumber : Option Nat) (header : Nat → Option Nat)
    (targetUnix : Int) : Option (Option Nat) :=
  match blockNumber with
  | none => some none
  | some head => findBlockLoop header (targetUnix % 2 ^ 64).toNat head 0 head

/-! ## Polling -/

/-- What the node answers at one tick of a polling loop. -/
structure PollTick where
  /-- What `client.BlockNumber` returns (`none`: an error). -/
  head : Option Nat
  /-- Whether `client.FilterLogs` succeeds when the tick comes to call it. -/
  logsOk : Bool

/-- One call of `client.FilterLogs` by a polling loop, with the value of `last`
before and after the tick and the head read at the tick. -/
structure PollQuery where
  lastBefore : Nat
  head : Nat
  fromBlock : Nat
  toBlock : Nat
  ok : Bool
  lastAfter : Nat
  deriving DecidableEq

/-- One tick of the loop of `pollLogs`: the new `last`, and the query if one was made. -/
def pollStep (last : Nat) (t : PollTick) : Nat × Option PollQuery :=
  match t.head with
  | none => (last, none)
  | some cur =>
    if cur ≤ last then (last, none)
    else
      let blockRange := cur - last
      if blockRange > 300 then
        let next := if t.logsOk then last + 300 else last
        (next, some { lastBefore := last, head := cur, fromBlock := last + 1,
                      toBlock := last + 300, ok := t.logsOk, lastAfter := next })
      else if blockRange < 100 then (last, none)
      else
        let next := if t.logsOk then last + blockRange else last
        (next, some { lastBefore := last, head := cur, fromBlock := last + 1,
                      toBlock := last + blockRange, ok := t.logsOk, lastAfter := next })

/-- Source `pollLogs`, from the value `last` has when the loop starts, over the
ticks until the context is cancelled: the final `last` and the queries made. -/
def pollLogs (last : Nat) : List PollTick → Nat × List PollQuery
  | [] => (last, [])
  | t :: rest =>
    let step := pollStep last t
    let run := pollLogs step.1 rest
    (run.1, (match step.2 with
      | some q => [q]
      | none => []) ++ run.2)

/-- One tick of the loop of `pollTransfers`, from its own statements. -/
def pollTransfersStep (last : Nat) (t : PollTick) : Nat × Option PollQuery :=
  match t.head with
  | none => (last, none)
  | some cur =>
    if cur ≤ last then (last, none)
    else
      let blockRange := cur - last
      if blockRange > 300 then
        let next := if t.logsOk then last + 300 else last
        (next, some { lastBefore := last, head := cur, fromBlock := last + 1,
                      toBlock := last + 300, ok := t.logsOk, lastAfter := next })
      else if blockRange < 100 then (last, none)
      else
        let next := if t.logsOk then last + blockRange else last
        (next, some { lastBefore := last, head := cur, fromBlock := last + 1,
                      toBlock := last + blockRange, ok := t.logsOk, lastAfter := next })

/-- Source `pollTransfers`, as `pollLogs` is modelled.  The argument `topicIndex`
chooses the topic slot of the query filter (`buildQuery`) and nothing else. -/
def pollTransfers (topicIndex : Int) (last : Nat) : List PollTick → Nat × List PollQuery
  | [] => (last, [])
  | t :: rest =>
    let step := pollTransfersStep last t
    let run := pollTransfers topicIndex step.1 rest
    (run.1, (match step.2 with
      | some q => [q]
      | none => []) ++ run.2)

/-! ## Amounts in dollars -/

/-- The number of hundredths nearest to `x`, a tie going to the even one: what
`%.2f` prints of a `float64`, read without the dot. -/
def roundCents (x : ℚ) : Int :=
  let k := ⌊100 * x⌋
  let r := 100 * x - k
  if r < 1 / 2 then k
  else if r > 1 / 2 then k + 1
  else if k % 2 = 0 then k else k + 1

/-- Go `fmt.Sprintf("%.2f", x)` for a finite `x`. -/
def formatFixed2 (x : ℚ) : String :=
  let n := (roundCents |x|).toNat
  (if x < 0 then "-" else "") ++ toString (n / 100) ++ "."
    ++ String.mk [Nat.digitChar (n / 10 % 10), Nat.digitChar (n % 10)]

/-- Source `getNativeUSDPrice`; the arguments are the values of
`strings.TrimSpace(os.Getenv(...))` for `NATIVE_USD_PRICE` and
`IMPORTANT_NATIVE_PRICE`. -/
def getNativeUSDPrice (env : Env) (nativeVar importantVar : String) : ℚ :=
  let first : Option ℚ :=
    if nativeVar ≠ "" then
      match env.parseFloat nativeVar with
      | some f => if f > 0 then some f else none
      | none => none
    else none
  match first with
  | some f => f
  | none =>
    let other : Option ℚ :=
      if importantVar ≠ "" then
        match env.parseFloat importantVar with
        | some f => if f > 0 then some f else none
        | none => none
      else none
    match other with
    | some f => f
    | none => 3000

/-! ## Native transfers found by the block scanner -/

/-- The receipt of a transaction as the scanner reads it. -/
structure Receipt where
  /-- Go `rcpt.Status`. -/
  Status : Nat
  /-- The text `gwei.Text('f', 2)` of the effective gas price (`none`:
  `EffectiveGasPrice` is nil). -/
  gasText : Option String

/-- One transaction of a scanned block, as the loop body of `startNativeTxScanner`
has it after reading the value and the two addresses (on the typed path from the
decoded transaction and its recovered sender, on the raw path from the JSON
fields). -/
structure ScannedTx where
  /-- The key `txh`: `tx.Hash().Hex()`, or the field `hash` of the raw block. -/
  hash : String
  /-- The value in wei. -/
  value : Int
  /-- The lower-cased sender. -/
  fromAddr : String
  /-- The lower-cased recipient (empty for a contract creation). -/
  toAddr : String
  /-- The text `valueEth.Text('f', 6)` of the value in ether. -/
  valStr : String
  /-- What `client.TransactionReceipt` returns (`none`: nil). -/
  receipt : Option Receipt

/-- What the outside answers while the scanner handles one transaction. -/
structure ScanIO where
  /-- The trimmed value of `NATIVE_USD_PRICE`. -/
  nativeVar : String
  /-- The trimmed value of `IMPORTANT_NATIVE_PRICE`. -/
  importantVar : String
  /-- The clock as read by `time.Since` in the dedup check. -/
  sinceNow : Int
  /-- The clock as read when the hash is recorded in `nativeSeen`. -/
  storeNow : Int
  /-- The text `time.Now().Format("02.01.2006 15:04:05")`. -/
  stamp : String

/-- The `big.Float` `ethUSD` of the scanner for a value in wei: the product of
the price, as a `big.Float` of 53 bits, and of the quotient of the value, as a
`big.Float` of the precision `SetInt` gives it, by `1e18`; quotient and product
are new values and take the larger precision of their operands. -/
def ethUSD (nativePrice : ℚ) (value : Int) : BigFloat :=
  BigFloat.Mul 0 (BigFloat.SetFloat64 nativePrice)
    (BigFloat.Quo 0 (BigFloat.SetInt value) (BigFloat.SetFloat64 (10 ^ 18)))

/-- The loop body of `startNativeTxScanner` for one transaction (the typed and
the raw path run the same statements): the notification offered to
`notificationBuffer`, if any, and `nativeSeen` afterwards.  The amount is printed
from the `float64` of `ethUSD`, an infinity as `+Inf`. -/
def scanNativeTx (env : Env) (reg : Registry) (nativeSeen : String → Option Int)
    (tx : ScannedTx) (io : ScanIO) : Option (String × String) × (String → Option Int) :=
  if tx.value ≤ 0 then (none, nativeSeen)
  else
    let isToWatched := decide (tx.toAddr ≠ "") && reg.WatchMap tx.toAddr
    let isFromWatched := reg.WatchMap tx.fromAddr
    if !isToWatched && !isFromWatched then (none, nativeSeen)
    else
      let seenLately : Bool :=
        match nativeSeen tx.hash with
        | some ts => decide (io.sinceNow - ts < nativeSeenTTL)
        | none => false
      if seenLately then (none, nativeSeen)
      else
        let dir := if isFromWatched && isToWatched then "internal"
          else if isFromWatched then "out" else "in"
        let nativePrice := getNativeUSDPrice env io.nativeVar io.importantVar
        let f := (ethUSD nativePrice tx.value).Float64
        let usdStr := "~$" ++ (if f ≥ 2 ^ 1024 then "+Inf" else formatFixed2 f)
        let status := match tx.receipt with
          | some r => if r.Status = 1 then "success" else if r.Status = 0 then "reverted" else ""
          | none => ""
        let effGas := match tx.receipt with
          | some r =>
            match r.gasText with
            | some g => g ++ " gwei"
            | none => ""
          | none => ""
        let body := "📋 **Tx:** \x60" ++ tx.hash ++ "\x60\n📤 **From:** \x60" ++ tx.fromAddr
          ++ "\x60\n📥 **To:** \x60" ++ tx.toAddr ++ "\x60\n💰 **Value:** \x60" ++ tx.valStr
          ++ " ETH\x60\n💵 **USD:** \x60" ++ usdStr ++ "\x60\n🏷️ **Dir:** \x60" ++ dir
          ++ "\x60\n📊 **Status:** \x60" ++ status ++ "\x60\n⛽ **Gas:** \x60" ++ effGas
          ++ "\x60\n⏰ **Zaman:** \x60" ++ io.stamp ++ "\x60"
        let imp := determineImportance env "[ETH] Transfer (ETH)" body
        let emoji := if imp then "🔴" else "🔵"
        (some (emoji ++ " [ETH] Transfer (ETH)", body),
          fun h => if h = tx.hash then some io.storeNow else nativeSeen h)

/-! ## Estimated value of a token transfer -/

/-- Whether the key is one of the two addresses `estimateUSDValue` compares with
by `strings.EqualFold`. -/
def isUSDCAddress (addr : String) : Bool :=
  addr == "0xaf88d065e77c8cc2239327c5edb3a432268e5831"
    || addr == "0xea1523eb5f0ecddb1875122ac2c9470a978e3010"

/-- The `big.Float` `valueFloat` of `estimateUSDValue`: the amount, a `big.Float`
of the precision `SetInt` gives it, divided in place by the `float64`
`math.Pow10(decimals)`. -/
def valueFloat (value : Int) (decimals : Int) : BigFloat :=
  BigFloat.Quo (BigFloat.SetInt value).prec (BigFloat.SetInt value)
    (BigFloat.SetFloat64 (Pow10 decimals))

/-- The `float64` `usdValue` that `estimateUSDValue` computes from `valueFloat` and
a price: `new(big.Float).Mul(valueFloat, priceFloat)` converted by `Float64()`. -/
def usdFloat64 (amount : BigFloat) (price : ℚ) : ℚ :=
  (BigFloat.Mul 0 amount (BigFloat.SetFloat64 price)).Float64

/-- Source `estimateUSDValue`: the result and the state of the oracle afterwards.
`w1` is the world of the first call of `fetchTokenUSDPrice`, `w2` that of the call
of the first check and `w3` that of the call of the second check, each read only
if its call is made.  The amount is a `big.Float` of the precision `SetInt` gives
it, the products take the larger precision of their operands, and `usdValue` is
the `float64` of the product; an infinity (`2 ^ 1024` or more here) compares with
the constants of the checks as the number standing for it does. -/
def estimateUSDValue (st : OracleState) (value : Int) (tokenAddr : Nat)
    (w1 w2 w3 : FetchWorld) : ℚ × OracleState :=
  let addr := lowerHex tokenAddr
  let r1 := fetchTokenUSDPrice st addr w1
  if r1.price ≤ 0 ∧ isUSDCAddress addr = false then (0, r1.state)
  else
    let price1 : ℚ := if r1.price ≤ 0 then 1 else r1.price
    let decimals0 := getTokenDecimals tokenAddr
    let decimals := if decimals0 > 30 then 18 else decimals0
    let amount := valueFloat value decimals
    let usd1 := usdFloat64 amount price1
    let check1 : ℚ × OracleState :=
      if usd1 > 1000000 then
        let r2 := fetchTokenUSDPrice r1.state addr w2
        (if r2.price > 0 then usdFloat64 amount r2.price else usd1, r2.state)
      else (usd1, r1.state)
    let check2 : ℚ × OracleState :=
      if isStablecoin addr = true ∧ check1.1 > 100 ∧ check1.1 < 1000 then
        let r3 := fetchTokenUSDPrice check1.2 addr w3
        (if r3.price > 0 then usdFloat64 amount r3.price else check1.1, r3.state)
      else check1
    if check2.1 > 1000000 then (0, check2.2) else check2

/-! ## Texts without a given pair of neighbours -/

/-- Whether no `a` is directly followed by `b`. -/
def noPair (a b : Char) : List Char → Bool
  | x :: y :: rest => !(x == a && y == b) && noPair a b (y :: rest)
  | _ => true

/-- A text in which no `o` is followed by `d` and which does not end in `o`: such
texts can be put one after the other without `od` coming up, and none of them
contains `module`. -/
def quietText (l : List Char) : Prop := noPair 'o' 'd' l = true ∧ l.getLast? ≠ some 'o'

/-- The characters of an address or a hash in hexadecimal, in either case. -/
def hexAlphabet : List Char := "0123456789abcdefABCDEFxX".data

/-- The characters of a numeral with a dot. -/
def decimalAlphabet : List Char := "0123456789.".data

/-- The characters of the variable parts of a transfer message: those of
hexadecimal text, of numerals, of a time stamp and of the token symbols. -/
def plainAlphabet : List Char := "0123456789abcdefABCDEFxX.: USDTWEHBCPAG".data

/-- The body `formatEventMessage` writes for a Transfer, as a function of its
variable parts (`usd`: whether the line with the dollar amount is written). -/
def transferBodyText (tx src dst amount sym : String) (usd : Bool) (usdText : String)
    (special : Bool) (stamp : String) : String :=
  "📋 **Tx:** \x60" ++ tx ++ "\x60\n"
    ++ ("📤 **From:** \x60" ++ src ++ "\x60\n")
    ++ ("📥 **To:** \x60" ++ dst ++ "\x60\n")
    ++ (if sym ≠ "" then "💰 **Value:** \x60" ++ amount ++ " " ++ sym ++ "\x60\n"
        else "💰 **Value:** \x60" ++ amount ++ "\x60\n")
    ++ (if usd then "💵 **USD:** \x60~$" ++ usdText ++ "\x60\n" else "")
    ++ (if special then "🚨 **ÖZEL CÜZDAN İLGİLİ**\n" else "")
    ++ ("⏰ **Zaman:** \x60" ++ stamp ++ "\x60")

/-- The body the block scanner writes for a native transfer, as a function of its
variable parts. -/
def scanBodyText (hash fromAddr toAddr valStr usdText dir status effGas stamp : String) :
    String :=
  "📋 **Tx:** \x60" ++ hash ++ "\x60\n📤 **From:** \x60" ++ fromAddr
    ++ "\x60\n📥 **To:** \x60" ++ toAddr ++ "\x60\n💰 **Value:** \x60" ++ valStr
    ++ " ETH\x60\n💵 **USD:** \x60" ++ ("~$" ++ usdText) ++ "\x60\n🏷️ **Dir:** \x60" ++ dir
    ++ "\x60\n📊 **Status:** \x60" ++ status ++ "\x60\n⛽ **Gas:** \x60" ++ effGas
    ++ "\x60\n⏰ **Zaman:** \x60" ++ stamp ++ "\x60"

/-- A Transfer log for evaluating the code: 100 USDT (6 decimals) sent by the
address 1 to the wallet `mainApp`. -/
def sampleTransfer : Log :=
  { Address := 0xFd086bC7CD5C481DCC9C85ebE478A1C0b69FCbb9,
    Topics := [transferTopic, 1, mainApp],
    Data := List.replicate 28 0 ++ [5, 245, 225, 0], TxHash := 0xabc }

/-- Answers of the outside for `sampleTransfer`: an estimate of 100 dollars. -/
def sampleTransferAnswers : LogIO where
  stamp := "01.01.2025 12:00:00"
  now := 0
  usdValue := 100
  usdText := "100.00"
  addressHex := fun a => (lowerHex a)

/-- A transaction for evaluating the scanner: 0.1 ether sent by the address 5 to
the wallet `mainApp`. -/
def sampleScannedTx : ScannedTx where
  hash := hashHex 0xabc
  value := 100000000000000000
  fromAddr := lowerHex 5
  toAddr := lowerHex mainApp
  valStr := "0.100000"
  receipt := some { Status := 1, gasText := some "0.01" }

/-- Answers of the outside for `sampleScannedTx`: no price variable set. -/
def sampleScanIO : ScanIO where
  nativeVar := ""
  importantVar := ""
  sinceNow := 0
  storeNow := 0
  stamp := "01.01.2025 12:00:00"

/-! ## Lemmas on strings -/

theorem startsWith_iff (s p : List Char) : startsWith s p = true ↔ p <+: s := by
  induction p generalizing s with
  | nil => simp [startsWith]
  | cons d p ih =>
    cases s with
    | nil => simp [startsWith]
    | cons c s =>
      simp only [startsWith, Bool.and_eq_true, beq_iff_eq, ih, List.cons_prefix_cons]
      constructor
      · rintro ⟨h1, h2⟩
        exact ⟨h1.symm, h2⟩
      · rintro ⟨h1, h2⟩
        exact ⟨h1.symm, h2⟩

theorem containsChars_iff (s p : List Char) : containsChars s p = true ↔ p <:+: s := by
  induction s with
  | nil => simp [containsChars]
  | cons c s ih =>
    simp only [containsChars, Bool.or_eq_true, startsWith_iff, ih, List.infix_cons_iff]

/-- A text that contains `sub` contains every block of `sub`. -/
theorem Contains_of_block {s sub part : String} (hp : part.data <:+: sub.data)
    (h : Contains s sub = true) : Contains s part = true := by
  unfold Contains at *
  rw [containsChars_iff] at *
  exact hp.trans h

theorem install_in_installmodule : "install".data <:+: "installmodule".data :=
  ⟨[], "module".data, by decide⟩

theorem module_in_installmodule : "module".data <:+: "installmodule".data :=
  ⟨"install".data, [], by decide⟩

theorem install_in_moduleinstalled : "install".data <:+: "moduleinstalled".data :=
  ⟨"module".data, "ed".data, by decide⟩

theorem module_in_moduleinstalled : "module".data <:+: "moduleinstalled".data :=
  ⟨[], "installed".data, by decide⟩

theorem installmodule_in_diamondcut_arrow :
    "installmodule".data <:+: "diamondcut→installmodule".data :=
  ⟨"diamondcut→".data, [], by decide⟩

/-- The first two tests of `determineImportance` on a lower-cased text fire exactly
when the text contains both `install` and `module`. -/
theorem install_tests_iff (l : String) :
    (Contains l "moduleinstalled" || Contains l "installmodule"
      || (Contains l "install" && Contains l "module")) = true ↔
    (Contains l "install" = true ∧ Contains l "module" = true) := by
  simp only [Bool.or_eq_true, Bool.and_eq_true]
  constructor
  · rintro ((h | h) | h)
    · exact ⟨Contains_of_block install_in_moduleinstalled h,
        Contains_of_block module_in_moduleinstalled h⟩
    · exact ⟨Contains_of_block install_in_installmodule h,
        Contains_of_block module_in_installmodule h⟩
    · exact h
  · intro h
    exact Or.inr h

/-- The same for the body, where the source also looks for `diamondcut→installmodule`. -/
theorem install_tests_body_iff (l : String) :
    (Contains l "moduleinstalled" || Contains l "installmodule"
      || Contains l "diamondcut→installmodule"
      || (Contains l "install" && Contains l "module")) = true ↔
    (Contains l "install" = true ∧ Contains l "module" = true) := by
  simp only [Bool.or_eq_true, Bool.and_eq_true]
  constructor
  · rintro (((h | h) | h) | h)
    · exact ⟨Contains_of_block install_in_moduleinstalled h,
        Contains_of_block module_in_moduleinstalled h⟩
    · exact ⟨Contains_of_block install_in_installmodule h,
        Contains_of_block module_in_installmodule h⟩
    · have h2 := Contains_of_block installmodule_in_diamondcut_arrow h
      exact ⟨Contains_of_block install_in_installmodule h2,
        Contains_of_block module_in_installmodule h2⟩
    · exact h
  · intro h
    exact Or.inr h

/-- The shape of `determineImportance` after the keyword tests are simplified. -/
theorem determineImportance_eq (env : Env) (title body : String) :
    determineImportance env title body =
      ((Contains (env.toLower title) "install" && Contains (env.toLower title) "module")
        || (Contains (env.toLower body) "install" && Contains (env.toLower body) "module")
        || Contains (env.toLower title) "diamondcut"
        || (Contains title "Transfer"
            && decide (usdThreshold env ≤ extractUSDFromBody env body))) := by
  have h1 := install_tests_iff (env.toLower title)
  have h2 := install_tests_body_iff (env.toLower body)
  unfold determineImportance
  simp only [Bool.or_eq_true, Bool.and_eq_true] at h1 h2
  simp only [Bool.or_eq_true, Bool.and_eq_true, h1, h2, ge_iff_le]
  by_cases a : Contains (env.toLower title) "install" = true ∧
      Contains (env.toLower title) "module" = true
  · simp [a]
  · by_cases b : Contains (env.toLower body) "install" = true ∧
        Contains (env.toLower body) "module" = true
    · simp [a, b]
    · by_cases c : Contains (env.toLower title) "diamondcut" = true
      · simp [a, b, c]
      · by_cases d : Contains title "Transfer" = true
        · have a2 : (Contains (env.toLower title) "install"
              && Contains (env.toLower title) "module") = false := by
            simpa using a
          have b2 : (Contains (env.toLower body) "install"
              && Contains (env.toLower body) "module") = false := by
            simpa using b
          simp [a, b, c, d, a2, b2]
        · have a2 : (Contains (env.toLower title) "install"
              && Contains (env.toLower title) "module") = false := by
            simpa using a
          have b2 : (Contains (env.toLower body) "install"
              && Contains (env.toLower body) "module") = false := by
            simpa using b
          simp [a, b, c, d, a2, b2]

/-! ## Importance -/

/-- C2: whenever the lower-cased title or the lower-cased body contains
`moduleinstalled` or `installmodule`, `determineImportance` answers true, for every
environment (so for every `USD_THRESHOLD`) and whatever amount the body shows. -/
theorem module_install_always_important (env : Env) (title body : String)
    (h : Contains (env.toLower title) "moduleinstalled" = true
      ∨ Contains (env.toLower title) "installmodule" = true
      ∨ Contains (env.toLower body) "moduleinstalled" = true
      ∨ Contains (env.toLower body) "installmodule" = true) :
    determineImportance env title body = true := by
  unfold determineImportance
  rcases h with h | h | h | h <;> simp [h]

/-- Witness of C2 on the title of `TestImportanceFiltering`. -/
theorem module_install_always_important_witness :
    Contains ((refEnv 1 2).toLower "🔴 [Test] ModuleInstalled") "moduleinstalled" = true
      ∧ determineImportance (refEnv 1 2) "🔴 [Test] ModuleInstalled" "Test body" = true :=
  ⟨by decide, module_install_always_important (refEnv 1 2) "🔴 [Test] ModuleInstalled"
    "Test body" (Or.inl (by decide))⟩

/-- The reference environment has the default threshold. -/
theorem usdThreshold_refEnv (c1 c2 : Int) : usdThreshold (refEnv c1 c2) = 50 := by
  simp [usdThreshold, refEnv]

/-- On the reference environment, a title and body free of the keywords are rated
by the amount after the first dollar sign. -/
theorem determineImportance_refEnv_transfer (c1 c2 : Int) (title body : String)
    (h1 : Contains (asciiLower title) "install" = false)
    (h2 : Contains (asciiLower body) "install" = false)
    (h3 : Contains (asciiLower title) "diamondcut" = false)
    (h4 : Contains title "Transfer" = true) :
    determineImportance (refEnv c1 c2) title body
      = decide ((50 : ℚ) ≤ extractUSDFromBody (refEnv c1 c2) body) := by
  rw [determineImportance_eq, usdThreshold_refEnv]
  have e : (refEnv c1 c2).toLower = asciiLower := rfl
  simp [e, h1, h2, h3, h4]

/-- C3: for a title that contains `Transfer`, when the lower-cased title and the
lower-cased body do not each contain both `install` and `module` and the lower-cased
title does not contain `diamondcut`, `determineImportance` is true exactly when
the amount `extractUSDFromBody` reads is at least the threshold; the threshold is
50 when `USD_THRESHOLD` is blank, and the parsed value when that is positive; with
the default threshold `$50.00` and `$100.00` are important, `$49.99` and `$25.00`
are not. -/
theorem transfer_importance_threshold :
    (∀ (env : Env) (title body : String),
        Contains title "Transfer" = true →
        ¬ (Contains (env.toLower title) "install" = true
            ∧ Contains (env.toLower title) "module" = true) →
        ¬ (Contains (env.toLower body) "install" = true
            ∧ Contains (env.toLower body) "module" = true) →
        Contains (env.toLower title) "diamondcut" = false →
        (determineImportance env title body = true
          ↔ usdThreshold env ≤ extractUSDFromBody env body))
    ∧ (∀ env : Env, env.usdThresholdVar = "" → usdThreshold env = 50)
    ∧ (∀ (env : Env) (f : ℚ), env.usdThresholdVar ≠ "" →
        env.parseFloat env.usdThresholdVar = some f → 0 < f → usdThreshold env = f)
    ∧ (∀ c1 c2 : Int,
        determineImportance (refEnv c1 c2) "🔴 [Test] Transfer" "💵 **USD:** \x60~$50.00\x60" = true
        ∧ determineImportance (refEnv c1 c2) "🔵 [Test] Transfer" "💵 **USD:** \x60~$49.99\x60"
            = false
        ∧ determineImportance (refEnv c1 c2) "🔴 [Test] Transfer" "💵 **USD:** \x60~$100.00\x60"
            = true
        ∧ determineImportance (refEnv c1 c2) "🔵 [Test] Transfer" "💵 **USD:** \x60~$25.00\x60"
            = false) := by
  refine ⟨?_, ?_, ?_, ?_⟩
  · intro env title body hT h1 h2 h3
    have a : (Contains (env.toLower title) "install"
        && Contains (env.toLower title) "module") = false := by
      simpa using h1
    have b : (Contains (env.toLower body) "install"
        && Contains (env.toLower body) "module") = false := by
      simpa using h2
    rw [determineImportance_eq, a, b, h3, hT]
    simp
  · intro env h
    simp [usdThreshold, h]
  · intro env f h hp hf
    simp [usdThreshold, h, hp, hf]
  · intro c1 c2
    refine ⟨?_, ?_, ?_, ?_⟩
    · rw [determineImportance_refEnv_transfer c1 c2 _ _ (by decide) (by decide) (by decide)
        (by decide)]
      simp [extractUSDFromBody, refEnv, parseDecimal, digitsValue]
      norm_num
    · rw [determineImportance_refEnv_transfer c1 c2 _ _ (by decide) (by decide) (by decide)
        (by decide)]
      simp [extractUSDFromBody, refEnv, parseDecimal, digitsValue]
      norm_num
    · rw [determineImportance_refEnv_transfer c1 c2 _ _ (by decide) (by decide) (by decide)
        (by decide)]
      simp [extractUSDFromBody, refEnv, parseDecimal, digitsValue]
      norm_num
    · rw [determineImportance_refEnv_transfer c1 c2 _ _ (by decide) (by decide) (by decide)
        (by decide)]
      simp [extractUSDFromBody, refEnv, parseDecimal, digitsValue]
      norm_num

/-- Witness of C3 on the second case of `TestImportanceFiltering`. -/
theorem transfer_importance_threshold_witness :
    Contains "🔴 [Test] Transfer" "Transfer" = true
      ∧ (determineImportance (refEnv 1 2) "🔴 [Test] Transfer" "💵 **USD:** \x60~$100.00\x60" = true
        ↔ usdThreshold (refEnv 1 2)
            ≤ extractUSDFromBody (refEnv 1 2) "💵 **USD:** \x60~$100.00\x60") :=
  ⟨by decide, transfer_importance_threshold.1 (refEnv 1 2) "🔴 [Test] Transfer"
    "💵 **USD:** \x60~$100.00\x60" (by decide) (by decide) (by decide) (by decide)⟩

/-! ## Batching -/

theorem join_cons (x : String) (l : List String) :
    String.join (x :: l) = x ++ String.join l := by
  rw [String.join_eq, String.join_eq]
  apply String.ext
  simp

/-- The builder loop appends the numbered entries in order. -/
theorem writeDigestEntries_eq (items : List notificationItem) (builder : String) (i : Nat) :
    writeDigestEntries builder i items
      = builder ++ String.join ((items.enumFrom (i + 1)).map (fun p =>
          "**" ++ toString p.1 ++ "\\.** " ++ p.2.title ++ "\n" ++ p.2.body ++ "\n\n")) := by
  induction items generalizing builder i with
  | nil =>
    apply String.ext
    simp [writeDigestEntries, String.join_eq]
  | cons item rest ih =>
    rw [writeDigestEntries, ih, List.enumFrom_cons, List.map_cons, join_cons, digestEntry]
    simp only [String.append_assoc]

/-- An item that carries an install marker is important. -/
theorem hasInstallMarker_important (env : Env) (it : notificationItem)
    (h : hasInstallMarker env it = true) : determineImportance env it.title it.body = true := by
  unfold hasInstallMarker at h
  simp only [Bool.or_eq_true] at h
  unfold determineImportance
  rcases h with ((h | h) | h) | h <;> simp [h]

/-- C1 fails as stated: a pending list of a Transfer of 100 dollars (important) and
an Approval is merged into one digest, and the digest itself is rated not
important. -/
theorem important_transfer_is_merged :
    determineImportance (refEnv 1 2) "🔴 [USDT] Transfer" "💵 **USD:** \x60~$100.00\x60" = true
    ∧ sendGroupedNotifications (refEnv 1 2) "12:00:00" "01.01.2025 12:00:00"
        [{ title := "🔴 [USDT] Transfer", body := "💵 **USD:** \x60~$100.00\x60", time := 0 },
         { title := "🔵 [Vault] Approval", body := "📋 **Tx:** \x600xabc\x60", time := 1 }]
      = [("📢 2 Yeni Event (12:00:00)",
          "⏰ \x6001.01.2025 12:00:00\x60\n\n**1\\.** 🔴 [USDT] Transfer\n💵 **USD:** \x60~$100.00\x60\n\n**2\\.** 🔵 [Vault] Approval\n📋 **Tx:** \x600xabc\x60\n\n")]
    ∧ determineImportance (refEnv 1 2) "📢 2 Yeni Event (12:00:00)"
        "⏰ \x6001.01.2025 12:00:00\x60\n\n**1\\.** 🔴 [USDT] Transfer\n💵 **USD:** \x60~$100.00\x60\n\n**2\\.** 🔵 [Vault] Approval\n📋 **Tx:** \x600xabc\x60\n\n"
      = false := by
  refine ⟨?_, ?_, ?_⟩
  · rw [determineImportance_refEnv_transfer 1 2 _ _ (by decide) (by decide) (by decide)
      (by decide)]
    simp [extractUSDFromBody, refEnv, parseDecimal, digitsValue]
    norm_num
  · decide
  · rw [determineImportance_eq]
    have e : (refEnv 1 2).toLower = asciiLower := rfl
    rw [e]
    have a : Contains (asciiLower "📢 2 Yeni Event (12:00:00)") "install" = false := by decide
    have b : Contains (asciiLower
        "⏰ \x6001.01.2025 12:00:00\x60\n\n**1\\.** 🔴 [USDT] Transfer\n💵 **USD:** \x60~$100.00\x60\n\n**2\\.** 🔵 [Vault] Approval\n📋 **Tx:** \x600xabc\x60\n\n")
        "install" = false := by decide
    have c : Contains (asciiLower "📢 2 Yeni Event (12:00:00)") "diamondcut" = false := by
      decide
    have d : Contains "📢 2 Yeni Event (12:00:00)" "Transfer" = false := by decide
    simp [a, b, c, d]

/-- C1 as amended: in a pending list of two or more items, when some item has
`installmodule` in its lower-cased title or body, `diamondcut` in its lower-cased
title, or `diamondcut→installmodule` in its lower-cased body, every item is
dispatched on its own, in the original order, and no digest is built; every such
item is important. -/
theorem install_marker_dispatches_individually (env : Env) (clock stamp : String)
    (notifications : List notificationItem) (hlen : 2 ≤ notifications.length)
    (h : ∃ it ∈ notifications,
      Contains (env.toLower it.title) "installmodule" = true
      ∨ Contains (env.toLower it.body) "installmodule" = true
      ∨ Contains (env.toLower it.title) "diamondcut" = true
      ∨ Contains (env.toLower it.body) "diamondcut→installmodule" = true) :
    sendGroupedNotifications env clock stamp notifications
        = notifications.map (fun it => (it.title, it.body))
    ∧ ∀ it ∈ notifications,
        (Contains (env.toLower it.title) "installmodule" = true
          ∨ Contains (env.toLower it.body) "installmodule" = true
          ∨ Contains (env.toLower it.title) "diamondcut" = true
          ∨ Contains (env.toLower it.body) "diamondcut→installmodule" = true) →
        determineImportance env it.title it.body = true := by
  constructor
  · have hany : notifications.any (hasInstallMarker env) = true := by
      rw [List.any_eq_true]
      obtain ⟨it, hmem, hit⟩ := h
      refine ⟨it, hmem, ?_⟩
      unfold hasInstallMarker
      simp only [Bool.or_eq_true]
      rcases hit with hit | hit | hit | hit
      · exact Or.inl (Or.inl (Or.inl hit))
      · exact Or.inl (Or.inl (Or.inr hit))
      · exact Or.inl (Or.inr hit)
      · exact Or.inr hit
    match notifications, hlen, hany with
    | a :: b :: rest, _, hany =>
      unfold sendGroupedNotifications
      simp only [hany, if_true]
  · intro it _ hit
    apply hasInstallMarker_important
    unfold hasInstallMarker
    simp only [Bool.or_eq_true]
    rcases hit with hit | hit | hit | hit
    · exact Or.inl (Or.inl (Or.inl hit))
    · exact Or.inl (Or.inl (Or.inr hit))
    · exact Or.inl (Or.inr hit)
    · exact Or.inr hit

/-- Witness of the amended C1: an InstallModule event next to an important Transfer. -/
theorem install_marker_dispatches_individually_witness :
    sendGroupedNotifications (refEnv 1 2) "12:00:00" "01.01.2025 12:00:00"
        [{ title := "🔴 [Vault] InstallModule", body := "📋 **Tx:** \x600xabc\x60", time := 0 },
         { title := "🔴 [USDT] Transfer", body := "💵 **USD:** \x60~$100.00\x60", time := 1 }]
      = [("🔴 [Vault] InstallModule", "📋 **Tx:** \x600xabc\x60"),
         ("🔴 [USDT] Transfer", "💵 **USD:** \x60~$100.00\x60")] :=
  (install_marker_dispatches_individually (refEnv 1 2) "12:00:00" "01.01.2025 12:00:00"
    [{ title := "🔴 [Vault] InstallModule", body := "📋 **Tx:** \x600xabc\x60", time := 0 },
     { title := "🔴 [USDT] Transfer", body := "💵 **USD:** \x60~$100.00\x60", time := 1 }]
    (by decide) ⟨_, List.mem_cons_self _ _, Or.inl (by decide)⟩).1

/-- C4: a pending list of `n ≥ 2` items none of which is important is dispatched as
exactly one message, whose title gives `n` and whose body is the time stamp
followed by one entry per item, numbered `1..n` in arrival order, each with the
item's title and body. -/
theorem unimportant_batch_is_one_digest (env : Env) (clock stamp : String)
    (notifications : List notificationItem) (hlen : 2 ≤ notifications.length)
    (h : ∀ it ∈ notifications, determineImportance env it.title it.body = false) :
    sendGroupedNotifications env clock stamp notifications
      = [("📢 " ++ toString notifications.length ++ " Yeni Event (" ++ clock ++ ")",
          "⏰ \x60" ++ stamp ++ "\x60\n\n"
            ++ String.join ((notifications.enumFrom 1).map (fun p =>
                "**" ++ toString p.1 ++ "\\.** " ++ p.2.title ++ "\n" ++ p.2.body ++ "\n\n")))] := by
  have hany : notifications.any (hasInstallMarker env) = false := by
    rw [List.any_eq_false]
    intro it hmem hit
    have := hasInstallMarker_important env it hit
    rw [h it hmem] at this
    exact Bool.false_ne_true this
  match notifications, hlen, hany with
  | a :: b :: rest, _, hany =>
    unfold sendGroupedNotifications
    simp only [hany]
    rw [writeDigestEntries_eq]
    simp

/-- Witness of C4: three unimportant events give one digest that lists them in
arrival order. -/
theorem unimportant_batch_is_one_digest_witness :
    sendGroupedNotifications (refEnv 1 2) "12:00:00" "01.01.2025 12:00:00"
        [{ title := "🔵 [A] Approval", body := "a", time := 0 },
         { title := "🔵 [B] Sent", body := "b", time := 1 },
         { title := "🔵 [C] Receipt", body := "c", time := 2 }]
      = [("📢 3 Yeni Event (12:00:00)",
          "⏰ \x6001.01.2025 12:00:00\x60\n\n**1\\.** 🔵 [A] Approval\na\n\n**2\\.** 🔵 [B] Sent\nb\n\n**3\\.** 🔵 [C] Receipt\nc\n\n")] := by
  have h := unimportant_batch_is_one_digest (refEnv 1 2) "12:00:00" "01.01.2025 12:00:00"
    [{ title := "🔵 [A] Approval", body := "a", time := 0 },
     { title := "🔵 [B] Sent", body := "b", time := 1 },
     { title := "🔵 [C] Receipt", body := "c", time := 2 }]
    (by decide) (by decide)
  rw [h]
  decide

/-! ## Routing and escalation -/

theorem botSends_append (xs ys : List Effect) :
    botSends (xs ++ ys) = botSends xs ++ botSends ys := by
  induction xs with
  | nil => rfl
  | cons x xs ih => cases x <;> simp [botSends, ih]

theorem botSends_legacy (n : Nat) (message : String) :
    botSends ((List.range n).map (fun i => Effect.notify i message)) = [] := by
  induction (List.range n) with
  | nil => rfl
  | cons x xs ih => simpa [botSends] using ih

/-- The bot messages of a dispatch, branch by branch. -/
theorem botSends_dispatch (env : Env) (title body : String) :
    botSends (SendNotificationToAllNotifiers env title body)
      = if env.bot then
          if determineImportance env title body then
            if env.chatID2 ≠ 0 then
              (env.chatID2, formatMessage title body)
                :: List.replicate 4 (env.chatID2, alarmText)
            else if env.chatID ≠ 0 then [(env.chatID, formatMessage title body)]
            else []
          else
            if env.chatID ≠ 0 then [(env.chatID, formatMessage title body)]
            else if env.chatID2 ≠ 0 then [(env.chatID2, formatMessage title body)]
            else []
        else [] := by
  unfold SendNotificationToAllNotifiers
  simp only [botSends_append, botSends_legacy, List.nil_append]
  split
  · split
    · split
      · simp [botSends, sendPreAlarms, botSends_append, List.replicate]
      · split <;> simp [botSends]
    · split
      · simp [botSends]
      · split <;> simp [botSends]
  · rfl

/-- C5 fails as stated: when `getBotInstance()` is nil the function sends nothing
through the bot although both chat ids are set, neither the important event
(secondary chat 7) nor the unimportant one (primary chat 5). -/
theorem dispatch_without_bot_sends_nothing :
    determineImportance { refEnv 5 7 with bot := false } "🔴 [Vault] InstallModule" "x" = true
    ∧ botSends (SendNotificationToAllNotifiers { refEnv 5 7 with bot := false }
        "🔴 [Vault] InstallModule" "x") = []
    ∧ determineImportance { refEnv 5 7 with bot := false } "🔵 [Vault] Paused" "x" = false
    ∧ botSends (SendNotificationToAllNotifiers { refEnv 5 7 with bot := false }
        "🔵 [Vault] Paused" "x") = [] := by
  refine ⟨?_, ?_, ?_, ?_⟩ <;> decide

/-- C5 as amended: when a bot instance is set, an important message goes to the
secondary chat when it is set (and every bot message of the dispatch goes there),
otherwise to the primary chat; an unimportant message goes to the primary chat when
it is set, otherwise to the secondary chat; with both unset the bot sends nothing.
When no bot instance is set nothing is sent through the bot. -/
theorem dispatch_routing (env : Env) (title body : String) :
    (env.bot = true →
      (determineImportance env title body = true → env.chatID2 ≠ 0 →
          (env.chatID2, formatMessage title body)
              ∈ botSends (SendNotificationToAllNotifiers env title body)
          ∧ ∀ m ∈ botSends (SendNotificationToAllNotifiers env title body), m.1 = env.chatID2)
      ∧ (determineImportance env title body = true → env.chatID2 = 0 → env.chatID ≠ 0 →
          botSends (SendNotificationToAllNotifiers env title body)
            = [(env.chatID, formatMessage title body)])
      ∧ (determineImportance env title body = false → env.chatID ≠ 0 →
          botSends (SendNotificationToAllNotifiers env title body)
            = [(env.chatID, formatMessage title body)])
      ∧ (determineImportance env title body = false → env.chatID = 0 → env.chatID2 ≠ 0 →
          botSends (SendNotificationToAllNotifiers env title body)
            = [(env.chatID2, formatMessage title body)])
      ∧ (env.chatID = 0 → env.chatID2 = 0 →
          botSends (SendNotificationToAllNotifiers env title body) = []))
    ∧ (env.bot = false → botSends (SendNotificationToAllNotifiers env title body) = []) := by
  rw [botSends_dispatch]
  refine ⟨fun hbot => ?_, fun hbot => by simp [hbot]⟩
  rw [hbot]
  refine ⟨?_, ?_, ?_, ?_, ?_⟩
  · intro himp h2
    simp only [himp, if_true, h2, ne_eq, not_false_eq_true]
    constructor
    · simp
    · intro m hm
      simp only [List.mem_cons, List.mem_replicate] at hm
      rcases hm with hm | ⟨_, hm⟩ <;> simp [hm]
  · intro himp h2 h1
    simp [himp, h2, h1]
  · intro himp h1
    simp [himp, h1]
  · intro himp h1 h2
    simp [himp, h1, h2]
  · intro h1 h2
    simp [h1, h2]

/-- Witness of C5: an InstallModule event with a bot and both chats set goes to the
secondary chat. -/
theorem dispatch_routing_witness :
    (7, formatMessage "🔴 [Vault] InstallModule" "x")
      ∈ botSends (SendNotificationToAllNotifiers (refEnv 5 7) "🔴 [Vault] InstallModule" "x") :=
  (((dispatch_routing (refEnv 5 7) "🔴 [Vault] InstallModule" "x").1 rfl).1
    (by decide) (by decide)).1

/-- C6 fails as stated: with the secondary chat unset, an important event is sent
to the primary chat (here 7) and no alert ping follows; the bot sends that one
message only. -/
theorem no_alarm_on_primary_fallback :
    determineImportance (refEnv 7 0) "🔴 [Vault] InstallModule" "x" = true
    ∧ botSends (SendNotificationToAllNotifiers (refEnv 7 0) "🔴 [Vault] InstallModule" "x")
      = [(7, "*🔴 \\[Vault\\] InstallModule*\n\nx")] := by
  constructor <;> decide

/-- C6 as amended: with a bot configured, an important event that goes to the
secondary chat is followed by exactly 4 alert pings to the secondary chat, each
followed by a pause of one second, and then a last pause. -/
theorem alarm_pings_on_secondary (env : Env) (title body : String) (hbot : env.bot = true)
    (himp : determineImportance env title body = true) (h2 : env.chatID2 ≠ 0) :
    botSends (SendNotificationToAllNotifiers env title body)
        = (env.chatID2, formatMessage title body) :: List.replicate 4 (env.chatID2, alarmText)
    ∧ ∃ legacy, botSends legacy = [] ∧
        SendNotificationToAllNotifiers env title body
          = legacy ++ [Effect.sendMessage env.chatID2 (formatMessage title body),
              Effect.sendMessage env.chatID2 alarmText, Effect.sleep 1000,
              Effect.sendMessage env.chatID2 alarmText, Effect.sleep 1000,
              Effect.sendMessage env.chatID2 alarmText, Effect.sleep 1000,
              Effect.sendMessage env.chatID2 alarmText, Effect.sleep 1000,
              Effect.sleep 1300] := by
  constructor
  · rw [botSends_dispatch, hbot]
    simp [himp, h2]
  · refine ⟨(List.range env.notifiers).map
      (fun i => Effect.notify i (formatMessage title body)), botSends_legacy _ _, ?_⟩
    unfold SendNotificationToAllNotifiers
    simp [hbot, himp, h2, sendPreAlarms]

/-- Witness of the amended C6: an InstallModule event with the secondary chat set. -/
theorem alarm_pings_on_secondary_witness :
    botSends (SendNotificationToAllNotifiers (refEnv 5 7) "🔴 [Vault] InstallModule" "x")
      = (7, formatMessage "🔴 [Vault] InstallModule" "x") :: List.replicate 4 (7, alarmText) :=
  (alarm_pings_on_secondary (refEnv 5 7) "🔴 [Vault] InstallModule" "x" rfl
    (by decide) (by decide)).1

/-! ## Stablecoin pinning -/

theorem isStablecoin_iff (addr : String) :
    isStablecoin addr = true
      ↔ (tokenSymbols addr = some "USDC" ∨ tokenSymbols addr = some "USDT") := by
  unfold isStablecoin
  cases h : tokenSymbols addr with
  | none => simp
  | some sym => simp

/-- One call keeps the cache pinned and, on a stablecoin, returns 1. -/
theorem fetchTokenUSDPrice_pinned (st : OracleState) (addr : String) (w : FetchWorld)
    (hst : StablePinned st) :
    StablePinned (fetchTokenUSDPrice st addr w).state
      ∧ (isStablecoin addr = true → (fetchTokenUSDPrice st addr w).price = 1) := by
  unfold fetchTokenUSDPrice
  by_cases h0 : addr = "" ∨ addr = "0x0000000000000000000000000000000000000000"
  · rw [if_pos h0]
    refine ⟨hst, ?_⟩
    intro hs
    rcases h0 with h0 | h0 <;> rw [h0] at hs <;> exact absurd hs (by decide)
  · rw [if_neg h0]
    cases hc : st.tokenPriceCache addr with
    | none =>
      by_cases hs : isStablecoin addr = true
      · refine ⟨?_, ?_⟩
        · intro a e ha he
          simp only [hs, if_true] at he
          by_cases haa : a = addr
          · simp [haa] at he
            rw [← he]
          · simp [haa] at he
            exact hst a e ha he
        · intro _
          simp [hs]
      · refine ⟨?_, fun h => absurd h hs⟩
        intro a e ha he
        simp only [hs] at he
        by_cases hp : (fetchFromMultipleSources st.limiter w).1 > 0
        · by_cases haa : a = addr
          · rw [haa] at ha
            exact absurd ha hs
          · simp [hp, haa] at he
            exact hst a e ha he
        · simp [hp] at he
          exact hst a e ha he
    | some ent =>
      by_cases ht : w.sinceNow - ent.cachedAt < w.ttl
      · simp only [ht, if_true]
        exact ⟨hst, fun hs => hst addr ent hs hc⟩
      · simp only [ht, if_false]
        by_cases hs : isStablecoin addr = true
        · refine ⟨?_, ?_⟩
          · intro a e ha he
            simp only [hs, if_true] at he
            by_cases haa : a = addr
            · simp [haa] at he
              rw [← he]
            · simp [haa] at he
              exact hst a e ha he
          · intro _
            simp [hs]
        · refine ⟨?_, fun h => absurd h hs⟩
          intro a e ha he
          simp only [hs] at he
          by_cases hp : (fetchFromMultipleSources st.limiter w).1 > 0
          · by_cases haa : a = addr
            · rw [haa] at ha
              exact absurd ha hs
            · simp [hp, haa] at he
              exact hst a e ha he
          · simp [hp] at he
            exact hst a e ha he

theorem runFetches_pinned (calls : List (String × FetchWorld)) (st : OracleState)
    (hst : StablePinned st) :
    ∀ r ∈ runFetches st calls, isStablecoin r.1 = true → r.2 = 1 := by
  induction calls generalizing st with
  | nil => intro r hr; simp [runFetches] at hr
  | cons c rest ih =>
    obtain ⟨addr, w⟩ := c
    have h := fetchTokenUSDPrice_pinned st addr w hst
    intro r hr hs
    simp only [runFetches, List.mem_cons] at hr
    rcases hr with hr | hr
    · rw [hr] at hs ⊢
      exact h.2 hs
    · exact ih _ h.1 r hr hs

/-- C7: starting from an empty cache (and any limiter state), in every run of calls
of `fetchTokenUSDPrice`, whatever the clocks and the price sources answer, every
call for an address that `tokenSymbols` maps to USDC or USDT returns exactly 1. -/
theorem stablecoin_price_is_one (lim : RateLimit) (calls : List (String × FetchWorld)) :
    ∀ r ∈ runFetches { tokenPriceCache := fun _ => none, limiter := lim } calls,
      (tokenSymbols r.1 = some "USDC" ∨ tokenSymbols r.1 = some "USDT") → r.2 = 1 := by
  intro r hr hs
  refine runFetches_pinned calls _ ?_ r hr ((isStablecoin_iff r.1).2 hs)
  intro a e _ he
  simp at he

/-- Witness of C7: from an empty cache, USDC quoted at 0.80 by the first source
comes back as 1. -/
theorem stablecoin_price_is_one_witness :
    (fetchTokenUSDPrice { tokenPriceCache := fun _ => none, limiter := ⟨0, 0⟩ }
        "0xaf88d065e77c8cc2239327c5edb3a432268e5831"
        { ttl := 30000000000, sinceNow := 5, limiterNow := 5, storeNow := 5,
          dexScreener := 4 / 5, coinGecko := 0 }).price = 1 :=
  stablecoin_price_is_one ⟨0, 0⟩
    [("0xaf88d065e77c8cc2239327c5edb3a432268e5831",
      { ttl := 30000000000, sinceNow := 5, limiterNow := 5, storeNow := 5,
        dexScreener := 4 / 5, coinGecko := 0 })]
    ("0xaf88d065e77c8cc2239327c5edb3a432268e5831", _) (List.mem_cons_self _ _)
    (Or.inl (by decide))

/-! ## Native transfer dedup -/

/-- Inside the current window, a limiter that has `k` requests left lets the next
`k` calls through and stops the calls after them. -/
theorem runLimiter_in_window (last : Int) (times : List Int) (k : Nat)
    (hin : ∀ t ∈ times, t - last < minute) :
    runLimiter { lastRequestTime := last, requestCount := 30 - (k : Int) } times
      = (List.replicate (min k times.length) false
            ++ List.replicate (times.length - k) true,
          { lastRequestTime := last, requestCount := 30 - ((k - times.length : Nat) : Int) }) := by
  induction times generalizing k with
  | nil => simp [runLimiter]
  | cons t rest ih =>
    have ht : t - last < minute := hin t (List.mem_cons_self _ _)
    have hrest : ∀ u ∈ rest, u - last < minute := fun u hu => hin u (List.mem_cons_of_mem _ hu)
    cases k with
    | zero =>
      have h := ih 0 hrest
      simp only [Nat.cast_zero, sub_zero, Nat.zero_sub] at h
      simp only [runLimiter, isRateLimited, ht, if_true, Nat.cast_zero, sub_zero, ge_iff_le,
        le_refl, h, Nat.zero_sub]
      simp [List.replicate_succ]
    | succ k =>
      have h := ih k hrest
      have hk : ¬ ((30 : Int) - ((k + 1 : Nat) : Int) ≥ 30) := by omega
      have e : (30 : Int) - ((k + 1 : Nat) : Int) + 1 = 30 - (k : Int) := by omega
      simp only [runLimiter, isRateLimited, ht, if_true, hk, if_false, e, h]
      simp [List.replicate_succ, Nat.succ_min_succ]

/-- A call that opens a new window is let through and counted as 1. -/
theorem isRateLimited_reset (s : RateLimit) (now : Int)
    (h : minute ≤ now - s.lastRequestTime) :
    isRateLimited s now = (false, { lastRequestTime := now, requestCount := 1 }) := by
  have : ¬ (now - s.lastRequestTime < minute) := not_lt.mpr h
  simp [isRateLimited, this]

/-- C9: in a window that starts with the limiter's initial state, and in a window
opened by a call 60 seconds or more after the previous window's start, when all
calls fall less than 60 seconds after the start of the window the first 30 calls
of the window answer false and the 31st answers true; on the 30th
`fetchFromMultipleSources` still queries a price source, on the 31st it returns 0
and queries none. -/
theorem thirty_first_call_is_limited :
    (∀ (start : Int) (times : List Int), times.length = 31 →
        (∀ t ∈ times, t - start < minute) →
        (runLimiter { lastRequestTime := start, requestCount := 0 } times).1
          = List.replicate 30 false ++ [true])
    ∧ (∀ (s : RateLimit) (t : Int) (times : List Int),
        minute ≤ t - s.lastRequestTime → times.length = 30 →
        (∀ u ∈ times, u - t < minute) →
        (runLimiter s (t :: times)).1 = List.replicate 30 false ++ [true])
    ∧ (∀ (start : Int) (times : List Int) (w : FetchWorld), times.length = 29 →
        (∀ t ∈ times, t - start < minute) → w.limiterNow - start < minute →
        (fetchFromMultipleSources
          (runLimiter { lastRequestTime := start, requestCount := 0 } times).2 w).2.1 ≠ [])
    ∧ (∀ (start : Int) (times : List Int) (w : FetchWorld), times.length = 30 →
        (∀ t ∈ times, t - start < minute) → w.limiterNow - start < minute →
        (fetchFromMultipleSources
          (runLimiter { lastRequestTime := start, requestCount := 0 } times).2 w).1 = 0
        ∧ (fetchFromMultipleSources
          (runLimiter { lastRequestTime := start, requestCount := 0 } times).2 w).2.1 = []) := by
  refine ⟨?_, ?_, ?_, ?_⟩
  · intro start times hlen hin
    have h := runLimiter_in_window start times 30 hin
    simp only [Nat.cast_ofNat, sub_self] at h
    rw [h, hlen]
    rfl
  · intro s t times hreset hlen hin
    have h := runLimiter_in_window t times 29 hin
    have e : (30 : Int) - ((29 : Nat) : Int) = 1 := by norm_num
    rw [e] at h
    simp only [runLimiter, isRateLimited_reset s t hreset, h, hlen]
    rfl
  · intro start times w hlen hin hw
    have h := runLimiter_in_window start times 30 hin
    simp only [Nat.cast_ofNat, sub_self] at h
    rw [h, hlen]
    unfold fetchFromMultipleSources isRateLimited
    simp only [hw, if_true]
    norm_num
    split <;> [simp; (split <;> simp)]
  · intro start times w hlen hin hw
    have h := runLimiter_in_window start times 30 hin
    simp only [Nat.cast_ofNat, sub_self] at h
    rw [h, hlen]
    unfold fetchFromMultipleSources isRateLimited
    simp only [hw, if_true]
    norm_num

/-- Witness of C9: 31 calls in the first second after the limiter's start. -/
theorem thirty_first_call_is_limited_witness :
    (runLimiter { lastRequestTime := 0, requestCount := 0 }
        (List.replicate 31 1000000000)).1 = List.replicate 30 false ++ [true] :=
  thirty_first_call_is_limited.1 0 (List.replicate 31 1000000000) (by decide)
    (by decide)

/-- Calls that all come at or after the end of an interval are not counted in it. -/
theorem allowedIn_after (a : Int) (times : List Int) (s : RateLimit)
    (h : ∀ t ∈ times, a + minute ≤ t) : allowedIn a s times = 0 := by
  induction times generalizing s with
  | nil => rfl
  | cons t rest ih =>
    have ht : ¬ (t < a + minute) := not_lt.mpr (h t (List.mem_cons_self _ _))
    simp only [allowedIn, ht, and_false, if_false, Nat.zero_add]
    exact ih _ (fun u hu => h u (List.mem_cons_of_mem _ hu))

theorem allowedIn_cons_limited (a : Int) (rest : List Int) {s s1 : RateLimit} {t : Int}
    (h : isRateLimited s t = (true, s1)) :
    allowedIn a s (t :: rest) = allowedIn a s1 rest := by
  simp [allowedIn, h]

theorem allowedIn_cons_allowed (a : Int) (rest : List Int) {s s1 : RateLimit} {t : Int}
    (h : isRateLimited s t = (false, s1)) :
    (allowedIn a s (t :: rest) : Int)
      = (if a ≤ t ∧ t < a + minute then 1 else 0) + (allowedIn a s1 rest : Int) := by
  simp only [allowedIn, h, true_and, Nat.cast_add]
  split <;> simp

theorem allowedIn_le_budget (a : Int) (times : List Int) (s : RateLimit)
    (h0 : 0 ≤ s.requestCount) (h30 : s.requestCount ≤ 30)
    (hsorted : times.Pairwise (fun x y => x ≤ y)) :
    (allowedIn a s times : Int) ≤ budget a s := by
  induction times generalizing s with
  | nil =>
    simp only [allowedIn, budget, Nat.cast_zero]
    split_ifs <;> omega
  | cons t rest ih =>
    rw [List.pairwise_cons] at hsorted
    obtain ⟨hle, hrest⟩ := hsorted
    by_cases hwin : t - s.lastRequestTime < minute
    · by_cases hfull : s.requestCount ≥ 30
      · have e : isRateLimited s t = (true, s) := by simp [isRateLimited, hwin, hfull]
        rw [allowedIn_cons_limited a rest e]
        exact ih s h0 h30 hrest
      · have e : isRateLimited s t
            = (false, { lastRequestTime := s.lastRequestTime,
                        requestCount := s.requestCount + 1 }) := by
          simp [isRateLimited, hwin, hfull]
        rw [allowedIn_cons_allowed a rest e]
        have hi := ih { lastRequestTime := s.lastRequestTime,
                        requestCount := s.requestCount + 1 } (by simp; omega) (by simp; omega)
          hrest
        simp only [budget] at hi ⊢
        split_ifs at hi ⊢ <;> omega
    · have e : isRateLimited s t = (false, { lastRequestTime := t, requestCount := 1 }) :=
        isRateLimited_reset s t (not_lt.mp hwin)
      rw [allowedIn_cons_allowed a rest e]
      by_cases ha : a ≤ s.lastRequestTime
      · have hout : ∀ u ∈ rest, a + minute ≤ u := by
          intro u hu
          have := hle u hu
          omega
        rw [allowedIn_after a rest _ hout]
        simp only [budget]
        split_ifs <;> omega
      · have hi := ih { lastRequestTime := t, requestCount := 1 } (by simp) (by simp) hrest
        simp only [budget] at hi ⊢
        split_ifs at hi ⊢ <;> omega

/-- C10 fails as stated: from the initial limiter state at time 0, 30 calls at
second 59 and 30 calls at second 60 (non-decreasing times) are all let through,
so the 60 seconds that start at second 59 contain 60 calls that answer false. -/
theorem sixty_allowed_in_one_minute :
    (List.replicate 30 (59000000000 : Int) ++ List.replicate 30 60000000000).Pairwise
        (fun x y => x ≤ y)
    ∧ (runLimiter { lastRequestTime := 0, requestCount := 0 }
        (List.replicate 30 59000000000 ++ List.replicate 30 60000000000)).1
        = List.replicate 60 false
    ∧ allowedIn 59000000000 { lastRequestTime := 0, requestCount := 0 }
        (List.replicate 30 59000000000 ++ List.replicate 30 60000000000) = 60 := by
  refine ⟨by decide, by decide, by decide⟩

/-- C10 as amended: for calls at non-decreasing times, from any limiter state with
a count between 0 and 30 (the initial state is one, and `isRateLimited` keeps the
count in that range), the 60 seconds that start at `lastRequestTime` contain at
most `30 - requestCount` further calls that answer false, and every 60-second
interval of time contains at most 60 calls that answer false. -/
theorem window_allows_thirty_interval_sixty (s : RateLimit) (times : List Int) (a : Int)
    (h0 : 0 ≤ s.requestCount) (h30 : s.requestCount ≤ 30)
    (hsorted : times.Pairwise (fun x y => x ≤ y)) :
    allowedIn a s times ≤ 60
    ∧ (a = s.lastRequestTime → (allowedIn a s times : Int) + s.requestCount ≤ 30)
    ∧ (∀ now, 0 ≤ (isRateLimited s now).2.requestCount
        ∧ (isRateLimited s now).2.requestCount ≤ 30) := by
  have hb := allowedIn_le_budget a times s h0 h30 hsorted
  refine ⟨?_, ?_, ?_⟩
  · have : budget a s ≤ 60 := by
      unfold budget
      split
      · omega
      · split <;> omega
    omega
  · intro ha
    have : budget a s = 30 - s.requestCount := by
      unfold budget
      simp [ha]
    omega
  · intro now
    unfold isRateLimited
    split
    · split
      · exact ⟨h0, h30⟩
      · simp only
        omega
    · simp

/-- Witness of the amended C10 on the run of the counterexample. -/
theorem window_allows_thirty_interval_sixty_witness :
    allowedIn 59000000000 { lastRequestTime := 0, requestCount := 0 }
        (List.replicate 30 59000000000 ++ List.replicate 30 60000000000) ≤ 60 :=
  (window_allows_thirty_interval_sixty { lastRequestTime := 0, requestCount := 0 }
    (List.replicate 30 59000000000 ++ List.replicate 30 60000000000) 59000000000
    (by decide) (by decide) (by decide)).1

/-! ## Price fetch on a cache miss -/

/-- The cache check of `fetchTokenUSDPrice` finds no valid entry. -/
theorem fetchTokenUSDPrice_miss (st : OracleState) (addr : String) (w : FetchWorld)
    (h0 : ¬ (addr = "" ∨ addr = "0x0000000000000000000000000000000000000000"))
    (hmiss : ∀ ent, st.tokenPriceCache addr = some ent → w.ttl ≤ w.sinceNow - ent.cachedAt) :
    fetchTokenUSDPrice st addr w
      = { price := if isStablecoin addr then 1 else (fetchFromMultipleSources st.limiter w).1,
          queried := (fetchFromMultipleSources st.limiter w).2.1,
          state :=
            { tokenPriceCache :=
                if (if isStablecoin addr then (1 : ℚ)
                    else (fetchFromMultipleSources st.limiter w).1) > 0 then
                  fun a => if a = addr then
                      some { price := if isStablecoin addr then 1
                                      else (fetchFromMultipleSources st.limiter w).1,
                             cachedAt := w.storeNow }
                    else st.tokenPriceCache a
                else st.tokenPriceCache,
              limiter := (fetchFromMultipleSources st.limiter w).2.2 } } := by
  unfold fetchTokenUSDPrice
  rw [if_neg h0]
  cases hc : st.tokenPriceCache addr with
  | none => rfl
  | some ent =>
    have : ¬ (w.sinceNow - ent.cachedAt < w.ttl) := not_lt.mpr (hmiss ent hc)
    simp only [this, if_false]

/-- When the limiter answers true, no source is asked and the price is 0. -/
theorem fetchFromMultipleSources_limited (lim : RateLimit) (w : FetchWorld)
    (hw : w.limiterNow - lim.lastRequestTime < minute) (hc : lim.requestCount ≥ 30) :
    fetchFromMultipleSources lim w = (0, [], lim) := by
  unfold fetchFromMultipleSources isRateLimited
  simp [hw, hc]

/-- C15 fails as stated: for the USDC address, with an empty cache and the budget
of the window used up, `fetchTokenUSDPrice` queries no source and returns 1, not
0. -/
theorem limited_stablecoin_returns_one :
    (fetchTokenUSDPrice
        { tokenPriceCache := fun _ => none,
          limiter := { lastRequestTime := 0, requestCount := 30 } }
        "0xaf88d065e77c8cc2239327c5edb3a432268e5831"
        { ttl := 30000000000, sinceNow := 5, limiterNow := 5, storeNow := 5,
          dexScreener := 4 / 5, coinGecko := 0 }).price = 1
    ∧ (fetchTokenUSDPrice
        { tokenPriceCache := fun _ => none,
          limiter := { lastRequestTime := 0, requestCount := 30 } }
        "0xaf88d065e77c8cc2239327c5edb3a432268e5831"
        { ttl := 30000000000, sinceNow := 5, limiterNow := 5, storeNow := 5,
          dexScreener := 4 / 5, coinGecko := 0 }).queried = [] := by
  constructor
  · rw [fetchTokenUSDPrice_miss _ _ _ (by decide) (by intro ent h; simp at h)]
    have : isStablecoin "0xaf88d065e77c8cc2239327c5edb3a432268e5831" = true := by decide
    simp [this]
  · rw [fetchTokenUSDPrice_miss _ _ _ (by decide) (by intro ent h; simp at h)]
    rw [fetchFromMultipleSources_limited _ _ (by decide) (by decide)]

/-- C15 as amended: for every token address that has no valid cache entry, when the
limiter's budget is used up (30 requests counted, window not yet over)
`fetchTokenUSDPrice` queries no price source; it returns 0 when the address is not
one that `tokenSymbols` maps to USDC or USDT, and 1 when it is. -/
theorem limited_fetch_queries_nothing (st : OracleState) (addr : String) (w : FetchWorld)
    (hmiss : ∀ ent, st.tokenPriceCache addr = some ent → w.ttl ≤ w.sinceNow - ent.cachedAt)
    (hw : w.limiterNow - st.limiter.lastRequestTime < minute)
    (hc : st.limiter.requestCount ≥ 30) :
    (fetchTokenUSDPrice st addr w).queried = []
    ∧ (¬ (tokenSymbols addr = some "USDC" ∨ tokenSymbols addr = some "USDT") →
        (fetchTokenUSDPrice st addr w).price = 0)
    ∧ ((tokenSymbols addr = some "USDC" ∨ tokenSymbols addr = some "USDT") →
        (fetchTokenUSDPrice st addr w).price = 1) := by
  by_cases h0 : addr = "" ∨ addr = "0x0000000000000000000000000000000000000000"
  · have hz : fetchTokenUSDPrice st addr w = { price := 0, queried := [], state := st } := by
      unfold fetchTokenUSDPrice
      rw [if_pos h0]
    rw [hz]
    refine ⟨rfl, fun _ => rfl, ?_⟩
    intro hs
    have hs2 := (isStablecoin_iff addr).2 hs
    rcases h0 with h0 | h0 <;> rw [h0] at hs2 <;> exact absurd hs2 (by decide)
  · rw [fetchTokenUSDPrice_miss st addr w h0 hmiss,
      fetchFromMultipleSources_limited st.limiter w hw hc]
    refine ⟨rfl, ?_, ?_⟩
    · intro hs
      have : ¬ (isStablecoin addr = true) := fun h => hs ((isStablecoin_iff addr).1 h)
      simp [this]
    · intro hs
      have := (isStablecoin_iff addr).2 hs
      simp [this]

/-- Witness of the amended C15: WETH with an empty cache and a used-up budget. -/
theorem limited_fetch_queries_nothing_witness :
    (fetchTokenUSDPrice
        { tokenPriceCache := fun _ => none,
          limiter := { lastRequestTime := 0, requestCount := 30 } }
        "0x82af49447d8a07e3bd95bd0d56f35241523fbab1"
        { ttl := 30000000000, sinceNow := 5, limiterNow := 5, storeNow := 5,
          dexScreener := 2500, coinGecko := 0 }).queried = [] :=
  (limited_fetch_queries_nothing
    { tokenPriceCache := fun _ => none,
      limiter := { lastRequestTime := 0, requestCount := 30 } }
    "0x82af49447d8a07e3bd95bd0d56f35241523fbab1"
    { ttl := 30000000000, sinceNow := 5, limiterNow := 5, storeNow := 5,
      dexScreener := 2500, coinGecko := 0 }
    (by intro ent h; simp at h) (by decide) (by decide)).1

/-- C16 fails as stated: for WETH, with an empty cache and no source giving a price,
`fetchTokenUSDPrice` returns 0 on the miss and the cache still holds no entry for
the address. -/
theorem zero_price_is_not_cached :
    (fetchTokenUSDPrice
        { tokenPriceCache := fun _ => none,
          limiter := { lastRequestTime := 0, requestCount := 0 } }
        "0x82af49447d8a07e3bd95bd0d56f35241523fbab1"
        { ttl := 30000000000, sinceNow := 5, limiterNow := 5, storeNow := 5,
          dexScreener := 0, coinGecko := 0 }).price = 0
    ∧ ((fetchTokenUSDPrice
        { tokenPriceCache := fun _ => none,
          limiter := { lastRequestTime := 0, requestCount := 0 } }
        "0x82af49447d8a07e3bd95bd0d56f35241523fbab1"
        { ttl := 30000000000, sinceNow := 5, limiterNow := 5, storeNow := 5,
          dexScreener := 0, coinGecko := 0 }).state.tokenPriceCache
        "0x82af49447d8a07e3bd95bd0d56f35241523fbab1").isNone = true := by
  have hs : isStablecoin "0x82af49447d8a07e3bd95bd0d56f35241523fbab1" = false := by decide
  have hf : fetchFromMultipleSources { lastRequestTime := 0, requestCount := 0 }
      { ttl := 30000000000, sinceNow := 5, limiterNow := 5, storeNow := 5,
        dexScreener := 0, coinGecko := 0 }
      = (0, [PriceSource.dexScreener, PriceSource.coinGecko],
          { lastRequestTime := 0, requestCount := 1 }) := by
    simp [fetchFromMultipleSources, isRateLimited, minute]
  constructor
  · rw [fetchTokenUSDPrice_miss _ _ _ (by decide) (by intro ent h; simp at h)]
    simp [hs, hf]
  · rw [fetchTokenUSDPrice_miss _ _ _ (by decide) (by intro ent h; simp at h)]
    simp [hs, hf]

/-- C16 as amended: for every non-zero token address, when `fetchTokenUSDPrice`
returns a value `p > 0` on a cache miss, `tokenPriceCache` afterwards holds for
the lower-cased address the entry with price `p` and `cachedAt` the clock read at
the store; when it returns a value that is not positive the cache is as it was. -/
theorem positive_price_is_cached (st : OracleState) (addr : String) (w : FetchWorld)
    (h0 : ¬ (addr = "" ∨ addr = "0x0000000000000000000000000000000000000000"))
    (hmiss : ∀ ent, st.tokenPriceCache addr = some ent → w.ttl ≤ w.sinceNow - ent.cachedAt) :
    ((fetchTokenUSDPrice st addr w).price > 0 →
        (fetchTokenUSDPrice st addr w).state.tokenPriceCache addr
          = some { price := (fetchTokenUSDPrice st addr w).price, cachedAt := w.storeNow })
    ∧ (¬ (fetchTokenUSDPrice st addr w).price > 0 →
        (fetchTokenUSDPrice st addr w).state.tokenPriceCache = st.tokenPriceCache) := by
  rw [fetchTokenUSDPrice_miss st addr w h0 hmiss]
  constructor
  · intro hp
    simp only at hp
    simp only [hp, if_true]
  · intro hp
    simp only at hp
    simp only [hp, if_false]

/-- Witness of the amended C16: WETH quoted at 2500 by the first source. -/
theorem positive_price_is_cached_witness :
    ((fetchTokenUSDPrice
        { tokenPriceCache := fun _ => none,
          limiter := { lastRequestTime := 0, requestCount := 0 } }
        "0x82af49447d8a07e3bd95bd0d56f35241523fbab1"
        { ttl := 30000000000, sinceNow := 5, limiterNow := 5, storeNow := 7,
          dexScreener := 2500, coinGecko := 0 }).state.tokenPriceCache
        "0x82af49447d8a07e3bd95bd0d56f35241523fbab1").map (fun e => e.cachedAt) = some 7 := by
  have h := (positive_price_is_cached
    { tokenPriceCache := fun _ => none,
      limiter := { lastRequestTime := 0, requestCount := 0 } }
    "0x82af49447d8a07e3bd95bd0d56f35241523fbab1"
    { ttl := 30000000000, sinceNow := 5, limiterNow := 5, storeNow := 7,
      dexScreener := 2500, coinGecko := 0 }
    (by decide) (by intro ent h; simp at h)).1
  have hs : isStablecoin "0x82af49447d8a07e3bd95bd0d56f35241523fbab1" = false := by decide
  have hf : fetchFromMultipleSources { lastRequestTime := 0, requestCount := 0 }
      { ttl := 30000000000, sinceNow := 5, limiterNow := 5, storeNow := 7,
        dexScreener := 2500, coinGecko := 0 }
      = (2500, [PriceSource.dexScreener], { lastRequestTime := 0, requestCount := 1 }) := by
    simp [fetchFromMultipleSources, isRateLimited, minute]
  have hp : (fetchTokenUSDPrice
        { tokenPriceCache := fun _ => none,
          limiter := { lastRequestTime := 0, requestCount := 0 } }
        "0x82af49447d8a07e3bd95bd0d56f35241523fbab1"
        { ttl := 30000000000, sinceNow := 5, limiterNow := 5, storeNow := 7,
          dexScreener := 2500, coinGecko := 0 }).price > 0 := by
    rw [fetchTokenUSDPrice_miss _ _ _ (by decide) (by intro ent h; simp at h)]
    simp [hs, hf]
  rw [h hp]
  rfl

/-! ## Reconnection backoff -/

/-- From a backoff of `min (2 ^ j) 30` seconds, the `i`-th next failure in a row
sleeps `min (2 ^ (j + i)) 30` seconds. -/
theorem reconnectLoop_failures (n j : Nat) :
    reconnectLoop (min (2 ^ j) 30 * second) (List.replicate n SubscribeOutcome.transientError)
      = (List.range n).map (fun i => min (2 ^ (j + i)) 30 * second) := by
  induction n generalizing j with
  | zero => rfl
  | succ n ih =>
    have hstep : (if min (2 ^ j) 30 * second * 2 > 30 * second then 30 * second
        else min (2 ^ j) 30 * second * 2) = min (2 ^ (j + 1)) 30 * second := by
      have hp : (2 : Int) ^ (j + 1) = 2 * 2 ^ j := by ring
      have h1 : (1 : Int) ≤ 2 ^ j := one_le_pow₀ (by norm_num)
      rw [hp]
      unfold second
      generalize (2 : Int) ^ j = x at h1 ⊢
      split <;> omega
    rw [List.replicate_succ, reconnectLoop]
    simp only [hstep]
    rw [ih (j + 1), List.range_succ_eq_map, List.map_cons, List.map_map]
    simp only [Nat.add_zero, List.cons.injEq, true_and]
    apply List.map_congr_left
    intro i _
    have e : j + 1 + i = j + (i + 1) := by omega
    simp only [Function.comp, Nat.succ_eq_add_one, e]

/-- A prefix without an unsupported outcome lets the loop go on. -/
theorem reconnectLoop_append (pre post : List SubscribeOutcome) (backoff : Int)
    (h : SubscribeOutcome.unsupported ∉ pre) :
    reconnectLoop backoff (pre ++ SubscribeOutcome.subscribed :: post)
      = reconnectLoop backoff pre ++ reconnectLoop second post := by
  induction pre generalizing backoff with
  | nil => simp [reconnectLoop]
  | cons o pre ih =>
    have hpre : SubscribeOutcome.unsupported ∉ pre := fun hm => h (List.mem_cons_of_mem _ hm)
    cases o with
    | transientError => simp [reconnectLoop, ih _ hpre]
    | unsupported => exact absurd (List.mem_cons_self _ _) h
    | subscribed => simp [reconnectLoop, ih _ hpre]

/-- C14: in `subscribeWithReconnect` and in `subscribeTransferSideWithReconnect`,
the sleeps of `n` transient failures in a row, counted from the start, are
`min (2 ^ (k - 1)) 30` seconds for the `k`-th (`k = 1..n`), and the same holds for
the failures in a row that follow any successful subscription. -/
theorem backoff_doubles_to_thirty (n : Nat) (topicIndex : Int) :
    subscribeWithReconnect (List.replicate n SubscribeOutcome.transientError)
        = (List.range n).map (fun i => min (2 ^ i) 30 * second)
    ∧ subscribeTransferSideWithReconnect topicIndex
          (List.replicate n SubscribeOutcome.transientError)
        = (List.range n).map (fun i => min (2 ^ i) 30 * second)
    ∧ (∀ pre : List SubscribeOutcome, SubscribeOutcome.unsupported ∉ pre →
        subscribeWithReconnect
            (pre ++ SubscribeOutcome.subscribed
              :: List.replicate n SubscribeOutcome.transientError)
          = subscribeWithReconnect pre
              ++ (List.range n).map (fun i => min (2 ^ i) 30 * second))
    ∧ (∀ pre : List SubscribeOutcome, SubscribeOutcome.unsupported ∉ pre →
        subscribeTransferSideWithReconnect topicIndex
            (pre ++ SubscribeOutcome.subscribed
              :: List.replicate n SubscribeOutcome.transientError)
          = subscribeTransferSideWithReconnect topicIndex pre
              ++ (List.range n).map (fun i => min (2 ^ i) 30 * second)) := by
  have h0 := reconnectLoop_failures n 0
  have e : min ((2 : Int) ^ 0) 30 * second = second := by norm_num
  rw [e] at h0
  simp only [Nat.zero_add] at h0
  refine ⟨h0, h0, ?_, ?_⟩
  · intro pre hpre
    unfold subscribeWithReconnect
    rw [reconnectLoop_append pre _ second hpre, h0]
  · intro pre hpre
    unfold subscribeTransferSideWithReconnect
    rw [reconnectLoop_append pre _ second hpre, h0]

/-- Witness of C14: seven failures, a success, two failures. -/
theorem backoff_doubles_to_thirty_witness :
    subscribeWithReconnect
        (List.replicate 7 SubscribeOutcome.transientError
          ++ SubscribeOutcome.subscribed :: List.replicate 2 SubscribeOutcome.transientError)
      = [1000000000, 2000000000, 4000000000, 8000000000, 16000000000, 30000000000,
          30000000000, 1000000000, 2000000000] := by
  rw [(backoff_doubles_to_thirty 2 1).2.2.1 (List.replicate 7 SubscribeOutcome.transientError)
    (by decide)]
  decide

/-! ## Relevance filter -/

/-- C13: `isRelevantLog` answers true exactly when either the first topic is the
Transfer signature, there are at least three topics, and the address in the last
20 bytes of topic 1 or of topic 2 is watched, or there is a first topic other than
the Transfer signature and the emitting contract is watched; a log without topics
is not relevant. -/
theorem isRelevantLog_iff (WatchMap : String → Bool) (lg : Log) :
    (isRelevantLog WatchMap lg = true ↔
      ((∃ t1 t2 more, lg.Topics = transferTopic :: t1 :: t2 :: more
          ∧ (WatchMap (lowerHex (topicAddress t1)) = true
            ∨ WatchMap (lowerHex (topicAddress t2)) = true))
        ∨ (∃ t0 more, lg.Topics = t0 :: more ∧ t0 ≠ transferTopic
          ∧ WatchMap (lowerHex lg.Address) = true)))
    ∧ (lg.Topics = [] → isRelevantLog WatchMap lg = false) := by
  unfold isRelevantLog
  constructor
  · cases hT : lg.Topics with
    | nil => simp
    | cons t0 rest =>
      by_cases ht : t0 = transferTopic
      · subst ht
        match rest with
        | [] => simp
        | [_] => simp
        | t1 :: t2 :: more =>
          simp only [if_true, Bool.or_eq_true, List.cons.injEq, true_and, ne_eq,
            not_true_eq_false, false_and, and_false, exists_false, or_false]
          constructor
          · intro h
            exact Or.inl ⟨t1, t2, more, ⟨rfl, rfl, rfl⟩, h⟩
          · rintro (⟨a, b, c, ⟨rfl, rfl, rfl⟩, h⟩ | ⟨t0, c, ⟨rfl, _⟩, hne, _⟩)
            · exact h
            · exact absurd rfl hne
      · simp [ht]
  · intro h
    simp [h]

/-! ## Backfill windows -/

/-- On a log with at least one topic `formatEventMessage` returns. -/
theorem formatEventMessage_returns (env : Env) (reg : Registry) (io : LogIO) (lg : Log)
    (h : lg.Topics ≠ []) : ∃ tb, formatEventMessage env reg io lg = some tb := by
  unfold formatEventMessage
  cases hT : lg.Topics with
  | nil => exact absurd hT h
  | cons t0 more =>
    simp only []
    repeat' (first | exact ⟨_, rfl⟩ | split)

/-- The loop over the logs of a window returns when every log has a topic. -/
theorem bootstrapNotify_returns (env : Env) (reg : Registry) (notify : Bool)
    (io : Log → LogIO) (logs : List Log) (h : ∀ lg ∈ logs, lg.Topics ≠ []) :
    ∃ items, bootstrapNotify env reg notify io logs = some items := by
  induction logs with
  | nil => exact ⟨[], rfl⟩
  | cons lg rest ih =>
    obtain ⟨tb, htb⟩ := formatEventMessage_returns env reg (io lg) lg (h lg (List.mem_cons_self _ _))
    obtain ⟨items, hitems⟩ := ih (fun l hl => h l (List.mem_cons_of_mem _ hl))
    simp only [bootstrapNotify, htb, hitems, Option.map_some']
    exact ⟨_, rfl⟩

/-- The ranges of the windows do not depend on what the queries answer, as long as
every log they return has a topic. -/
theorem scanWindows_ranges (env : Env) (reg : Registry) (notify : Bool) (io : Log → LogIO)
    (f g : Int → Int → Option (List Log)) (maxWindow toHead : Int)
    (hf : ∀ a b logs, f a b = some logs → ∀ lg ∈ logs, lg.Topics ≠ [])
    (hg : ∀ a b logs, g a b = some logs → ∀ lg ∈ logs, lg.Topics ≠ [])
    (fuel : Nat) (remaining cursor : Int) :
    (scanWindows env reg notify io f maxWindow toHead fuel remaining cursor).map
        (List.map WindowScan.range)
      = (scanWindows env reg notify io g maxWindow toHead fuel remaining cursor).map
          (List.map WindowScan.range) := by
  have quiet : ∀ (h : Int → Int → Option (List Log)),
      (∀ a b logs, h a b = some logs → ∀ lg ∈ logs, lg.Topics ≠ []) →
      ∀ a b, ∃ items, bootstrapNotify env reg notify io ((h a b).getD []) = some items := by
    intro h hh a b
    apply bootstrapNotify_returns
    cases e : h a b with
    | none => simp
    | some logs => exact hh a b logs e
  induction fuel generalizing remaining cursor with
  | zero =>
    unfold scanWindows
    split <;> rfl
  | succ fuel ih =>
    unfold scanWindows
    by_cases hr : remaining > 0
    · simp only [hr, if_true]
      generalize (if cursor + min maxWindow remaining - 1 > toHead then toHead
        else cursor + min maxWindow remaining - 1) = toIncl
      obtain ⟨i1, e1⟩ := quiet f hf cursor toIncl
      obtain ⟨i2, e2⟩ := quiet g hg cursor toIncl
      simp only [e1, e2]
      by_cases hp : toIncl - cursor + 1 ≤ 0
      · simp [hp, WindowScan.range]
      · simp only [hp, if_false]
        have h := ih (remaining - (toIncl - cursor + 1)) (cursor + (toIncl - cursor + 1))
        revert h
        cases scanWindows env reg notify io f maxWindow toHead fuel
            (remaining - (toIncl - cursor + 1)) (cursor + (toIncl - cursor + 1)) <;>
          cases scanWindows env reg notify io g maxWindow toHead fuel
            (remaining - (toIncl - cursor + 1)) (cursor + (toIncl - cursor + 1)) <;>
          simp [WindowScan.range]
    · simp only [hr, if_false]

/-- With a positive window size, enough iterations, a range that ends below the
head, and a topic in every log returned, the loop ends without a panic, and its
windows are consecutive, of 1 to `maxWindow` blocks each, and cover exactly the
blocks from `cursor` to `cursor + remaining - 1`; each carries the answer to the
query for its range. -/
theorem scanWindows_spec (env : Env) (reg : Registry) (notify : Bool) (io : Log → LogIO)
    (f : Int → Int → Option (List Log)) (maxWindow toHead : Int)
    (hf : ∀ a b logs, f a b = some logs → ∀ lg ∈ logs, lg.Topics ≠ [])
    (hW : 0 < maxWindow) (fuel : Nat) (remaining cursor : Int)
    (h0 : 0 ≤ remaining) (hfuel : remaining ≤ fuel) (hend : cursor + remaining ≤ toHead + 1) :
    ∃ ws, scanWindows env reg notify io f maxWindow toHead fuel remaining cursor = some ws
      ∧ (∀ w ∈ ws, w.fromBlock ≤ w.toBlock ∧ w.toBlock - w.fromBlock + 1 ≤ maxWindow
          ∧ cursor ≤ w.fromBlock ∧ w.toBlock < cursor + remaining)
      ∧ ws.Chain' (fun a b => b.fromBlock = a.toBlock + 1)
      ∧ (∀ w ∈ ws.head?, w.fromBlock = cursor)
      ∧ (∀ b, cursor ≤ b → b < cursor + remaining →
          ∃ w ∈ ws, w.fromBlock ≤ b ∧ b ≤ w.toBlock)
      ∧ (∀ w ∈ ws, w.panicked = false ∧ w.logs = f w.fromBlock w.toBlock) := by
  induction fuel generalizing remaining cursor with
  | zero =>
    have hr : ¬ (remaining > 0) := by
      have : remaining ≤ 0 := by exact_mod_cast hfuel
      omega
    refine ⟨[], by simp [scanWindows, hr], by simp, by simp, by simp, ?_, by simp⟩
    intro b h1 h2
    omega
  | succ fuel ih =>
    by_cases hr : remaining > 0
    · have hwin1 : 1 ≤ min maxWindow remaining := by omega
      have hwin2 : min maxWindow remaining ≤ remaining := min_le_right _ _
      have hwin3 : min maxWindow remaining ≤ maxWindow := min_le_left _ _
      have hclamp : ¬ (cursor + min maxWindow remaining - 1 > toHead) := by omega
      have hproc : ¬ (cursor + min maxWindow remaining - 1 - cursor + 1 ≤ 0) := by omega
      have hfuel' : remaining - (cursor + min maxWindow remaining - 1 - cursor + 1)
          ≤ (fuel : Int) := by
        push_cast at hfuel
        omega
      obtain ⟨rest, hrest, hA, hB, hC, hD, hE⟩ :=
        ih (remaining - (cursor + min maxWindow remaining - 1 - cursor + 1))
          (cursor + (cursor + min maxWindow remaining - 1 - cursor + 1))
          (by omega) hfuel' (by omega)
      obtain ⟨items, hitems⟩ : ∃ items, bootstrapNotify env reg notify io
          ((f cursor (cursor + min maxWindow remaining - 1)).getD []) = some items := by
        apply bootstrapNotify_returns
        cases e : f cursor (cursor + min maxWindow remaining - 1) with
        | none => simp
        | some logs => exact hf _ _ logs e
      refine ⟨{ fromBlock := cursor, toBlock := cursor + min maxWindow remaining - 1,
                logs := f cursor (cursor + min maxWindow remaining - 1),
                panicked := false } :: rest,
        ?_, ?_, ?_, ?_, ?_, ?_⟩
      · unfold scanWindows
        simp only [hr, if_true, hclamp, if_false, hitems, hproc, hrest, Option.map_some']
      · intro w hw
        rcases List.mem_cons.1 hw with hw | hw
        · subst hw
          simp only
          omega
        · have := hA w hw
          omega
      · rw [List.chain'_cons']
        refine ⟨?_, hB⟩
        intro y hy
        have := hC y hy
        simp only
        omega
      · intro w hw
        simp only [List.head?_cons, Option.mem_def, Option.some.injEq] at hw
        rw [← hw]
      · intro b h1 h2
        by_cases hb : b ≤ cursor + min maxWindow remaining - 1
        · exact ⟨_, List.mem_cons_self _ _, h1, hb⟩
        · obtain ⟨w, hw, hw1, hw2⟩ := hD b (by omega) (by omega)
          exact ⟨w, List.mem_cons_of_mem _ hw, hw1, hw2⟩
      · intro w hw
        rcases List.mem_cons.1 hw with hw | hw
        · subst hw
          exact ⟨rfl, rfl⟩
        · exact hE w hw
    · have hz : remaining = 0 := by omega
      refine ⟨[], by simp [scanWindows, hr], by simp, by simp, by simp, ?_, by simp⟩
      intro b h1 h2
      omega

/-- What `bootstrapScanWindowed` passes to its loop, for a depth `N > 0` and a
window size `W > 0`. -/
theorem bootstrapScanWindowed_eq (env : Env) (reg : Registry) (notify : Bool)
    (io : Log → LogIO) (f : Int → Int → Option (List Log)) (N W head : Int)
    (hN : 0 < N) (hW : 0 < W) :
    bootstrapScanWindowed env reg notify io f (some N) (some W) (some head)
      = scanWindows env reg notify io f W head (min N head).toNat (min N head)
          (max 0 (head - N)) := by
  unfold bootstrapScanWindowed
  have e1 : ¬ (N ≤ 0) := by omega
  simp only [e1, if_false, hW, if_true]
  by_cases h : N > head
  · have m1 : min N head = head := min_eq_right (by omega)
    have m2 : max 0 (head - N) = 0 := max_eq_left (by omega)
    simp [h, m1, m2]
  · have m1 : min N head = N := min_eq_left (by omega)
    have m2 : max 0 (head - N) = head - N := max_eq_right (by omega)
    have h3 : ¬ (head - N < 0) := by omega
    simp [h, m1, m2, h3]

/-- When every log returned has a topic, the windows of the backfill cover exactly
the blocks from `max 0 (head - N)` to `head - 1`: the head block itself lies in no
window. -/
theorem bootstrap_covers_below_head (env : Env) (reg : Registry) (notify : Bool)
    (io : Log → LogIO) (f : Int → Int → Option (List Log)) (N W head : Int)
    (hf : ∀ a b logs, f a b = some logs → ∀ lg ∈ logs, lg.Topics ≠ [])
    (hN : 0 < N) (hW : 0 < W) (hh : 0 ≤ head) :
    ∃ ws, bootstrapScanWindowed env reg notify io f (some N) (some W) (some head) = some ws
      ∧ ∀ b, (∃ w ∈ ws, w.fromBlock ≤ b ∧ b ≤ w.toBlock) ↔ (max 0 (head - N) ≤ b ∧ b < head) := by
  rw [bootstrapScanWindowed_eq env reg notify io f N W head hN hW]
  have hsum : max 0 (head - N) + min N head = head := by
    rcases le_total N head with h | h
    · rw [min_eq_left h, max_eq_right (by omega)]
      omega
    · rw [min_eq_right h, max_eq_left (by omega)]
      omega
  obtain ⟨ws, hws, hA, _, _, hD, _⟩ := scanWindows_spec env reg notify io f W head hf hW
    (min N head).toNat (min N head)
    (max 0 (head - N)) (by omega) (by rw [Int.toNat_of_nonneg (by omega)]) (by omega)
  refine ⟨ws, hws, ?_⟩
  intro b
  constructor
  · rintro ⟨w, hw, h1, h2⟩
    have := hA w hw
    omega
  · rintro ⟨h1, h2⟩
    exact hD b h1 (by omega)

/-- For every head, depth `N > 0` and window size `W > 0`, when every log the
queries return has a topic: the backfill ends with a finite list of windows, none
of them ended by a panic; each window carries the answer to the query for its
range and spans at least 1 and at most `W` blocks; the first starts at
`max 0 (head - N)`, each next one right after the last block of the one before,
and together they hold every block from `max 0 (head - N)` to `head - 1` (so
with `head > 0` at least one window is queried); the ranges are the same for any
other such answers, in particular when every query fails. -/
theorem bootstrap_windows_when_logs_have_topics (env : Env) (reg : Registry) (notify : Bool)
    (io : Log → LogIO) (f g : Int → Int → Option (List Log)) (N W head : Int)
    (hf : ∀ a b logs, f a b = some logs → ∀ lg ∈ logs, lg.Topics ≠ [])
    (hg : ∀ a b logs, g a b = some logs → ∀ lg ∈ logs, lg.Topics ≠ [])
    (hN : 0 < N) (hW : 0 < W) (hh : 0 ≤ head) :
    ∃ ws, bootstrapScanWindowed env reg notify io f (some N) (some W) (some head) = some ws
      ∧ (∀ w ∈ ws, 1 ≤ w.toBlock - w.fromBlock + 1 ∧ w.toBlock - w.fromBlock + 1 ≤ W
          ∧ w.panicked = false ∧ w.logs = f w.fromBlock w.toBlock)
      ∧ ws.Chain' (fun a b => b.fromBlock = a.toBlock + 1)
      ∧ (∀ w ∈ ws.head?, w.fromBlock = max 0 (head - N))
      ∧ (∀ b, max 0 (head - N) ≤ b → b < head → ∃ w ∈ ws, w.fromBlock ≤ b ∧ b ≤ w.toBlock)
      ∧ (0 < head → ws ≠ [])
      ∧ (bootstrapScanWindowed env reg notify io g (some N) (some W) (some head)).map
            (List.map WindowScan.range)
          = some (ws.map WindowScan.range)
      ∧ (bootstrapScanWindowed env reg notify io (fun _ _ => none) (some N) (some W)
            (some head)).map (List.map WindowScan.range)
          = some (ws.map WindowScan.range) := by
  have hsum : max 0 (head - N) + min N head = head := by
    rcases le_total N head with h | h
    · rw [min_eq_left h, max_eq_right (by omega)]
      omega
    · rw [min_eq_right h, max_eq_left (by omega)]
      omega
  obtain ⟨ws, hws, hA, hB, hC, hD, hE⟩ := scanWindows_spec env reg notify io f W head hf hW
    (min N head).toNat (min N head)
    (max 0 (head - N)) (by omega) (by rw [Int.toNat_of_nonneg (by omega)]) (by omega)
  have hcov : ∀ b, max 0 (head - N) ≤ b → b < head →
      ∃ w ∈ ws, w.fromBlock ≤ b ∧ b ≤ w.toBlock := fun b h1 h2 => hD b h1 (by omega)
  refine ⟨ws, ?_, ?_, hB, hC, hcov, ?_, ?_, ?_⟩
  · rw [bootstrapScanWindowed_eq env reg notify io f N W head hN hW, hws]
  · intro w hw
    have := hA w hw
    have := hE w hw
    refine ⟨by omega, by omega, this.1, this.2⟩
  · intro hpos hnil
    obtain ⟨w, hw, _⟩ := hcov (head - 1) (by omega) (by omega)
    rw [hnil] at hw
    simp at hw
  · rw [bootstrapScanWindowed_eq env reg notify io g N W head hN hW,
      scanWindows_ranges env reg notify io g f W head hg hf, hws]
    rfl
  · rw [bootstrapScanWindowed_eq env reg notify io (fun _ _ => none) N W head hN hW,
      scanWindows_ranges env reg notify io (fun _ _ => none) f W head (by simp) hf, hws]
    rfl

/-- C11, the code at a concrete input: for head 5000, depth 1000 and window size 300
the windows are 4000-4299, 4300-4599, 4600-4899 and 4900-4999; the last one ends
at head - 1, not at the head. -/
theorem bootstrap_windows_at_5000 :
    (bootstrapScanWindowed (refEnv 1 2) sampleRegistry true (fun _ => sampleIO)
        (fun _ _ => some []) (some 1000) (some 300) (some 5000)).map
        (List.map WindowScan.range)
      = some [(4000, 4299), (4300, 4599), (4600, 4899), (4900, 4999)] := by
  decide

/-- C12, the code at a concrete input: head 5000, depth 1000, window size 300.
When every query fails the scan goes through the windows 4000-4299, 4300-4599,
4600-4899 and 4900-4999, and so it does when every query succeeds with no log.
When the query for the first window succeeds and returns a log of the watched
wallet `mainApp` that has no topic, `formatEventMessage` panics on that log and
the scan ends there: 4000-4299 is the only window queried.  The windows that are
queried therefore depend on whether the first query failed or succeeded. -/
theorem bootstrap_scan_ends_at_log_without_topics :
    (bootstrapScanWindowed (refEnv 1 2) sampleRegistry true (fun _ => sampleIO)
        (fun _ _ => none) (some 1000) (some 300) (some 5000)).map
        (List.map (fun w => (w.range, w.logs.isSome, w.panicked)))
      = some [((4000, 4299), false, false), ((4300, 4599), false, false),
              ((4600, 4899), false, false), ((4900, 4999), false, false)]
    ∧ (bootstrapScanWindowed (refEnv 1 2) sampleRegistry true (fun _ => sampleIO)
        (fun _ _ => some []) (some 1000) (some 300) (some 5000)).map
        (List.map (fun w => (w.range, w.logs.isSome, w.panicked)))
      = some [((4000, 4299), true, false), ((4300, 4599), true, false),
              ((4600, 4899), true, false), ((4900, 4999), true, false)]
    ∧ (bootstrapScanWindowed (refEnv 1 2) sampleRegistry true (fun _ => sampleIO)
        (fun fromBlock _ =>
          if fromBlock = 4000 then
            some [{ Address := mainApp, Topics := [], Data := [], TxHash := 0xabc }]
          else none)
        (some 1000) (some 300) (some 5000)).map
        (List.map (fun w => (w.range, w.logs.isSome, w.panicked)))
      = some [((4000, 4299), true, true)] := by
  refine ⟨by decide, by decide, by decide⟩

/-! ## Event classifier -/

theorem digitChar_hex (m : Nat) (h : m < 16) :
    Nat.digitChar m ∈ "0123456789abcdef".data := by
  interval_cases m <;> decide

theorem hexFixed_chars (width n : Nat) :
    ∀ c ∈ hexFixed width n, c ∈ "0123456789abcdef".data := by
  induction width with
  | zero => intro c hc; simp [hexFixed] at hc
  | succ width ih =>
    intro c hc
    simp only [hexFixed, List.mem_cons] at hc
    rcases hc with hc | hc
    · rw [hc]
      exact digitChar_hex _ (Nat.mod_lt _ (by norm_num))
    · exact ih c hc

/-- Every character of a pattern that occurs in a text is a character of the text. -/
theorem mem_of_Contains {s p : String} (h : Contains s p = true) :
    ∀ c ∈ p.data, c ∈ s.data := by
  unfold Contains at h
  rw [containsChars_iff] at h
  exact fun c hc => h.subset hc

/-- A text contains each of the pieces it is put together from. -/
theorem Contains_middle (a b c : String) : Contains (a ++ (b ++ c)) b = true := by
  unfold Contains
  rw [containsChars_iff]
  exact ⟨a.data, c.data, by simp⟩

theorem usdThreshold_pos (env : Env) : 0 < usdThreshold env := by
  unfold usdThreshold
  split
  · split
    · split
      · assumption
      · norm_num
    · norm_num
  · norm_num

/-- A body without a dollar sign carries no amount. -/
theorem extractUSDFromBody_no_dollar (env : Env) (body : String)
    (h : '$' ∉ body.data) : extractUSDFromBody env body = 0 := by
  unfold extractUSDFromBody
  have : body.data.dropWhile (fun c => c != '$') = [] := by
    rw [List.dropWhile_eq_nil_iff]
    intro c hc
    have : c ≠ '$' := fun e => h (e ▸ hc)
    simpa using this
  rw [this]

/-- A title that is lower-cased to a text with `installmodule` is important. -/
theorem installmodule_title_important (env : Env) (title body : String)
    (h : Contains (env.toLower title) "installmodule" = true) :
    determineImportance env title body = true := by
  unfold determineImportance
  simp [h]

/-- Lower-casing a title that ends in `] InstallModule` gives a text that contains
`installmodule`. -/
theorem lower_installmodule_title (env : Env) (hlow : GoToLower env) (pre : String) :
    Contains (env.toLower (pre ++ "] InstallModule")) "installmodule" = true := by
  obtain ⟨f, hf, hascii, _⟩ := hlow
  rw [hf]
  unfold Contains
  rw [containsChars_iff]
  have e : "] InstallModule".data.map f = "] installmodule".data := by
    have h1 : "] InstallModule".data.map f = "] InstallModule".data.map Char.toLower := by
      apply List.map_congr_left
      intro c hc
      apply hascii
      revert c
      decide
    rw [h1]
    decide
  simp only [String.data_append, List.map_append, e]
  exact ⟨pre.data.map f ++ "] ".data, [], by simp⟩

/-- The message of a module-install log. -/
theorem formatEventMessage_install (env : Env) (reg : Registry) (io : LogIO) (lg : Log)
    (hm : lg.Topics.head? = some moduleInstalledTopic) :
    formatEventMessage env reg io lg
      = some ("🔴 [" ++ GetCategoryLabel reg lg.Address ++ "] InstallModule",
          "📋 **Tx:** \x60" ++ hashHex lg.TxHash ++ "\x60\n🔧 **Modül:** \x60"
            ++ String.mk (hexBytes lg.Data) ++ "\x60\n⏰ **Zaman:** \x60" ++ io.stamp
            ++ "\x60") := by
  unfold formatEventMessage
  simp only [hm, if_true]

/-- The message of a log that is neither a module install nor a Transfer. -/
theorem formatEventMessage_other (env : Env) (reg : Registry) (io : LogIO) (lg : Log)
    (topic0 : Nat) (htop : lg.Topics.head? = some topic0)
    (hm : topic0 ≠ moduleInstalledTopic) (hnt : topic0 ≠ transferTopic) :
    formatEventMessage env reg io lg
      = if EqualFold (resolveEventName reg lg.Address topic0) "DiamondCut" then
          some ("🔴 [" ++ GetCategoryLabel reg lg.Address ++ "] InstallModule",
            "📋 **Tx:** \x60" ++ hashHex lg.TxHash
              ++ "\x60\n⚙️ **Event:** \x60DiamondCut→InstallModule\x60\n⏰ **Zaman:** \x60"
              ++ io.stamp ++ "\x60")
        else
          some ("🔵 [" ++ GetCategoryLabel reg lg.Address ++ "] "
              ++ resolveEventName reg lg.Address topic0,
            "📋 **Tx:** \x60" ++ hashHex lg.TxHash ++ "\x60\n⏰ **Zaman:** \x60" ++ io.stamp
              ++ "\x60") := by
  have hM : lg.Topics.head? ≠ some moduleInstalledTopic := by
    rw [htop]
    intro e
    exact hm (Option.some.inj e)
  have hT : lg.Topics.head? ≠ some transferTopic := by
    rw [htop]
    intro e
    exact hnt (Option.some.inj e)
  obtain ⟨rest, hrest⟩ : ∃ rest, lg.Topics = topic0 :: rest := by
    cases hl : lg.Topics with
    | nil => rw [hl] at htop; simp at htop
    | cons a rest =>
      rw [hl] at htop
      simp only [List.head?_cons, Option.some.injEq] at htop
      exact ⟨rest, by rw [htop]⟩
  unfold formatEventMessage
  simp only [hM, if_false, hT]
  rw [hrest]

/-- C17: for a log whose first topic is `moduleInstalledTopic`, and for a log whose
first topic is not the Transfer signature and resolves, case-insensitively, to
`DiamondCut`, `formatEventMessage` returns the title `🔴 [label] InstallModule`
and a body that contains the transaction hash, and `determineImportance` rates
them important, for every label, every payload and every environment (so every
USD threshold) whose `strings.ToLower` lower-cases ASCII letters. -/
theorem install_and_diamondcut_are_important (env : Env) (reg : Registry) (io : LogIO)
    (lg : Log) (hlow : GoToLower env)
    (h : lg.Topics.head? = some moduleInstalledTopic
      ∨ ∃ topic0, lg.Topics.head? = some topic0 ∧ topic0 ≠ transferTopic
          ∧ EqualFold (resolveEventName reg lg.Address topic0) "DiamondCut" = true) :
    ∃ body,
      formatEventMessage env reg io lg
        = some ("🔴 [" ++ GetCategoryLabel reg lg.Address ++ "] InstallModule", body)
      ∧ Contains body (hashHex lg.TxHash) = true
      ∧ determineImportance env
          ("🔴 [" ++ GetCategoryLabel reg lg.Address ++ "] InstallModule") body = true := by
  have himp : ∀ body, determineImportance env
      ("🔴 [" ++ GetCategoryLabel reg lg.Address ++ "] InstallModule") body = true :=
    fun body => installmodule_title_important env _ body
      (lower_installmodule_title env hlow _)
  by_cases hm : lg.Topics.head? = some moduleInstalledTopic
  · refine ⟨_, formatEventMessage_install env reg io lg hm, ?_, himp _⟩
    simp only [String.append_assoc]
    exact Contains_middle _ _ _
  · rcases h with h | ⟨topic0, htop, hnt, hdc⟩
    · exact absurd h hm
    · have hm2 : topic0 ≠ moduleInstalledTopic := by
        intro e
        rw [e] at htop
        exact hm htop
      have hf := formatEventMessage_other env reg io lg topic0 htop hm2 hnt
      rw [hdc] at hf
      refine ⟨_, hf, ?_, himp _⟩
      simp only [String.append_assoc]
      exact Contains_middle _ _ _

/-- Witness of C17: a module-install log of the wallet `mainApp`. -/
theorem install_and_diamondcut_are_important_witness :
    ∃ body,
      formatEventMessage (refEnv 1 2) sampleRegistry sampleIO
          { Address := mainApp, Topics := [moduleInstalledTopic], Data := [1, 255],
            TxHash := 0xabc }
        = some ("🔴 [" ++ GetCategoryLabel sampleRegistry mainApp ++ "] InstallModule", body)
      ∧ Contains body (hashHex 0xabc) = true
      ∧ determineImportance (refEnv 1 2)
          ("🔴 [" ++ GetCategoryLabel sampleRegistry mainApp ++ "] InstallModule") body = true :=
  install_and_diamondcut_are_important (refEnv 1 2) sampleRegistry sampleIO
    { Address := mainApp, Topics := [moduleInstalledTopic], Data := [1, 255], TxHash := 0xabc }
    ⟨Char.toLower, fun _ => rfl, fun _ _ => rfl, by decide⟩ (Or.inl rfl)

/-- The body of an event that is neither a module install nor a Transfer is made
of quiet ASCII characters and caseless symbols. -/
theorem otherBody_chars (h : Nat) (stamp : String)
    (hstamp : ∀ c ∈ stamp.data, c ∈ stampAlphabet) :
    ∀ c ∈ ("📋 **Tx:** \x60" ++ hashHex h ++ "\x60\n⏰ **Zaman:** \x60" ++ stamp ++ "\x60").data,
      c ∈ quietAlphabet ∨ c ∈ caselessSymbols := by
  intro c hc
  simp only [String.data_append, List.mem_append] at hc
  rcases hc with (((hc | hc) | hc) | hc) | hc
  · revert c
    decide
  · left
    simp only [hashHex, List.mem_cons] at hc
    rcases hc with hc | hc | hc
    · rw [hc]; decide
    · rw [hc]; decide
    · exact (by decide : ∀ c ∈ "0123456789abcdef".data, c ∈ quietAlphabet) c
        (hexFixed_chars 64 h c hc)
  · revert c
    decide
  · left
    exact (by decide : ∀ c ∈ stampAlphabet, c ∈ quietAlphabet) c (hstamp c hc)
  · revert c
    decide

/-- Such a body is lower-cased to a text without the letter `s`, and has no dollar
sign. -/
theorem otherBody_quiet (env : Env) (hlow : GoToLower env) (h : Nat) (stamp : String)
    (hstamp : ∀ c ∈ stamp.data, c ∈ stampAlphabet) :
    Contains (env.toLower
        ("📋 **Tx:** \x60" ++ hashHex h ++ "\x60\n⏰ **Zaman:** \x60" ++ stamp ++ "\x60"))
        "install" = false
    ∧ '$' ∉ ("📋 **Tx:** \x60" ++ hashHex h ++ "\x60\n⏰ **Zaman:** \x60" ++ stamp
        ++ "\x60").data := by
  have hchars := otherBody_chars h stamp hstamp
  have hq : ∀ c ∈ quietAlphabet, c.val < 128 ∧ c.toLower ≠ 's' ∧ c ≠ '$' := by decide
  have hs : ∀ c ∈ caselessSymbols, c ≠ 's' ∧ c ≠ '$' := by decide
  obtain ⟨f, hf, hascii, hsym⟩ := hlow
  constructor
  · cases hc : Contains (env.toLower
        ("📋 **Tx:** \x60" ++ hashHex h ++ "\x60\n⏰ **Zaman:** \x60" ++ stamp ++ "\x60"))
        "install" with
    | false => rfl
    | true =>
      exfalso
      have hmem := mem_of_Contains hc 's' (by decide)
      rw [hf] at hmem
      simp only [List.mem_map] at hmem
      obtain ⟨c, hcin, hfc⟩ := hmem
      rcases hchars c hcin with hcq | hcs
      · have := hq c hcq
        rw [hascii c this.1] at hfc
        exact this.2.1 hfc
      · rw [hsym c hcs] at hfc
        exact (hs c hcs).1 hfc
  · intro hd
    rcases hchars '$' hd with hcq | hcs
    · exact (hq '$' hcq).2.2 rfl
    · exact (hs '$' hcs).2 rfl

/-- C18 fails as stated: when an interface file of the wallet `mainApp` names an
event `ModuleInstalled` under a topic that is not `moduleInstalledTopic`, a log
with that topic gets the title `🔵 [Main App] ModuleInstalled`, and
`determineImportance` rates it important. -/
theorem named_like_install_is_important :
    (0x1111 : Nat) ≠ moduleInstalledTopic ∧ (0x1111 : Nat) ≠ transferTopic
    ∧ EqualFold (resolveEventName (RegisterEventName sampleRegistry mainApp 0x1111
          "ModuleInstalled") mainApp 0x1111) "DiamondCut" = false
    ∧ formatEventMessage (refEnv 1 2)
        (RegisterEventName sampleRegistry mainApp 0x1111 "ModuleInstalled") sampleIO
        { Address := mainApp, Topics := [0x1111], Data := [], TxHash := 0xabc }
      = some ("🔵 [Main App] ModuleInstalled",
          "📋 **Tx:** \x600x0000000000000000000000000000000000000000000000000000000000000abc\x60\n⏰ **Zaman:** \x6001.01.2025 12:00:00\x60")
    ∧ determineImportance (refEnv 1 2) "🔵 [Main App] ModuleInstalled"
        "📋 **Tx:** \x600x0000000000000000000000000000000000000000000000000000000000000abc\x60\n⏰ **Zaman:** \x6001.01.2025 12:00:00\x60"
      = true := by
  refine ⟨by decide, by decide, by decide, by decide, by decide⟩

/-- C18 as amended: for a log whose first topic is neither the module-install
signature nor the Transfer signature and whose resolved event name is not
`DiamondCut`, the title `🔵 [label] name` and the body that `formatEventMessage`
returns are rated not important by `determineImportance`, for every USD
threshold, whenever the lower-cased title does not contain both `install` and
`module` and does not contain `diamondcut`. -/
theorem other_event_not_important (env : Env) (reg : Registry) (io : LogIO) (lg : Log)
    (topic0 : Nat) (hlow : GoToLower env)
    (htop : lg.Topics.head? = some topic0)
    (hm : topic0 ≠ moduleInstalledTopic) (hnt : topic0 ≠ transferTopic)
    (hname : EqualFold (resolveEventName reg lg.Address topic0) "DiamondCut" = false)
    (hstamp : ∀ c ∈ io.stamp.data, c ∈ stampAlphabet)
    (hkw : ¬ (Contains (env.toLower ("🔵 [" ++ GetCategoryLabel reg lg.Address ++ "] "
                ++ resolveEventName reg lg.Address topic0)) "install" = true
            ∧ Contains (env.toLower ("🔵 [" ++ GetCategoryLabel reg lg.Address ++ "] "
                ++ resolveEventName reg lg.Address topic0)) "module" = true))
    (hdc : Contains (env.toLower ("🔵 [" ++ GetCategoryLabel reg lg.Address ++ "] "
                ++ resolveEventName reg lg.Address topic0)) "diamondcut" = false) :
    ∃ body,
      formatEventMessage env reg io lg
        = some ("🔵 [" ++ GetCategoryLabel reg lg.Address ++ "] "
            ++ resolveEventName reg lg.Address topic0, body)
      ∧ determineImportance env ("🔵 [" ++ GetCategoryLabel reg lg.Address ++ "] "
            ++ resolveEventName reg lg.Address topic0) body = false := by
  have hf := formatEventMessage_other env reg io lg topic0 htop hm hnt
  rw [hname] at hf
  refine ⟨_, hf, ?_⟩
  obtain ⟨hb1, hb2⟩ := otherBody_quiet env hlow lg.TxHash io.stamp hstamp
  have a : (Contains (env.toLower ("🔵 [" ++ GetCategoryLabel reg lg.Address ++ "] "
        ++ resolveEventName reg lg.Address topic0)) "install"
      && Contains (env.toLower ("🔵 [" ++ GetCategoryLabel reg lg.Address ++ "] "
        ++ resolveEventName reg lg.Address topic0)) "module") = false := by
    simpa using hkw
  have hthr : ¬ (usdThreshold env ≤ 0) := not_le.mpr (usdThreshold_pos env)
  rw [determineImportance_eq, a, hdc, hb1, extractUSDFromBody_no_dollar env _ hb2]
  simp [hthr]

/-- Witness of the amended C18: an Approval log of the wallet `mainApp`. -/
theorem other_event_not_important_witness :
    ∃ body,
      formatEventMessage (refEnv 1 2) sampleRegistry sampleIO
          { Address := mainApp, Topics := [approvalTopic], Data := [], TxHash := 0xabc }
        = some ("🔵 [" ++ GetCategoryLabel sampleRegistry mainApp ++ "] "
            ++ resolveEventName sampleRegistry mainApp approvalTopic, body)
      ∧ determineImportance (refEnv 1 2) ("🔵 [" ++ GetCategoryLabel sampleRegistry mainApp
            ++ "] " ++ resolveEventName sampleRegistry mainApp approvalTopic) body = false :=
  other_event_not_important (refEnv 1 2) sampleRegistry sampleIO
    { Address := mainApp, Topics := [approvalTopic], Data := [], TxHash := 0xabc }
    approvalTopic ⟨Char.toLower, fun _ => rfl, fun _ _ => rfl, by decide⟩ rfl
    (by decide) (by decide) (by decide) (by decide) (by decide) (by decide)

/-! ## Backfill and live path -/

/-- C19, the code at a concrete input: a Transfer log with three topics, emitted by
the watched wallet `mainApp`, whose from and to addresses (1 and 2) are not
watched.  `formatEventMessage` returns an empty title and body; the live path
drops the log, but the backfill (head 5000, depth 1000, window size 300, the log
returned for the window that holds block 4950) sends an item with that empty
title and body on `notificationBuffer`. -/
theorem bootstrap_sends_empty_item :
    isRelevantLog sampleRegistry.WatchMap
        { Address := mainApp, Topics := [transferTopic, 1, 2], Data := [], TxHash := 0xabc }
      = false
    ∧ formatEventMessage (refEnv 1 2) sampleRegistry sampleIO
        { Address := mainApp, Topics := [transferTopic, 1, 2], Data := [], TxHash := 0xabc }
      = some ("", "")
    ∧ (handleLiveEvent (refEnv 1 2) sampleRegistry
          { nativeSeen := fun _ => none, notificationBuffer := [] }
          { Address := mainApp, Topics := [transferTopic, 1, 2], Data := [], TxHash := 0xabc }
          { sinceNow := 0, storeNow := 0, stamp := "01.01.2025 12:00:00", tx := none }
          sampleIO).map
        (fun st => st.notificationBuffer.map (fun it => (it.title, it.body)))
      = some []
    ∧ ((bootstrapScanWindowed (refEnv 1 2) sampleRegistry true (fun _ => sampleIO)
          (fun fromBlock toBlock =>
            if fromBlock ≤ 4950 ∧ 4950 ≤ toBlock then
              some [{ Address := mainApp, Topics := [transferTopic, 1, 2], Data := [],
                      TxHash := 0xabc }]
            else some [])
          (some 1000) (some 300) (some 5000)).bind
        (bootstrapSends (refEnv 1 2) sampleRegistry true (fun _ => sampleIO))).map
        (List.map (fun it => (it.title, it.body)))
      = some [("", "")] := by
  refine ⟨by decide, by decide, by decide, by decide⟩

/-- When the transaction lookup yields no native transfer, `handleLiveEvent` offers
the message of `formatEventMessage` to the buffer. -/
theorem handleLiveEvent_without_native (env : Env) (reg : Registry) (st : ListenerState)
    (lg : Log) (lookup : TxLookupIO) (io : LogIO) (title body : String)
    (hrel : isRelevantLog reg.WatchMap lg = true)
    (hnative : lg.TxHash = 0
      ∨ (tryBuildNativeTransferNotification reg st.nativeSeen lg lookup).1 = none)
    (hmsg : formatEventMessage env reg io lg = some (title, body)) :
    (handleLiveEvent env reg st lg lookup io).map (fun s => s.notificationBuffer)
      = some (offer st.notificationBuffer { title := title, body := body, time := io.now }) := by
  unfold handleLiveEvent
  simp only [hrel, Bool.not_true, Bool.false_eq_true, if_false]
  rcases hnative with h0 | hn
  · simp [h0, hmsg]
  · by_cases h0 : lg.TxHash = 0
    · simp [h0, hmsg]
    · simp only [ne_eq, h0, not_false_eq_true, if_true]
      cases hq : tryBuildNativeTransferNotification reg st.nativeSeen lg lookup with
      | mk r seen =>
        rw [hq] at hn
        simp only at hn
        subst hn
        simp [hmsg]

/-- C20, the code at a concrete input: a module-install log of the watched wallet
`mainApp`, in a transaction that sends 1 wei to `mainApp`.  `formatEventMessage`
gives the InstallModule message for it, yet `handleLiveEvent` offers to the buffer
the native transfer notification alone. -/
theorem install_log_replaced_by_native :
    isRelevantLog sampleRegistry.WatchMap
        { Address := mainApp, Topics := [moduleInstalledTopic], Data := [1, 255],
          TxHash := 0xabc }
      = true
    ∧ (formatEventMessage (refEnv 1 2) sampleRegistry sampleIO
        { Address := mainApp, Topics := [moduleInstalledTopic], Data := [1, 255],
          TxHash := 0xabc }).map Prod.fst
      = some "🔴 [Main App] InstallModule"
    ∧ (handleLiveEvent (refEnv 1 2) sampleRegistry
          { nativeSeen := fun _ => none, notificationBuffer := [] }
          { Address := mainApp, Topics := [moduleInstalledTopic], Data := [1, 255],
            TxHash := 0xabc }
          { sinceNow := 0, storeNow := 0, stamp := "01.01.2025 12:00:00",
            tx := some { value := 1, recipient := some mainApp, sender := some 5,
                         valStr := "0.000000" } }
          sampleIO).map
        (fun st => st.notificationBuffer.map (fun it => it.title))
      = some ["🔵 [ETH] Transfer (ETH)"] := by
  refine ⟨by decide, by decide, by decide⟩

/-! ## Logs without topics -/

/-- C25, the code at a concrete input: a log of the watched wallet `mainApp` with
an empty topic list passes the two guarded tests of `formatEventMessage` and
reaches `lg.Topics[0]`, which is out of range (`none` in the model); the inner loop
of `bootstrapScanWindowed` hands such a log to `formatEventMessage` unfiltered,
whereas `isRelevantLog`, the filter of the live path, rejects it. -/
theorem empty_topics_index_out_of_range :
    formatEventMessage (refEnv 1 2) sampleRegistry sampleIO
        { Address := mainApp, Topics := [], Data := [], TxHash := 0xabc } = none
    ∧ bootstrapNotify (refEnv 1 2) sampleRegistry true (fun _ => sampleIO)
        [{ Address := mainApp, Topics := [], Data := [], TxHash := 0xabc }] = none
    ∧ isRelevantLog sampleRegistry.WatchMap
        { Address := mainApp, Topics := [], Data := [], TxHash := 0xabc } = false
    ∧ (∀ (env : Env) (reg : Registry) (io : LogIO) (lg : Log),
        lg.Topics = [] → formatEventMessage env reg io lg = none) := by
  refine ⟨by decide, rfl, by decide, ?_⟩
  intro env reg io lg h
  simp [formatEventMessage, h]

/-! ## Balances of either sign -/

/-- C26, the code at a concrete input: for the change -1500000 of a token with 6
decimals (a decrease of 1.5) `formatBalance` returns `-2.5`, which denotes -5/2 and
not -3/2: the Euclidean quotient is -2 and the remainder 500000. -/
theorem formatBalance_negative_change :
    formatBalance (-1500000) 6 = "-2.5"
    ∧ decimalValue (formatBalance (-1500000) 6) = some (-5 / 2)
    ∧ ((-1500000 : ℚ) / 10 ^ 6 = -3 / 2)
    ∧ decimalValue (formatBalance (-1500000) 6) ≠ some ((-1500000 : ℚ) / 10 ^ 6)
    ∧ formatBalance (-1) 18 = "-1.999999999999999999" := by
  have e : formatBalance (-1500000) 6 = "-2.5" := by decide
  have v : decimalValue "-2.5" = some (-5 / 2) := by
    simp [decimalValue, parseDecimal, digitsValue]
    norm_num
  refine ⟨e, ?_, by norm_num, ?_, by decide⟩
  · rw [e, v]
  · rw [e, v]
    norm_num

/-! ## Machine numbers -/

theorem roundHalfEven_eq (x : ℚ) (n : Int) (h1 : (n : ℚ) - 1 / 2 < x) (h2 : x < n + 1 / 2) :
    roundHalfEven x = n := by
  unfold roundHalfEven
  have hk : ⌊x⌋ = n ∨ ⌊x⌋ = n - 1 := by
    have a : n - 1 ≤ ⌊x⌋ := by
      rw [Int.le_floor]
      push_cast
      linarith
    have b : ⌊x⌋ < n + 1 := by
      rw [Int.floor_lt]
      push_cast
      linarith
    omega
  rcases hk with hk | hk
  · have : x - (n : ℚ) < 1 / 2 := by linarith
    simp only [hk, this, if_true]
  · have e : ((n - 1 : Int) : ℚ) = (n : ℚ) - 1 := by push_cast; ring
    have a : ¬ (x - ((n - 1 : Int) : ℚ) < 1 / 2) := by
      rw [e]
      intro h
      linarith
    have b : x - ((n - 1 : Int) : ℚ) > 1 / 2 := by
      rw [e]
      linarith
    simp only [hk, a, b, if_true, if_false]
    omega

theorem roundHalfEven_near (x : ℚ) : |(roundHalfEven x : ℚ) - x| ≤ 1 / 2 := by
  have h1 := Int.floor_le x
  have h2 := Int.lt_floor_add_one x
  unfold roundHalfEven
  simp only
  rw [abs_le]
  split_ifs with a b c
  · constructor <;> linarith
  · push_cast
    constructor <;> linarith
  · constructor <;> linarith
  · push_cast
    have : x - (⌊x⌋ : ℚ) = 1 / 2 := le_antisymm (not_lt.mp b) (not_lt.mp a)
    constructor <;> linarith

theorem roundHalfEven_nonneg (x : ℚ) (h : 0 ≤ x) : 0 ≤ roundHalfEven x := by
  have h1 : 0 ≤ ⌊x⌋ := Int.floor_nonneg.mpr h
  unfold roundHalfEven
  simp only
  split_ifs <;> omega

theorem log2_unique (x : ℚ) (e : Int) (h1 : (2 : ℚ) ^ e ≤ x) (h2 : x < 2 ^ (e + 1)) :
    Int.log 2 x = e := by
  have hx : 0 < x := lt_of_lt_of_le (by positivity) h1
  have a : e ≤ Int.log 2 x := by
    rw [← Int.zpow_le_iff_le_log (by norm_num) hx]
    exact_mod_cast h1
  have b : Int.log 2 x < e + 1 := by
    rw [← Int.lt_zpow_iff_log_lt (by norm_num) hx]
    exact_mod_cast h2
  omega

theorem roundToPrec_eq (prec : Nat) (x : ℚ) (e n : Int) (h1 : (2 : ℚ) ^ e ≤ x)
    (h2 : x < 2 ^ (e + 1)) (h3 : (n : ℚ) - 1 / 2 < x / 2 ^ (e + 1 - prec))
    (h4 : x / 2 ^ (e + 1 - prec) < n + 1 / 2) :
    roundToPrec prec x = n * 2 ^ (e + 1 - prec) := by
  have hx : 0 < x := lt_of_lt_of_le (by positivity) h1
  unfold roundToPrec
  simp only [ne_of_gt hx, if_false, abs_of_pos hx, log2_unique x e h1 h2]
  rw [roundHalfEven_eq _ n h3 h4]

theorem float64Round_eq (x : ℚ) (e n : Int) (he : -1022 ≤ e) (h1 : (2 : ℚ) ^ e ≤ x)
    (h2 : x < 2 ^ (e + 1)) (h3 : (n : ℚ) - 1 / 2 < x / 2 ^ (e - 52))
    (h4 : x / 2 ^ (e - 52) < n + 1 / 2) :
    float64Round x = n * 2 ^ (e - 52) := by
  have hx : 0 < x := lt_of_lt_of_le (by positivity) h1
  unfold float64Round
  simp only [ne_of_gt hx, if_false, abs_of_pos hx, log2_unique x e h1 h2, max_eq_left he]
  rw [roundHalfEven_eq _ n h3 h4]

theorem roundToPrec_nonneg (prec : Nat) (x : ℚ) (h : 0 ≤ x) : 0 ≤ roundToPrec prec x := by
  unfold roundToPrec
  split_ifs
  · exact le_refl _
  · simp only
    have : (0 : ℚ) < 2 ^ (Int.log 2 |x| + 1 - (prec : Int)) := by positivity
    have := roundHalfEven_nonneg (x / 2 ^ (Int.log 2 |x| + 1 - (prec : Int)))
      (div_nonneg h (le_of_lt this))
    have : (0 : ℚ) ≤ (roundHalfEven (x / 2 ^ (Int.log 2 |x| + 1 - (prec : Int))) : ℚ) := by
      exact_mod_cast this
    positivity

theorem float64Round_nonneg (x : ℚ) (h : 0 ≤ x) : 0 ≤ float64Round x := by
  unfold float64Round
  split_ifs
  · exact le_refl _
  · simp only
    have : (0 : ℚ) < 2 ^ (max (Int.log 2 |x|) (-1022) - 52) := by positivity
    have := roundHalfEven_nonneg (x / 2 ^ (max (Int.log 2 |x|) (-1022) - 52))
      (div_nonneg h (le_of_lt this))
    have : (0 : ℚ) ≤ (roundHalfEven (x / 2 ^ (max (Int.log 2 |x|) (-1022) - 52)) : ℚ) := by
      exact_mod_cast this
    positivity

/-- Below `2 ^ 53` the nearest `float64` is within a half. -/
theorem float64Round_near (x : ℚ) (h0 : 0 ≤ x) (h : x < 2 ^ 53) :
    |float64Round x - x| ≤ 1 / 2 := by
  unfold float64Round
  split_ifs with hz
  · rw [hz]
    norm_num
  · have hx : 0 < x := lt_of_le_of_ne h0 (Ne.symm hz)
    simp only [abs_of_pos hx]
    have he : Int.log 2 x < 53 := by
      rw [← Int.lt_zpow_iff_log_lt (by norm_num) hx]
      exact_mod_cast h
    have hu0 : (0 : ℚ) < 2 ^ (max (Int.log 2 x) (-1022) - 52) := by positivity
    have hu1 : (2 : ℚ) ^ (max (Int.log 2 x) (-1022) - 52) ≤ 1 := by
      have : max (Int.log 2 x) (-1022) - 52 ≤ 0 := by omega
      calc (2 : ℚ) ^ (max (Int.log 2 x) (-1022) - 52) ≤ 2 ^ (0 : Int) :=
            zpow_le_zpow_right₀ (by norm_num) this
        _ = 1 := by norm_num
    generalize (2 : ℚ) ^ (max (Int.log 2 x) (-1022) - 52) = u at hu0 hu1
    have hn := roundHalfEven_near (x / u)
    have e : (roundHalfEven (x / u) : ℚ) * u - x = ((roundHalfEven (x / u) : ℚ) - x / u) * u := by
      field_simp
    rw [e, abs_mul, abs_of_pos hu0]
    calc |(roundHalfEven (x / u) : ℚ) - x / u| * u ≤ 1 / 2 * 1 := by
          apply mul_le_mul hn hu1 (le_of_lt hu0) (by norm_num)
      _ = 1 / 2 := by norm_num

/-- Below `2 ^ k` the nearest `float64` is within `2 ^ (k - 54)`. -/
theorem float64Round_within (x : ℚ) (k : Int) (h0 : 0 ≤ x) (hk : -1021 ≤ k) (h : x < 2 ^ k) :
    |float64Round x - x| ≤ 2 ^ (k - 54) := by
  unfold float64Round
  split_ifs with hz
  · rw [hz]
    simp only [sub_self, abs_zero]
    positivity
  · have hx : 0 < x := lt_of_le_of_ne h0 (Ne.symm hz)
    simp only [abs_of_pos hx]
    have he : Int.log 2 x < k := by
      rw [← Int.lt_zpow_iff_log_lt (by norm_num) hx]
      exact_mod_cast h
    have hu0 : (0 : ℚ) < 2 ^ (max (Int.log 2 x) (-1022) - 52) := by positivity
    have hu1 : (2 : ℚ) ^ (max (Int.log 2 x) (-1022) - 52) ≤ 2 ^ (k - 53) := by
      have : max (Int.log 2 x) (-1022) - 52 ≤ k - 53 := by omega
      exact zpow_le_zpow_right₀ (by norm_num) this
    have hk2 : (2 : ℚ) ^ (k - 54) = 1 / 2 * 2 ^ (k - 53) := by
      have : k - 53 = (k - 54) + 1 := by ring
      rw [this, zpow_add₀ (by norm_num)]
      ring
    rw [hk2]
    generalize (2 : ℚ) ^ (max (Int.log 2 x) (-1022) - 52) = u at hu0 hu1
    have hn := roundHalfEven_near (x / u)
    have e : (roundHalfEven (x / u) : ℚ) * u - x = ((roundHalfEven (x / u) : ℚ) - x / u) * u := by
      field_simp
    rw [e, abs_mul, abs_of_pos hu0]
    exact mul_le_mul hn hu1 (le_of_lt hu0) (by norm_num)

/-- An `int64` holds a result within its range as it is. -/
theorem wrapInt64_id (x : Int) (h1 : -2 ^ 63 ≤ x) (h2 : x < 2 ^ 63) : wrapInt64 x = x := by
  unfold wrapInt64
  omega

/-- The bit length of a number between two powers of two. -/
theorem size_eq (n k : Nat) (h1 : 2 ^ k ≤ n) (h2 : n < 2 ^ (k + 1)) : Nat.size n = k + 1 := by
  have a : Nat.size n ≤ k + 1 := Nat.size_le.mpr h2
  have b : k < Nat.size n := Nat.lt_size.mpr h1
  omega

/-- Rounding to `prec` bits moves a number that is not negative by at most the
fraction `2 ^ (-prec)` of it. -/
theorem roundToPrec_rel (prec : Nat) (x : ℚ) (hx : 0 ≤ x) :
    |roundToPrec prec x - x| ≤ x * 2 ^ (-(prec : Int)) := by
  unfold roundToPrec
  split_ifs with hz
  · rw [hz]
    simp
  · have hpos : 0 < x := lt_of_le_of_ne hx (Ne.symm hz)
    simp only [abs_of_pos hpos]
    have hlog : (2 : ℚ) ^ (Int.log 2 x) ≤ x := by
      have := Int.zpow_log_le_self (b := 2) (by norm_num) hpos
      exact_mod_cast this
    have hu : (2 : ℚ) ^ (Int.log 2 x + 1 - (prec : Int))
        = 2 ^ (Int.log 2 x) * 2 * 2 ^ (-(prec : Int)) := by
      rw [show Int.log 2 x + 1 - (prec : Int) = Int.log 2 x + 1 + -(prec : Int) by ring,
        zpow_add₀ (by norm_num), zpow_add₀ (by norm_num)]
      norm_num
    have hp0 : (0 : ℚ) < 2 ^ (-(prec : Int)) := by positivity
    have hl0 : (0 : ℚ) < 2 ^ (Int.log 2 x) := by positivity
    rw [hu]
    generalize (2 : ℚ) ^ (-(prec : Int)) = a at hp0
    generalize (2 : ℚ) ^ (Int.log 2 x) = l at hlog hl0
    have hn := roundHalfEven_near (x / (l * 2 * a))
    have hu0 : 0 < l * 2 * a := by positivity
    have e : (roundHalfEven (x / (l * 2 * a)) : ℚ) * (l * 2 * a) - x
        = ((roundHalfEven (x / (l * 2 * a)) : ℚ) - x / (l * 2 * a)) * (l * 2 * a) := by
      field_simp
    rw [e, abs_mul, abs_of_pos hu0]
    calc |(roundHalfEven (x / (l * 2 * a)) : ℚ) - x / (l * 2 * a)| * (l * 2 * a)
        ≤ 1 / 2 * (l * 2 * a) := mul_le_mul_of_nonneg_right hn (le_of_lt hu0)
      _ = l * a := by ring
      _ ≤ x * a := mul_le_mul_of_nonneg_right hlog (le_of_lt hp0)

/-- The nearest `float64` of a number that is not negative differs from it by at
most the fraction `2 ^ (-53)` of it, and below the normal range by at most
`2 ^ (-1075)`. -/
theorem float64Round_rel (x : ℚ) (hx : 0 ≤ x) :
    |float64Round x - x| ≤ x * 2 ^ (-53 : Int) + 2 ^ (-1075 : Int) := by
  unfold float64Round
  split_ifs with hz
  · rw [hz]
    simp only [sub_self, abs_zero, zero_mul, zero_add]
    positivity
  · have hpos : 0 < x := lt_of_le_of_ne hx (Ne.symm hz)
    simp only [abs_of_pos hpos]
    have hlog : (2 : ℚ) ^ (Int.log 2 x) ≤ x := by
      have := Int.zpow_log_le_self (b := 2) (by norm_num) hpos
      exact_mod_cast this
    have hhalf : (1 / 2 : ℚ) * 2 ^ (max (Int.log 2 x) (-1022) - 52)
        ≤ x * 2 ^ (-53 : Int) + 2 ^ (-1075 : Int) := by
      have h53 : (0 : ℚ) < 2 ^ (-53 : Int) := by positivity
      have h1075 : (0 : ℚ) < 2 ^ (-1075 : Int) := by positivity
      rcases le_total (-1022) (Int.log 2 x) with h | h
      · rw [max_eq_left h]
        have e : (1 / 2 : ℚ) * 2 ^ (Int.log 2 x - 52) = 2 ^ (Int.log 2 x) * 2 ^ (-53 : Int) := by
          rw [show Int.log 2 x - 52 = Int.log 2 x + (-53) + 1 by ring,
            zpow_add₀ (by norm_num), zpow_add₀ (by norm_num)]
          norm_num
          ring
        rw [e]
        have := mul_le_mul_of_nonneg_right hlog (le_of_lt h53)
        linarith
      · rw [max_eq_right h]
        have e : (1 / 2 : ℚ) * 2 ^ ((-1022 : Int) - 52) = 2 ^ (-1075 : Int) := by
          rw [show ((-1022 : Int) - 52) = (-1075) + 1 by norm_num, zpow_add₀ (by norm_num)]
          norm_num
        rw [e]
        have : 0 ≤ x * 2 ^ (-53 : Int) := by positivity
        linarith
    have hu0 : (0 : ℚ) < 2 ^ (max (Int.log 2 x) (-1022) - 52) := by positivity
    generalize (2 : ℚ) ^ (max (Int.log 2 x) (-1022) - 52) = u at hu0 hhalf
    have hn := roundHalfEven_near (x / u)
    have e : (roundHalfEven (x / u) : ℚ) * u - x = ((roundHalfEven (x / u) : ℚ) - x / u) * u := by
      field_simp
    rw [e, abs_mul, abs_of_pos hu0]
    calc |(roundHalfEven (x / u) : ℚ) - x / u| * u ≤ 1 / 2 * u :=
          mul_le_mul_of_nonneg_right hn (le_of_lt hu0)
      _ ≤ _ := hhalf

/-- A quotient or amount rounded to at least 64 bits, times a price, rounded again
to as many bits and then to a `float64`, is within the fraction `2 ^ (-52)` of the
exact product (and `2 ^ (-1075)` more below the normal range). -/
theorem rounded_product_rel (prec : Nat) (hprec : 64 ≤ prec) (v price : ℚ) (hv : 0 ≤ v)
    (hp : 0 ≤ price) (swap : Bool) :
    |float64Round (roundToPrec prec
        (if swap then price * roundToPrec prec v else roundToPrec prec v * price))
      - v * price| ≤ v * price * 2 ^ (-52 : Int) + 2 ^ (-1075 : Int) := by
  have e : (if swap then price * roundToPrec prec v else roundToPrec prec v * price)
      = roundToPrec prec v * price := by
    cases swap
    · rfl
    · simp only [if_true]
      ring
  rw [e]
  have ha : (2 : ℚ) ^ (-(prec : Int)) ≤ 2 ^ (-64 : Int) := by
    apply zpow_le_zpow_right₀ (by norm_num)
    omega
  have h1 := roundToPrec_rel prec v hv
  have n1 := roundToPrec_nonneg prec v hv
  have hy : 0 ≤ roundToPrec prec v * price := mul_nonneg n1 hp
  have h2 := roundToPrec_rel prec (roundToPrec prec v * price) hy
  have n2 := roundToPrec_nonneg prec (roundToPrec prec v * price) hy
  have h3 := float64Round_rel (roundToPrec prec (roundToPrec prec v * price)) n2
  have h1' : |roundToPrec prec v - v| ≤ v * 2 ^ (-64 : Int) :=
    le_trans h1 (mul_le_mul_of_nonneg_left ha hv)
  have h2' : |roundToPrec prec (roundToPrec prec v * price) - roundToPrec prec v * price|
      ≤ roundToPrec prec v * price * 2 ^ (-64 : Int) :=
    le_trans h2 (mul_le_mul_of_nonneg_left ha hy)
  generalize roundToPrec prec (roundToPrec prec v * price) = x2 at h2' n2 h3 ⊢
  generalize roundToPrec prec v = x1 at h1' n1 hy h2' ⊢
  generalize float64Round x2 = F at h3 ⊢
  have c64 : (2 : ℚ) ^ (-64 : Int) = 1 / 18446744073709551616 := by norm_num
  have c53 : (2 : ℚ) ^ (-53 : Int) = 1 / 9007199254740992 := by norm_num
  have c52 : (2 : ℚ) ^ (-52 : Int) = 1 / 4503599627370496 := by norm_num
  rw [c64] at h1' h2'
  rw [c53] at h3
  rw [c52]
  generalize (2 : ℚ) ^ (-1075 : Int) = d at h3 ⊢
  rw [abs_le] at h1' h2' h3 ⊢
  have hX : 0 ≤ v * price := mul_nonneg hv hp
  have k1 : x1 * price - v * price ≤ v * price * (1 / 18446744073709551616) := by
    have := mul_le_mul_of_nonneg_right h1'.2 hp
    linarith
  have k2 : -(v * price * (1 / 18446744073709551616)) ≤ x1 * price - v * price := by
    have := mul_le_mul_of_nonneg_right h1'.1 hp
    linarith
  constructor <;> linarith [h2'.1, h2'.2, h3.1, h3.2]

/-! ## Cache lifetime -/

/-- C24 fails as stated: with `TOKEN_PRICE_CACHE_TTL=1.5` the lifetime is one
minute, not a minute and a half; with `0.125` it is 7 seconds, not 7.5; and with
`200000000` the product with `time.Minute` leaves the range of `int64` and the
lifetime is negative. -/
theorem ttl_drops_the_fraction :
    (refEnv 1 2).parseFloat "1.5" = some (3 / 2)
    ∧ getTokenPriceTTL (refEnv 1 2) "1.5" = some (60 * second)
    ∧ ((60 * second : Int) : ℚ) ≠ 3 / 2 * minute
    ∧ (refEnv 1 2).parseFloat "0.125" = some (1 / 8)
    ∧ getTokenPriceTTL (refEnv 1 2) "0.125" = some (7 * second)
    ∧ ((7 * second : Int) : ℚ) ≠ 1 / 8 * 60 * second
    ∧ (refEnv 1 2).parseFloat "200000000" = some 200000000
    ∧ getTokenPriceTTL (refEnv 1 2) "200000000" = some (-6446744073709551616)
    ∧ (-6446744073709551616 : Int) ≠ 200000000 * minute := by
  have p1 : (refEnv 1 2).parseFloat "1.5" = some (3 / 2) := by
    simp [refEnv, parseDecimal, digitsValue]
    norm_num
  have p2 : (refEnv 1 2).parseFloat "0.125" = some (1 / 8) := by
    simp [refEnv, parseDecimal, digitsValue]
    norm_num
  have p3 : (refEnv 1 2).parseFloat "200000000" = some 200000000 := by
    simp [refEnv, parseDecimal, digitsValue]
  have f1 : ⌊(3 / 2 : ℚ)⌋ = 1 := by
    rw [Int.floor_eq_iff]
    norm_num
  have r2 : float64Round ((1 / 8 : ℚ) * 60) = 15 / 2 := by
    rw [float64Round_eq ((1 / 8 : ℚ) * 60) 2 8444249301319680 (by norm_num) (by norm_num)
      (by norm_num) (by norm_num) (by norm_num)]
    norm_num
  have f2 : ⌊(15 / 2 : ℚ)⌋ = 7 := by
    rw [Int.floor_eq_iff]
    norm_num
  have f3 : ⌊(200000000 : ℚ)⌋ = 200000000 := by
    rw [Int.floor_eq_iff]
    norm_num
  have e1 : getTokenPriceTTL (refEnv 1 2) "1.5" = some (60 * second) := by
    unfold getTokenPriceTTL
    rw [p1]
    have h0 : ((3 : ℚ) / 2 > 0) := by norm_num
    have h1 : ((3 : ℚ) / 2 ≥ 1) := by norm_num
    have h2 : ((3 : ℚ) / 2 < 2 ^ 63) := by norm_num
    simp only [h0, h1, h2, if_true, f1]
    decide
  have e2 : getTokenPriceTTL (refEnv 1 2) "0.125" = some (7 * second) := by
    unfold getTokenPriceTTL
    rw [p2]
    have h0 : ((1 : ℚ) / 8 > 0) := by norm_num
    have h1 : ¬ ((1 : ℚ) / 8 ≥ 1) := by norm_num
    simp only [h0, h1, if_true, if_false, r2, f2]
    decide
  have e3 : getTokenPriceTTL (refEnv 1 2) "200000000" = some (-6446744073709551616) := by
    unfold getTokenPriceTTL
    rw [p3]
    have h0 : ((200000000 : ℚ) > 0) := by norm_num
    have h1 : ((200000000 : ℚ) ≥ 1) := by norm_num
    have h2 : ((200000000 : ℚ) < 2 ^ 63) := by norm_num
    simp only [h0, h1, h2, if_true, f3]
    decide
  refine ⟨p1, e1, ?_, p2, e2, ?_, p3, e3, by decide⟩
  · simp [second, minute]
    norm_num
  · simp [second]
    norm_num

/-- C24 as amended: when `TOKEN_PRICE_CACHE_TTL` parses to a number `v` with
`1 ≤ v < 2 ^ 63`, the lifetime is the whole number of minutes in `v` (the largest
integer not above `v`), counted in nanoseconds in an `int64`: up to 153722867
minutes that is `⌊v⌋` minutes (and `v` minutes exactly when `v` is an integer).
When it parses to `0 < v < 1` the lifetime is the whole number of seconds in the
`float64` product `v × 60`, a number within `2 ^ (-48)` of `v × 60`, and at most
60 seconds.  When it is blank, does not parse or is not positive the lifetime is
30 seconds. -/
theorem ttl_whole_minutes_or_seconds :
    (∀ (env : Env) (ttlVar : String) (v : ℚ), ttlVar ≠ "" →
        env.parseFloat ttlVar = some v → 1 ≤ v → v < 2 ^ 63 →
        getTokenPriceTTL env ttlVar = some (wrapInt64 (⌊v⌋ * minute))
        ∧ (⌊v⌋ ≤ 153722867 →
            getTokenPriceTTL env ttlVar = some (⌊v⌋ * minute)
            ∧ ((⌊v⌋ * minute : Int) : ℚ) ≤ v * minute
            ∧ v * minute < ((⌊v⌋ * minute : Int) : ℚ) + minute
            ∧ (∀ n : Int, v = n → getTokenPriceTTL env ttlVar = some (n * minute))))
    ∧ (∀ (env : Env) (ttlVar : String) (v : ℚ), ttlVar ≠ "" →
        env.parseFloat ttlVar = some v → 0 < v → v < 1 →
        getTokenPriceTTL env ttlVar = some (⌊float64Round (v * 60)⌋ * second)
        ∧ |float64Round (v * 60) - v * 60| ≤ 2 ^ (-48 : Int)
        ∧ 0 ≤ ⌊float64Round (v * 60)⌋ ∧ ⌊float64Round (v * 60)⌋ ≤ 60)
    ∧ (∀ (env : Env) (ttlVar : String),
        (ttlVar = "" ∨ env.parseFloat ttlVar = none
          ∨ ∃ v, env.parseFloat ttlVar = some v ∧ v ≤ 0) →
        getTokenPriceTTL env ttlVar = some (30 * second)) := by
  refine ⟨?_, ?_, ?_⟩
  · intro env ttlVar v hne hp hv hv2
    have hpos : v > 0 := by linarith
    have e : getTokenPriceTTL env ttlVar = some (wrapInt64 (⌊v⌋ * minute)) := by
      unfold getTokenPriceTTL
      simp only [hne, ne_eq, not_false_eq_true, if_true, hp, hpos, ge_iff_le, hv, hv2]
    refine ⟨e, ?_⟩
    intro hsmall
    have hfl : 1 ≤ ⌊v⌋ := Int.le_floor.mpr (by exact_mod_cast hv)
    have hw : wrapInt64 (⌊v⌋ * minute) = ⌊v⌋ * minute := by
      apply wrapInt64_id
      · simp only [minute]
        omega
      · simp only [minute]
        omega
    have hm : ((minute : Int) : ℚ) = 60000000000 := by simp [minute]
    refine ⟨by rw [e, hw], ?_, ?_, ?_⟩
    · push_cast
      rw [hm]
      have := Int.floor_le v
      nlinarith
    · push_cast
      rw [hm]
      have := Int.lt_floor_add_one v
      nlinarith
    · intro n hn
      rw [e, hw, hn, Int.floor_intCast]
  · intro env ttlVar v hne hp hv hv1
    have hpos : v > 0 := hv
    have hlt : ¬ (1 ≤ v) := not_le.mpr hv1
    have hx0 : (0 : ℚ) ≤ v * 60 := by positivity
    have hx1 : v * 60 < 2 ^ (6 : Int) := by
      norm_num
      linarith
    have hnear := float64Round_within (v * 60) 6 hx0 (by norm_num) hx1
    have hnn := float64Round_nonneg (v * 60) hx0
    have h48 : (2 : ℚ) ^ ((6 : Int) - 54) = 2 ^ (-48 : Int) := by norm_num
    rw [h48] at hnear
    have hub : float64Round (v * 60) < 61 := by
      have := (abs_le.mp hnear).2
      have h2 : (2 : ℚ) ^ (-48 : Int) < 1 := by norm_num
      linarith
    have hf0 : 0 ≤ ⌊float64Round (v * 60)⌋ := Int.floor_nonneg.mpr hnn
    have hf1 : ⌊float64Round (v * 60)⌋ ≤ 60 := by
      have : ⌊float64Round (v * 60)⌋ < 61 := by
        rw [Int.floor_lt]
        exact_mod_cast hub
      omega
    have hw : wrapInt64 (⌊float64Round (v * 60)⌋ * second)
        = ⌊float64Round (v * 60)⌋ * second := by
      apply wrapInt64_id
      · simp only [second]
        omega
      · simp only [second]
        omega
    refine ⟨?_, hnear, hf0, hf1⟩
    unfold getTokenPriceTTL
    simp only [hne, ne_eq, not_false_eq_true, if_true, hp, hpos, ge_iff_le, hlt, if_false, hw]
  · intro env ttlVar h
    unfold getTokenPriceTTL tokenPriceTTL
    rcases h with h | h | ⟨v, h, hv⟩
    · simp [h]
    · simp [h]
    · have : ¬ (v > 0) := not_lt.mpr hv
      simp [h, this]

/-- Witness of the amended C24: `TOKEN_PRICE_CACHE_TTL=1.5`. -/
theorem ttl_whole_minutes_or_seconds_witness :
    getTokenPriceTTL (refEnv 1 2) "1.5" = some (wrapInt64 (⌊(3 / 2 : ℚ)⌋ * minute)) :=
  (ttl_whole_minutes_or_seconds.1 (refEnv 1 2) "1.5" (3 / 2) (by decide)
    (by simp [refEnv, parseDecimal, digitsValue]; norm_num) (by norm_num) (by norm_num)).1

/-! ## Polling -/

/-- What a tick that makes a query does. -/
theorem pollStep_query (last : Nat) (t : PollTick) (q : PollQuery)
    (h : (pollStep last t).2 = some q) :
    q.lastBefore = last ∧ t.head = some q.head ∧ q.fromBlock = last + 1
    ∧ (∃ r, 100 ≤ r ∧ r ≤ 300 ∧ q.toBlock = last + r)
    ∧ q.toBlock ≤ q.head ∧ q.ok = t.logsOk
    ∧ q.lastAfter = (if q.ok then q.toBlock else last)
    ∧ (pollStep last t).1 = q.lastAfter := by
  unfold pollStep at h ⊢
  cases hh : t.head with
  | none => simp [hh] at h
  | some cur =>
    simp only [hh] at h ⊢
    by_cases h1 : cur ≤ last
    · simp [h1] at h
    · by_cases h2 : cur - last > 300
      · simp only [h1, if_false, h2, if_true, Option.some.injEq] at h ⊢
        subst h
        refine ⟨rfl, rfl, rfl, ⟨300, by omega, by omega, rfl⟩, ?_, rfl, ?_, rfl⟩
        · show last + 300 ≤ cur
          omega
        · cases t.logsOk <;> simp
      · by_cases h3 : cur - last < 100
        · simp [h1, h2, h3] at h
        · simp only [h1, if_false, h2, h3, Option.some.injEq] at h ⊢
          subst h
          refine ⟨rfl, rfl, rfl, ⟨cur - last, by omega, by omega, rfl⟩, ?_, rfl, ?_, rfl⟩
          · show last + (cur - last) ≤ cur
            omega
          · cases t.logsOk <;> simp

/-- A tick that makes no query leaves `last` as it is. -/
theorem pollStep_idle (last : Nat) (t : PollTick) (h : (pollStep last t).2 = none) :
    (pollStep last t).1 = last := by
  unfold pollStep at h ⊢
  cases hh : t.head with
  | none => rfl
  | some cur =>
    simp only [hh] at h ⊢
    by_cases h1 : cur ≤ last
    · simp [h1]
    · by_cases h2 : cur - last > 300
      · simp [h1, h2] at h
      · by_cases h3 : cur - last < 100
        · simp [h1, h2, h3]
        · simp [h1, h2, h3] at h

/-- Every query of a run starts right after the value `last` had then, spans 100
to 300 blocks and ends at or below the head. -/
theorem pollLogs_queries (last : Nat) (ticks : List PollTick) :
    ∀ q ∈ (pollLogs last ticks).2,
      q.fromBlock = q.lastBefore + 1
      ∧ (∃ r, 100 ≤ r ∧ r ≤ 300 ∧ q.toBlock = q.lastBefore + r)
      ∧ q.toBlock ≤ q.head
      ∧ q.lastAfter = (if q.ok then q.toBlock else q.lastBefore) := by
  induction ticks generalizing last with
  | nil => intro q hq; simp [pollLogs] at hq
  | cons t rest ih =>
    intro q hq
    simp only [pollLogs, List.mem_append] at hq
    rcases hq with hq | hq
    · cases hs : (pollStep last t).2 with
      | none => rw [hs] at hq; simp at hq
      | some q0 =>
        rw [hs] at hq
        simp only [List.mem_singleton] at hq
        subst hq
        obtain ⟨a, _, b, c, d, _, e, _⟩ := pollStep_query last t q hs
        rw [a]
        exact ⟨b, c, d, e⟩
    · exact ih _ q hq

/-- The successful queries of a run follow one another. -/
theorem pollLogs_chain (last : Nat) (ticks : List PollTick) :
    ((pollLogs last ticks).2.filter (fun q => q.ok)).map (fun q => q.fromBlock)
        = ((last :: ((pollLogs last ticks).2.filter (fun q => q.ok)).map
            (fun q => q.toBlock)).dropLast).map (fun b => b + 1)
    ∧ (pollLogs last ticks).1
        = (((pollLogs last ticks).2.filter (fun q => q.ok)).map
            (fun q => q.toBlock)).getLastD last := by
  induction ticks generalizing last with
  | nil => simp [pollLogs]
  | cons t rest ih =>
    cases hs : (pollStep last t).2 with
    | none =>
      have h1 := pollStep_idle last t hs
      have := ih last
      simp only [pollLogs, hs, h1, List.nil_append]
      exact this
    | some q =>
      obtain ⟨a, _, b, _, _, _, e, f⟩ := pollStep_query last t q hs
      have := ih (pollStep last t).1
      simp only [pollLogs, hs, List.singleton_append]
      by_cases hok : q.ok = true
      · rw [hok] at e
        simp only [if_true] at e
        rw [f, e] at this
        rw [f, e]
        simp only [List.filter_cons, hok, if_true, List.map_cons, List.dropLast_cons₂, b]
        refine ⟨?_, ?_⟩
        · rw [this.1]
        · rw [this.2]
          simp only [List.getLastD_cons]
      · have hok2 : q.ok = false := by simpa using hok
        rw [hok2] at e
        simp only [Bool.false_eq_true, if_false] at e
        rw [f, e] at this
        rw [f, e]
        simp only [List.filter_cons, hok2, Bool.false_eq_true, if_false]
        exact this

/-- A tick at which the head cannot be read, or is less than 100 blocks above
`last`, makes no query and leaves `last` as it is. -/
theorem pollStep_waits (last : Nat) (t : PollTick)
    (h : t.head = none ∨ ∃ cur, t.head = some cur ∧ cur < last + 100) :
    pollStep last t = (last, none) := by
  unfold pollStep
  rcases h with h | ⟨cur, h, hc⟩
  · rw [h]
  · rw [h]
    by_cases h1 : cur ≤ last
    · simp [h1]
    · have h2 : ¬ cur - last > 300 := by omega
      have h3 : cur - last < 100 := by omega
      simp [h1, h2, h3]

/-- A tick at which the head is at least 100 blocks above `last` makes one query. -/
theorem pollStep_asks (last cur : Nat) (t : PollTick) (h : t.head = some cur)
    (hc : last + 100 ≤ cur) :
    pollStep last t
      = ((if t.logsOk then last + min (cur - last) 300 else last),
         some { lastBefore := last, head := cur, fromBlock := last + 1,
                toBlock := last + min (cur - last) 300, ok := t.logsOk,
                lastAfter := if t.logsOk then last + min (cur - last) 300 else last }) := by
  unfold pollStep
  rw [h]
  have h1 : ¬ cur ≤ last := by omega
  by_cases h2 : cur - last > 300
  · have e : min (cur - last) 300 = 300 := by omega
    simp [h1, h2, e]
  · have h3 : ¬ cur - last < 100 := by omega
    have e : min (cur - last) 300 = cur - last := by omega
    simp [h1, h2, h3, e]

/-- A run over `pre ++ t :: post` is the run over `pre`, the tick `t` from the
value of `last` then, and the run over `post` from the value the tick leaves. -/
theorem pollLogs_append (last : Nat) (pre : List PollTick) (t : PollTick)
    (post : List PollTick) :
    pollLogs last (pre ++ t :: post)
      = ((pollLogs (pollStep (pollLogs last pre).1 t).1 post).1,
         (pollLogs last pre).2 ++ (pollStep (pollLogs last pre).1 t).2.toList
           ++ (pollLogs (pollStep (pollLogs last pre).1 t).1 post).2) := by
  induction pre generalizing last with
  | nil =>
    simp only [List.nil_append, pollLogs]
    cases (pollStep last t).2 <;> simp
  | cons a pre ih =>
    have e := ih (pollStep last a).1
    simp only [List.cons_append, pollLogs]
    show ((pollLogs (pollStep last a).1 (pre ++ t :: post)).1, _ ++
      (pollLogs (pollStep last a).1 (pre ++ t :: post)).2) = _
    rw [e]
    simp [List.append_assoc]

/-- The loop of `pollTransfers` does what the loop of `pollLogs` does. -/
theorem pollTransfers_eq (topicIndex : Int) (last : Nat) (ticks : List PollTick) :
    pollTransfers topicIndex last ticks = pollLogs last ticks := by
  induction ticks generalizing last with
  | nil => rfl
  | cons t rest ih =>
    have e : pollTransfersStep last t = pollStep last t := rfl
    simp only [pollTransfers, pollLogs, e, ih]

/-- C29: in `pollLogs`, and in `pollTransfers` for either topic index, a tick whose
head cannot be read or is less than 100 blocks above `last` makes no query and
leaves `last`; a tick whose head `cur` is at least 100 blocks above `last` makes
exactly one query, for the blocks `[last+1, last+r]` with `r = min (cur - last) 300`,
so `100 ≤ r ≤ 300` and `last+r ≤ cur`, and leaves `last+r` when the query succeeded
and `last` when it failed.  A run applies the ticks in order, each from the `last`
the ticks before it left, and its queries are those of its ticks; the successful
queries, in order, start at the initial `last` plus one, each next one one block
after the end of the one before, and the final `last` is the end of the last
successful query. -/
theorem poll_ranges_consecutive (topicIndex : Int) (last : Nat) (t : PollTick)
    (pre post ticks : List PollTick) :
    (t.head = none → pollStep last t = (last, none))
    ∧ (∀ cur, t.head = some cur → cur < last + 100 → pollStep last t = (last, none))
    ∧ (∀ cur, t.head = some cur → last + 100 ≤ cur →
        100 ≤ min (cur - last) 300 ∧ min (cur - last) 300 ≤ 300
        ∧ last + min (cur - last) 300 ≤ cur
        ∧ pollStep last t
          = ((if t.logsOk then last + min (cur - last) 300 else last),
             some { lastBefore := last, head := cur, fromBlock := last + 1,
                    toBlock := last + min (cur - last) 300, ok := t.logsOk,
                    lastAfter := if t.logsOk then last + min (cur - last) 300 else last }))
    ∧ pollLogs last [] = (last, [])
    ∧ pollLogs last (pre ++ t :: post)
        = ((pollLogs (pollStep (pollLogs last pre).1 t).1 post).1,
           (pollLogs last pre).2 ++ (pollStep (pollLogs last pre).1 t).2.toList
             ++ (pollLogs (pollStep (pollLogs last pre).1 t).1 post).2)
    ∧ ((pollLogs last ticks).2.filter (fun q => q.ok)).map (fun q => q.fromBlock)
        = ((last :: ((pollLogs last ticks).2.filter (fun q => q.ok)).map
            (fun q => q.toBlock)).dropLast).map (fun b => b + 1)
    ∧ (pollLogs last ticks).1
        = (((pollLogs last ticks).2.filter (fun q => q.ok)).map
            (fun q => q.toBlock)).getLastD last
    ∧ pollTransfers topicIndex last ticks = pollLogs last ticks := by
  refine ⟨fun h => pollStep_waits last t (Or.inl h),
    fun cur h hc => pollStep_waits last t (Or.inr ⟨cur, h, hc⟩),
    fun cur h hc => ⟨by omega, by omega, by omega, pollStep_asks last cur t h hc⟩,
    rfl, pollLogs_append last pre t post, (pollLogs_chain last ticks).1,
    (pollLogs_chain last ticks).2, pollTransfers_eq topicIndex last ticks⟩

/-- Witness of C29: with `last = 1000`, a tick reading the head 1250 asks for the
blocks 1001 to 1250 and, the query succeeding, leaves `last = 1250`. -/
theorem poll_ranges_consecutive_witness :
    100 ≤ min (1250 - 1000) 300 ∧ min (1250 - 1000) 300 ≤ 300
    ∧ 1000 + min (1250 - 1000) 300 ≤ 1250
    ∧ pollStep 1000 { head := some 1250, logsOk := true }
      = ((if true then 1000 + min (1250 - 1000) 300 else 1000),
         some { lastBefore := 1000, head := 1250, fromBlock := 1000 + 1,
                toBlock := 1000 + min (1250 - 1000) 300, ok := true,
                lastAfter := if true then 1000 + min (1250 - 1000) 300 else 1000 }) :=
  (poll_ranges_consecutive 1 1000 { head := some 1250, logsOk := true } [] [] []).2.2.1
    1250 rfl (by decide)

/-! ## Block search by time -/

/-- The loop of `findBlockByTimestamp` with enough iterations, on headers that are
all there and whose times do not decrease. -/
theorem findBlockLoop_spec (header : Nat → Option Nat) (time : Nat → Nat) (target head : Nat)
    (hhdr : ∀ b, b ≤ head → header b = some (time b))
    (hmono : ∀ a b, a ≤ b → b ≤ head → time a ≤ time b) :
    ∀ fuel lo hi, hi - lo ≤ fuel → lo ≤ hi → hi ≤ head →
      (∀ b, b < lo → time b < target) → (hi = head ∨ target ≤ time hi) →
      ∃ k, findBlockLoop header target fuel lo hi = some (some k) ∧ lo ≤ k ∧ k ≤ hi
        ∧ (∀ b, b < k → time b < target) ∧ (k = head ∨ target ≤ time k) := by
  intro fuel
  induction fuel with
  | zero =>
    intro lo hi hf hle hh hlo hhi
    have e : lo = hi := by omega
    subst e
    exact ⟨lo, by simp [findBlockLoop], le_refl _, le_refl _, hlo, hhi⟩
  | succ fuel ih =>
    intro lo hi hf hle hh hlo hhi
    by_cases hlt : lo < hi
    · have hmid1 : lo ≤ (lo + hi) / 2 := by omega
      have hmid2 : (lo + hi) / 2 < hi := by omega
      have hm : header ((lo + hi) / 2) = some (time ((lo + hi) / 2)) := hhdr _ (by omega)
      by_cases ht : time ((lo + hi) / 2) ≥ target
      · obtain ⟨k, hk, k1, k2, k3, k4⟩ :=
          ih lo ((lo + hi) / 2) (by omega) hmid1 (by omega) hlo (Or.inr ht)
        refine ⟨k, ?_, k1, by omega, k3, k4⟩
        simp only [findBlockLoop, hlt, if_true, hm, ht]
        exact hk
      · have hlo2 : ∀ b, b < (lo + hi) / 2 + 1 → time b < target := by
          intro b hb
          have := hmono b ((lo + hi) / 2) (by omega) (by omega)
          omega
        obtain ⟨k, hk, k1, k2, k3, k4⟩ :=
          ih ((lo + hi) / 2 + 1) hi (by omega) (by omega) hh hlo2 hhi
        refine ⟨k, ?_, by omega, k2, k3, k4⟩
        simp only [findBlockLoop, hlt, if_true, hm, ht, if_false]
        exact hk
    · have e : lo = hi := by omega
      subst e
      exact ⟨lo, by simp [findBlockLoop], le_refl _, le_refl _, hlo, hhi⟩

/-- C30 fails as stated: for a target one second before the Unix epoch the
conversion `uint64(target.Unix())` gives `2 ^ 64 - 1`, no header time reaches it,
and the search over three blocks with the times 10, 20, 30 returns the head, 2,
although block 0 already has a time at or after the target. -/
theorem search_before_epoch_returns_head :
    findBlockByTimestamp (some 2) (fun b => some (10 * (b + 1))) (-1) = some (some 2)
    ∧ ((-1 : Int) ≤ ((10 * (0 + 1) : Nat) : Int)) := by
  refine ⟨by decide, by decide⟩

/-- C30 as amended: for every chain of blocks `0..head` whose headers are all
returned and whose times do not decrease, and every target at or after the Unix
epoch, `findBlockByTimestamp` terminates and returns a block `k ≤ head`; when
some block of the chain has a time at or after the target, `k` is the smallest
such block, and otherwise `k` is the head. -/
theorem findBlockByTimestamp_lower_bound (header : Nat → Option Nat) (time : Nat → Nat)
    (head : Nat) (targetUnix : Int)
    (hhdr : ∀ b, b ≤ head → header b = some (time b))
    (hmono : ∀ a b, a ≤ b → b ≤ head → time a ≤ time b)
    (h0 : 0 ≤ targetUnix) (h63 : targetUnix < 2 ^ 63) :
    ∃ k, findBlockByTimestamp (some head) header targetUnix = some (some k) ∧ k ≤ head
      ∧ ((∃ b, b ≤ head ∧ targetUnix ≤ (time b : Int)) →
          targetUnix ≤ (time k : Int) ∧ ∀ b, b < k → (time b : Int) < targetUnix)
      ∧ ((∀ b, b ≤ head → (time b : Int) < targetUnix) → k = head) := by
  have hmod : (targetUnix % 2 ^ 64).toNat = targetUnix.toNat := by
    rw [Int.emod_eq_of_lt h0 (by omega)]
  obtain ⟨k, hk, _, k2, k3, k4⟩ :=
    findBlockLoop_spec header time targetUnix.toNat head hhdr hmono head 0 head
      (by omega) (Nat.zero_le _) (le_refl _) (by intro b hb; omega) (Or.inl rfl)
  refine ⟨k, ?_, k2, ?_, ?_⟩
  · simp only [findBlockByTimestamp, hmod]
    exact hk
  · rintro ⟨b, hb, hbt⟩
    have hkt : targetUnix.toNat ≤ time k := by
      rcases k4 with e | h
      · have := hmono b head hb (le_refl _)
        rw [e]
        omega
      · exact h
    refine ⟨by omega, ?_⟩
    intro b hb
    have := k3 b hb
    omega
  · intro hall
    rcases k4 with e | h
    · exact e
    · have := hall k k2
      omega

/-- Witness of the amended C30: three blocks with the times 10, 20, 30 and the
target 15. -/
theorem findBlockByTimestamp_lower_bound_witness :
    ∃ k, findBlockByTimestamp (some 2) (fun b => some (10 * (b + 1))) 15 = some (some k)
      ∧ k ≤ 2
      ∧ ((∃ b, b ≤ 2 ∧ (15 : Int) ≤ ((10 * (b + 1) : Nat) : Int)) →
          (15 : Int) ≤ ((10 * (k + 1) : Nat) : Int)
            ∧ ∀ b, b < k → ((10 * (b + 1) : Nat) : Int) < 15)
      ∧ ((∀ b, b ≤ 2 → ((10 * (b + 1) : Nat) : Int) < 15) → k = 2) :=
  findBlockByTimestamp_lower_bound (fun b => some (10 * (b + 1))) (fun b => 10 * (b + 1)) 2 15
    (fun _ _ => rfl) (fun a b h _ => by show 10 * (a + 1) ≤ 10 * (b + 1); omega) (by decide)
    (by decide)

/-! ## Event names -/

theorem digitChar_inj16 :
    ∀ x, x < 16 → ∀ y, y < 16 → Nat.digitChar x = Nat.digitChar y → x = y := by
  decide

/-- The digits `hexFixed` writes determine the number modulo `16 ^ width`. -/
theorem hexFixed_inj (width a b : Nat) (h : hexFixed width a = hexFixed width b) :
    a % 16 ^ width = b % 16 ^ width := by
  induction width with
  | zero => simp [Nat.mod_one]
  | succ width ih =>
    simp only [hexFixed, List.cons.injEq] at h
    have h1 := digitChar_inj16 _ (Nat.mod_lt _ (by norm_num)) _ (Nat.mod_lt _ (by norm_num)) h.1
    have h2 := ih h.2
    rw [Nat.mod_pow_succ, Nat.mod_pow_succ, h1, h2]

/-- Distinct 20-byte addresses have distinct keys. -/
theorem lowerHex_inj (a b : Nat) (ha : a < 2 ^ 160) (hb : b < 2 ^ 160)
    (h : lowerHex a = lowerHex b) : a = b := by
  have h1 : hexFixed 40 a = hexFixed 40 b := by
    have := congrArg String.data h
    simpa [lowerHex] using this
  have h2 := hexFixed_inj 40 a b h1
  rwa [Nat.mod_eq_of_lt (by norm_num at ha ⊢; omega),
    Nat.mod_eq_of_lt (by norm_num at hb ⊢; omega)] at h2

/-- Distinct 32-byte hashes have distinct keys. -/
theorem hashHex_inj (a b : Nat) (ha : a < 2 ^ 256) (hb : b < 2 ^ 256)
    (h : hashHex a = hashHex b) : a = b := by
  have h1 : hexFixed 64 a = hexFixed 64 b := by
    have := congrArg String.data h
    simpa [hashHex] using this
  have h2 := hexFixed_inj 64 a b h1
  rwa [Nat.mod_eq_of_lt (by norm_num at ha ⊢; omega),
    Nat.mod_eq_of_lt (by norm_num at hb ⊢; omega)] at h2

/-- C23: `resolveEventName` returns the name filed in `addressTopicNames` under
the keys of the address and the topic when there is one, otherwise the name filed
in `globalTopicNames` under the key of the topic, otherwise `Event ` followed by
the first 10 characters of the topic in hexadecimal (`0x` and 8 digits); after
`RegisterEventName` for a pair the pair resolves to the registered name, and every
other pair of a 20-byte address and a 32-byte topic resolves as before.  The keys
are the lower-cased hexadecimal forms on both sides, so the spelling of an address
plays no part. -/
theorem resolveEventName_registered :
    (∀ (reg : Registry) (addr topic0 : Nat) (name : String),
      resolveEventName (RegisterEventName reg addr topic0 name) addr topic0 = name)
    ∧ (∀ (reg : Registry) (addr topic0 addr2 topic2 : Nat) (name : String),
        addr < 2 ^ 160 → addr2 < 2 ^ 160 → topic0 < 2 ^ 256 → topic2 < 2 ^ 256 →
        (addr2 ≠ addr ∨ topic2 ≠ topic0) →
        resolveEventName (RegisterEventName reg addr topic0 name) addr2 topic2
          = resolveEventName reg addr2 topic2)
    ∧ (∀ (reg : Registry) (addr topic0 : Nat) (name : String),
        reg.addressTopicNames (lowerHex addr) (hashHex topic0) = some name →
        resolveEventName reg addr topic0 = name)
    ∧ (∀ (reg : Registry) (addr topic0 : Nat) (name : String),
        reg.addressTopicNames (lowerHex addr) (hashHex topic0) = none →
        reg.globalTopicNames (hashHex topic0) = some name →
        resolveEventName reg addr topic0 = name)
    ∧ (∀ (reg : Registry) (addr topic0 : Nat),
        reg.addressTopicNames (lowerHex addr) (hashHex topic0) = none →
        reg.globalTopicNames (hashHex topic0) = none →
        resolveEventName reg addr topic0
            = "Event " ++ String.mk ((hashHex topic0).data.take 10)
        ∧ resolveEventName reg addr topic0
            = "Event 0x" ++ String.mk ((hexFixed 64 topic0).take 8)) := by
  refine ⟨?_, ?_, ?_, ?_, ?_⟩
  · intro reg addr topic0 name
    simp [resolveEventName, RegisterEventName]
  · intro reg addr topic0 addr2 topic2 name ha ha2 ht ht2 hne
    have hk : ¬ (lowerHex addr2 = lowerHex addr ∧ hashHex topic2 = hashHex topic0) := by
      rintro ⟨e1, e2⟩
      rcases hne with h | h
      · exact h (lowerHex_inj _ _ ha2 ha e1)
      · exact h (hashHex_inj _ _ ht2 ht e2)
    simp only [resolveEventName, RegisterEventName, hk, if_false]
  · intro reg addr topic0 name h
    simp [resolveEventName, h]
  · intro reg addr topic0 name h1 h2
    simp [resolveEventName, h1, h2]
  · intro reg addr topic0 h1 h2
    constructor
    · simp [resolveEventName, h1, h2]
    · have e : resolveEventName reg addr topic0
          = "Event " ++ String.mk ((hashHex topic0).data.take 10) := by
        simp [resolveEventName, h1, h2]
      rw [e]
      apply String.ext
      simp [String.data_append, hashHex]

/-- Witness of C23: after `Approval` is registered for the wallet `mainApp`, the
special wallet still resolves the same topic through the global table. -/
theorem resolveEventName_registered_witness :
    resolveEventName (RegisterEventName sampleRegistry mainApp approvalTopic "Mine")
        specialWallet approvalTopic
      = resolveEventName sampleRegistry specialWallet approvalTopic :=
  resolveEventName_registered.2.1 sampleRegistry mainApp approvalTopic specialWallet
    approvalTopic "Mine" (by decide) (by decide) (by decide) (by decide)
    (Or.inl (by decide))

/-! ## Decimal digits -/

theorem digitChar_dec (m : Nat) (h : m < 10) :
    (Nat.digitChar m).isDigit = true ∧ (Nat.digitChar m).toNat - 48 = m := by
  interval_cases m <;> decide

theorem digitsValue_foldl (l : List Char) (acc : Nat) :
    l.foldl (fun acc c => 10 * acc + (c.toNat - 48)) acc
      = acc * 10 ^ l.length + digitsValue l := by
  unfold digitsValue
  induction l generalizing acc with
  | nil => simp
  | cons c l ih =>
    simp only [List.foldl_cons, List.length_cons]
    rw [ih (10 * acc + (c.toNat - 48)), ih (10 * 0 + (c.toNat - 48))]
    ring

theorem digitsValue_append (a b : List Char) :
    digitsValue (a ++ b) = digitsValue a * 10 ^ b.length + digitsValue b := by
  unfold digitsValue
  rw [List.foldl_append]
  exact digitsValue_foldl b _

theorem digitsValue_zeros (k : Nat) : digitsValue (List.replicate k '0') = 0 := by
  induction k with
  | zero => rfl
  | succ k ih =>
    rw [List.replicate_succ]
    have := digitsValue_append ['0'] (List.replicate k '0')
    simp only [List.singleton_append] at this
    rw [this, ih]
    simp [digitsValue]

/-- With fuel above the number, `Nat.toDigitsCore` in base ten writes in front of
what it was given a non-empty run of digits whose value is the number. -/
theorem toDigitsCore_dec (fuel n : Nat) (rest : List Char) (hn : n < fuel) :
    ∃ pre : List Char, pre ≠ [] ∧ (∀ c ∈ pre, c.isDigit = true) ∧ digitsValue pre = n
      ∧ (∀ e, 0 < e → n < 10 ^ e → pre.length ≤ e)
      ∧ Nat.toDigitsCore 10 fuel n rest = pre ++ rest := by
  induction fuel generalizing n rest with
  | zero => omega
  | succ fuel ih =>
    have hlast := digitChar_dec (n % 10) (Nat.mod_lt _ (by norm_num))
    by_cases h10 : n / 10 = 0
    · have hlt : n < 10 := by omega
      refine ⟨[Nat.digitChar (n % 10)], by simp, ?_, ?_, ?_, ?_⟩
      · intro c hc
        simp only [List.mem_singleton] at hc
        rw [hc]
        exact hlast.1
      · simp only [digitsValue, List.foldl_cons, List.foldl_nil]
        rw [hlast.2]
        omega
      · intro e he _
        simpa using he
      · simp [Nat.toDigitsCore, h10]
    · obtain ⟨pre, hne, hdig, hval, hlen, hpre⟩ :=
        ih (n / 10) (Nat.digitChar (n % 10) :: rest) (by omega)
      refine ⟨pre ++ [Nat.digitChar (n % 10)], by simp, ?_, ?_, ?_, ?_⟩
      · intro c hc
        simp only [List.mem_append, List.mem_singleton] at hc
        rcases hc with hc | hc
        · exact hdig c hc
        · rw [hc]
          exact hlast.1
      · rw [digitsValue_append, hval]
        simp only [digitsValue, List.foldl_cons, List.foldl_nil, List.length_singleton]
        rw [hlast.2]
        omega
      · intro e he hne2
        cases e with
        | zero => omega
        | succ e =>
          have he2 : 0 < e := by
            rcases Nat.eq_zero_or_pos e with h | h
            · subst h
              simp at hne2
              omega
            · exact h
          have : n / 10 < 10 ^ e := by
            rw [Nat.div_lt_iff_lt_mul (by norm_num)]
            rw [pow_succ] at hne2
            exact hne2
          have := hlen e he2 this
          simp
          omega
      · simp only [Nat.toDigitsCore, h10, if_false]
        rw [hpre]
        simp

/-- The decimal form of a natural number: digits only, at least one, with the
number as their value, and no more than `e` of them below `10 ^ e`. -/
theorem natDigits_spec (n : Nat) :
    (toString n).data ≠ [] ∧ (∀ c ∈ (toString n).data, c.isDigit = true)
      ∧ digitsValue (toString n).data = n
      ∧ (∀ e, 0 < e → n < 10 ^ e → (toString n).data.length ≤ e) := by
  obtain ⟨pre, hne, hdig, hval, hlen, hpre⟩ := toDigitsCore_dec (n + 1) n [] (by omega)
  have e : (toString n).data = pre := by
    show (Nat.toDigits 10 n) = pre
    unfold Nat.toDigits
    rw [hpre]
    simp
  rw [e]
  exact ⟨hne, hdig, hval, hlen⟩

theorem toString_natCast (n : Nat) : toString ((n : Nat) : Int) = toString n := rfl

/-- A run of digits reads as its value. -/
theorem parseDecimal_digits (ds : List Char) (hne : ds ≠ [])
    (hdig : ∀ c ∈ ds, c.isDigit = true) :
    parseDecimal (String.mk ds) = some (digitsValue ds : ℚ) := by
  unfold parseDecimal
  have h1 : ds.takeWhile Char.isDigit = ds := by
    rw [List.takeWhile_eq_self_iff]
    exact hdig
  have h2 : ds.dropWhile Char.isDigit = [] := by
    rw [List.dropWhile_eq_nil_iff]
    exact hdig
  simp only [h1, h2]
  cases ds with
  | nil => exact absurd rfl hne
  | cons c ds => simp

/-- Digits, a dot and digits read as the value of all the digits over the power
of ten of the number of digits after the dot. -/
theorem parseDecimal_dot (w t : List Char) (hw : ∀ c ∈ w, c.isDigit = true)
    (ht : ∀ c ∈ t, c.isDigit = true) (hne : w ≠ [] ∨ t ≠ []) :
    parseDecimal (String.mk (w ++ '.' :: t))
      = some ((digitsValue (w ++ t) : ℚ) / 10 ^ t.length) := by
  unfold parseDecimal
  have h1 : (w ++ '.' :: t).takeWhile Char.isDigit = w := by
    rw [List.takeWhile_append_of_pos hw]
    simp
  have h2 : (w ++ '.' :: t).dropWhile Char.isDigit = '.' :: t := by
    rw [List.dropWhile_append_of_pos hw]
    simp
  have h3 : t.all Char.isDigit = true := by
    rw [List.all_eq_true]
    exact ht
  have h4 : (w.isEmpty && t.isEmpty) = false := by
    rcases hne with h | h
    · cases w with
      | nil => exact absurd rfl h
      | cons _ _ => rfl
    · cases t with
      | nil => exact absurd rfl h
      | cons _ _ => simp
  simp only [h1, h2, h3, h4]
  simp

/-- Stripping the trailing zeros of a list of characters. -/
theorem trim_zeros (l : List Char) :
    ∃ k, l = (l.reverse.dropWhile (fun c => c == '0')).reverse ++ List.replicate k '0'
      ∧ (l.reverse.dropWhile (fun c => c == '0')).reverse.getLast? ≠ some '0' := by
  refine ⟨(l.reverse.takeWhile (fun c => c == '0')).length, ?_, ?_⟩
  · have h := List.takeWhile_append_dropWhile (fun c => c == '0') l.reverse
    have h2 := congrArg List.reverse h
    simp only [List.reverse_append, List.reverse_reverse] at h2
    have h3 : (l.reverse.takeWhile (fun c => c == '0')).reverse
        = List.replicate (l.reverse.takeWhile (fun c => c == '0')).length '0' := by
      rw [List.eq_replicate_iff]
      refine ⟨by simp, ?_⟩
      intro b hb
      rw [List.mem_reverse] at hb
      have := List.mem_takeWhile_imp hb
      simpa using this
    rw [← h3]
    exact h2.symm
  · rw [List.getLast?_reverse]
    intro h
    have := List.head?_dropWhile_not (fun c => c == '0') l.reverse
    rw [h] at this
    simp at this


/-- The two shapes of the result of `formatTokenAmount` on a positive amount. -/
theorem formatTokenAmount_shape (v d : Nat) (hd : 0 < d) (hv : v ≠ 0) :
    (v % 10 ^ d = 0 → formatTokenAmount v d = toString (v / 10 ^ d))
    ∧ (v % 10 ^ d ≠ 0 → ∃ t : List Char,
        formatTokenAmount v d = toString (v / 10 ^ d) ++ "." ++ String.mk t
        ∧ t ≠ [] ∧ (∀ c ∈ t, c.isDigit = true) ∧ t.length ≤ d
        ∧ t.getLast? ≠ some '0'
        ∧ digitsValue t * 10 ^ (d - t.length) = v % 10 ^ d) := by
  have e0 : (d : Int).toNat = d := Int.toNat_natCast d
  have hW : ((v : Int)) / (10 : Int) ^ d = ((v / 10 ^ d : Nat) : Int) := by
    norm_cast
  have hR : ((v : Int)) % (10 : Int) ^ d = ((v % 10 ^ d : Nat) : Int) := by
    norm_cast
  have hv2 : ¬ ((v : Int) = 0) := by exact_mod_cast hv
  have hd2 : ¬ ((d : Int) ≤ 0) := by omega
  constructor
  · intro h0
    unfold formatTokenAmount
    simp only [hv2, hd2, if_false, e0, hW, hR, h0, Nat.cast_zero, if_true]
    rfl
  · intro hne
    have hne2 : ¬ (((v % 10 ^ d : Nat) : Int) = 0) := by exact_mod_cast hne
    obtain ⟨_, rdig, rval, rlen⟩ := natDigits_spec (v % 10 ^ d)
    have rlt : v % 10 ^ d < 10 ^ d := Nat.mod_lt _ (by positivity)
    have hlen := rlen d hd rlt
    obtain ⟨k, hk, hlast⟩ := trim_zeros
      (List.replicate (d - (toString (v % 10 ^ d)).data.length) '0'
        ++ (toString (v % 10 ^ d)).data)
    generalize htr : ((List.replicate (d - (toString (v % 10 ^ d)).data.length) '0'
        ++ (toString (v % 10 ^ d)).data).reverse.dropWhile (fun c => c == '0')).reverse
      = t at hk hlast
    have hpadlen : (List.replicate (d - (toString (v % 10 ^ d)).data.length) '0'
        ++ (toString (v % 10 ^ d)).data).length = d := by
      rw [List.length_append, List.length_replicate]
      omega
    have hpadval : digitsValue (List.replicate (d - (toString (v % 10 ^ d)).data.length) '0'
        ++ (toString (v % 10 ^ d)).data) = v % 10 ^ d := by
      rw [digitsValue_append, digitsValue_zeros, rval]
      simp
    have hpaddig : ∀ c ∈ (List.replicate (d - (toString (v % 10 ^ d)).data.length) '0'
        ++ (toString (v % 10 ^ d)).data), c.isDigit = true := by
      intro c hc
      rw [List.mem_append] at hc
      rcases hc with hc | hc
      · rw [(List.mem_replicate.mp hc).2]
        decide
      · exact rdig c hc
    rw [hk] at hpadlen hpadval hpaddig
    have htlen : t.length + k = d := by simpa using hpadlen
    have htval : digitsValue t * 10 ^ k = v % 10 ^ d := by
      rw [digitsValue_append, digitsValue_zeros] at hpadval
      simpa using hpadval
    have htne : t ≠ [] := by
      intro e
      rw [e] at htval
      simp [digitsValue] at htval
      exact hne htval.symm
    refine ⟨t, ?_, htne, fun c hc => hpaddig c (List.mem_append_left _ hc), by omega, hlast, ?_⟩
    · unfold formatTokenAmount
      simp only [hv2, hd2, if_false, e0, hW, hR, hne2, toString_natCast, htr]
      cases t with
      | nil => exact absurd rfl htne
      | cons c t => rfl
    · have : d - t.length = k := by omega
      rw [this]
      exact htval

/-- A string that does not start with a minus sign denotes what `parseDecimal`
reads. -/
theorem decimalValue_unsigned (s : String) (h : s.data.head? ≠ some '-') :
    decimalValue s = parseDecimal s := by
  unfold decimalValue
  split
  · rename_i rest hr
    rw [hr] at h
    simp at h
  · rfl

theorem isDigit_ne_minus (c : Char) (h : c.isDigit = true) : c ≠ '-' := by
  intro e
  rw [e] at h
  exact absurd h (by decide)

theorem isDigit_ne_dot (c : Char) (h : c.isDigit = true) : c ≠ '.' := by
  intro e
  rw [e] at h
  exact absurd h (by decide)

/-- The digits after the dot of `w.t`. -/
theorem fractionDigits_dot (w t : List Char) (hw : ∀ c ∈ w, c.isDigit = true) :
    fractionDigits (String.mk (w ++ '.' :: t)) = t := by
  unfold fractionDigits
  have : (w ++ '.' :: t).dropWhile (fun c => c != '.') = '.' :: t := by
    rw [List.dropWhile_append_of_pos]
    · simp
    · intro c hc
      simpa using isDigit_ne_dot c (hw c hc)
  simp only [this]
  rfl

/-- A run of digits has no digits after a dot. -/
theorem fractionDigits_digits (w : List Char) (hw : ∀ c ∈ w, c.isDigit = true) :
    fractionDigits (String.mk w) = [] := by
  unfold fractionDigits
  have : w.dropWhile (fun c => c != '.') = [] := by
    rw [List.dropWhile_eq_nil_iff]
    intro c hc
    simpa using isDigit_ne_dot c (hw c hc)
  simp only [this]
  rfl

/-- C27: for every amount `v ≥ 0` and every number of decimals `d > 0`,
`formatTokenAmount v d` is a decimal string that denotes exactly `v / 10 ^ d`, has
at most `d` digits after the dot, the last of which is not `0`, does not end in a
dot, and is the string `formatBalance v d`; and `formatWei v` is
`formatTokenAmount v 18`. -/
theorem formatTokenAmount_denotes (v d : Nat) (hd : 0 < d) :
    decimalValue (formatTokenAmount v d) = some ((v : ℚ) / 10 ^ d)
    ∧ (fractionDigits (formatTokenAmount v d)).length ≤ d
    ∧ (fractionDigits (formatTokenAmount v d)).getLast? ≠ some '0'
    ∧ (formatTokenAmount v d).data.getLast? ≠ some '.'
    ∧ formatTokenAmount v d = formatBalance v d
    ∧ formatWei v = formatTokenAmount v 18 := by
  have hd2 : ¬ ((d : Int) ≤ 0) := by omega
  have h5 : formatTokenAmount v d = formatBalance v d := by
    unfold formatTokenAmount formatBalance
    simp only [hd2, if_false]
  have h6 : formatWei v = formatTokenAmount v 18 := by
    unfold formatTokenAmount formatWei
    have : ¬ ((18 : Int) ≤ 0) := by decide
    have e : (18 : Int).toNat = 18 := rfl
    simp only [this, if_false, e]
  have h14 : decimalValue (formatTokenAmount v d) = some ((v : ℚ) / 10 ^ d)
      ∧ (fractionDigits (formatTokenAmount v d)).length ≤ d
      ∧ (fractionDigits (formatTokenAmount v d)).getLast? ≠ some '0'
      ∧ (formatTokenAmount v d).data.getLast? ≠ some '.' := by
    by_cases hv : v = 0
    · subst hv
      have e : formatTokenAmount ((0 : Nat) : Int) d = "0" := by
        simp [formatTokenAmount]
      have e2 : fractionDigits "0" = [] := by decide
      rw [e, e2]
      refine ⟨?_, by simp, by simp, by decide⟩
      simp [decimalValue, parseDecimal, digitsValue]
    · obtain ⟨wne, wdig, wval, _⟩ := natDigits_spec (v / 10 ^ d)
      obtain ⟨s1, s2⟩ := formatTokenAmount_shape v d hd hv
      have hhead : ∀ rest : List Char,
          ((toString (v / 10 ^ d)).data ++ rest).head? ≠ some '-' := by
        intro rest h
        cases hdat : (toString (v / 10 ^ d)).data with
        | nil => exact wne hdat
        | cons c r =>
          rw [hdat] at h
          simp only [List.cons_append, List.head?_cons, Option.some.injEq] at h
          exact isDigit_ne_minus c (wdig c (by rw [hdat]; simp)) h
      by_cases hr : v % 10 ^ d = 0
      · rw [s1 hr]
        have es : toString (v / 10 ^ d) = String.mk (toString (v / 10 ^ d)).data := rfl
        rw [es]
        refine ⟨?_, ?_, ?_, ?_⟩
        · rw [decimalValue_unsigned, parseDecimal_digits _ wne wdig, wval]
          · congr 1
            have hdiv : (10 ^ d) ∣ v := Nat.dvd_of_mod_eq_zero hr
            rw [Nat.cast_div hdiv (by positivity)]
            push_cast
            rfl
          · have := hhead []
            simpa using this
        · rw [fractionDigits_digits _ wdig]
          simp
        · rw [fractionDigits_digits _ wdig]
          simp
        · intro h
          have hmem := List.mem_of_mem_getLast? h
          exact isDigit_ne_dot _ (wdig _ hmem) rfl
      · obtain ⟨t, ht, tne, tdig, tlen, tlast, tval⟩ := s2 hr
        rw [ht]
        have es : toString (v / 10 ^ d) ++ "." ++ String.mk t
            = String.mk ((toString (v / 10 ^ d)).data ++ '.' :: t) := by
          apply String.ext
          simp [String.data_append]
        rw [es]
        refine ⟨?_, ?_, ?_, ?_⟩
        · rw [decimalValue_unsigned _ (hhead _),
            parseDecimal_dot _ _ wdig tdig (Or.inl wne), digitsValue_append, wval]
          congr 1
          have hv3 : v = v / 10 ^ d * 10 ^ d + v % 10 ^ d := by
            rw [mul_comm]
            exact (Nat.div_add_mod v (10 ^ d)).symm
          have hpow : (10 : ℚ) ^ d = 10 ^ t.length * 10 ^ (d - t.length) := by
            rw [← pow_add]
            congr 1
            omega
          have hrem : ((v % 10 ^ d : Nat) : ℚ)
              = (digitsValue t : ℚ) * 10 ^ (d - t.length) := by
            rw [← tval]
            push_cast
            rfl
          have hvq : (v : ℚ) = ((v / 10 ^ d : Nat) : ℚ) * 10 ^ d
              + (digitsValue t : ℚ) * 10 ^ (d - t.length) := by
            rw [← hrem]
            exact_mod_cast hv3
          rw [hvq, hpow]
          push_cast
          field_simp
          ring
        · rw [fractionDigits_dot _ _ wdig]
          exact tlen
        · rw [fractionDigits_dot _ _ wdig]
          exact tlast
        · intro h
          have e2 : ((toString (v / 10 ^ d)).data ++ '.' :: t).getLast? = t.getLast? := by
            cases t with
            | nil => exact absurd rfl tne
            | cons c t =>
              rw [List.getLast?_append_of_ne_nil _ (by simp), List.getLast?_cons_cons]
          have h2 : t.getLast? = some '.' := by
            rw [← e2]
            exact h
          have := List.mem_of_mem_getLast? h2
          exact isDigit_ne_dot _ (tdig _ this) rfl
  exact ⟨h14.1, h14.2.1, h14.2.2.1, h14.2.2.2, h5, h6⟩

/-- Witness of C27: 1500000 units of a token with 6 decimals. -/
theorem formatTokenAmount_denotes_witness :
    decimalValue (formatTokenAmount (1500000 : Nat) (6 : Nat)) = some (((1500000 : Nat) : ℚ) / 10 ^ 6)
    ∧ formatTokenAmount (1500000 : Nat) (6 : Nat) = "1.5" :=
  ⟨(formatTokenAmount_denotes 1500000 6 (by decide)).1, by decide⟩

/-! ## Reading the amount back from a message -/

theorem isDigit_mem (c : Char) (h : c.isDigit = true) : c ∈ "0123456789".data := by
  have h2 : 48 ≤ c.toNat ∧ c.toNat ≤ 57 := by
    simp only [Char.isDigit, Bool.and_eq_true, decide_eq_true_eq] at h
    exact ⟨h.1, h.2⟩
  have hc : c = Char.ofNat c.toNat := (Char.ofNat_toNat c).symm
  obtain ⟨h3, h4⟩ := h2
  generalize c.toNat = n at hc h3 h4
  subst hc
  interval_cases n <;> decide

theorem noPair_block (a b : Char) (l : List Char) (h : noPair a b l = true) :
    ¬ ([a, b] <:+: l) := by
  induction l with
  | nil => simp
  | cons x l ih =>
    cases l with
    | nil =>
      intro hi
      have := hi.length_le
      simp at this
    | cons y rest =>
      simp only [noPair, Bool.and_eq_true, Bool.not_eq_true', Bool.and_eq_false_iff,
        beq_eq_false_iff_ne] at h
      rw [List.infix_cons_iff]
      rintro (hp | hi)
      · simp only [List.cons_prefix_cons] at hp
        rcases h.1 with h1 | h1
        · exact h1 hp.1.symm
        · exact h1 hp.2.1.symm
      · exact ih h.2 hi

theorem noPair_append (a b : Char) (l1 l2 : List Char) (h1 : noPair a b l1 = true)
    (h2 : noPair a b l2 = true) (h : l1.getLast? ≠ some a) :
    noPair a b (l1 ++ l2) = true := by
  induction l1 with
  | nil => simpa using h2
  | cons x l ih =>
    cases l with
    | nil =>
      have hx : x ≠ a := by simpa using h
      cases l2 with
      | nil => rfl
      | cons y rest =>
        simp only [List.singleton_append, noPair, Bool.and_eq_true, Bool.not_eq_true',
          Bool.and_eq_false_iff, beq_eq_false_iff_ne]
        exact ⟨Or.inl hx, h2⟩
    | cons y rest =>
      simp only [noPair, Bool.and_eq_true] at h1
      simp only [List.cons_append, noPair, Bool.and_eq_true]
      refine ⟨h1.1, ?_⟩
      apply ih h1.2
      rw [List.getLast?_cons_cons] at h
      exact h

theorem quietText_append (l1 l2 : List Char) (h1 : quietText l1) (h2 : quietText l2) :
    quietText (l1 ++ l2) := by
  refine ⟨noPair_append _ _ _ _ h1.1 h2.1 h1.2, ?_⟩
  cases l2 with
  | nil => simpa using h1.2
  | cons y rest =>
    rw [List.getLast?_append_of_ne_nil _ (by simp)]
    exact h2.2

theorem quietText_nil : quietText [] := ⟨rfl, by simp⟩

/-- A text without the letter `o` is quiet. -/
theorem quietText_of_no_o (l : List Char) (h : ∀ c ∈ l, c ≠ 'o') : quietText l := by
  constructor
  · induction l with
    | nil => rfl
    | cons x l ih =>
      cases l with
      | nil => rfl
      | cons y rest =>
        simp only [noPair, Bool.and_eq_true, Bool.not_eq_true', Bool.and_eq_false_iff,
          beq_eq_false_iff_ne]
        exact ⟨Or.inl (h x (by simp)), ih (fun c hc => h c (List.mem_cons_of_mem _ hc))⟩
  · intro hl
    exact h 'o' (List.mem_of_mem_getLast? hl) rfl

/-- A quiet text does not contain `module`. -/
theorem quietText_no_module (s : String) (h : quietText s.data) :
    Contains s "module" = false := by
  cases hc : Contains s "module" with
  | false => rfl
  | true =>
    exfalso
    unfold Contains at hc
    rw [containsChars_iff] at hc
    have hi : ['o', 'd'] <:+: "module".data := ⟨['m'], ['u', 'l', 'e'], by decide⟩
    exact noPair_block _ _ _ h.1 (hi.trans hc)

/-- The amount `extractUSDFromBody` reads when the first dollar sign is followed
by a numeral and then by a character that is neither a digit nor a dot. -/
theorem extractUSD_at (env : Env) (pre num post : List Char) (hpre : '$' ∉ pre)
    (hnum : ∀ c ∈ num, (c.isDigit || c == '.') = true) (hne : num ≠ [])
    (hpost : ∀ c, post.head? = some c → (c.isDigit || c == '.') = false) :
    extractUSDFromBody env (String.mk (pre ++ '$' :: (num ++ post)))
      = (env.parseFloat (String.mk num)).getD 0 := by
  unfold extractUSDFromBody
  have h1 : (pre ++ '$' :: (num ++ post)).dropWhile (fun c => c != '$')
      = '$' :: (num ++ post) := by
    rw [List.dropWhile_append_of_pos]
    · simp
    · intro c hc
      have : c ≠ '$' := fun e => hpre (e ▸ hc)
      simpa using this
  have h2 : (num ++ post).takeWhile (fun c => c.isDigit || c == '.') = num := by
    rw [List.takeWhile_append_of_pos hnum]
    cases post with
    | nil => simp
    | cons c post =>
      have := hpost c rfl
      simp [List.takeWhile_cons, this]
  simp only [h1, h2]
  cases num with
  | nil => exact absurd rfl hne
  | cons c num =>
    cases hp : env.parseFloat (String.mk (c :: num)) <;> simp [hp]

theorem roundCents_nonneg (u : ℚ) (h : 0 ≤ u) : 0 ≤ roundCents u := by
  have hk : 0 ≤ ⌊100 * u⌋ := Int.floor_nonneg.mpr (by linarith)
  unfold roundCents
  simp only []
  split_ifs <;> omega

/-- The text `%.2f` prints of a non-negative amount is a numeral of digits and one
dot, and denotes the amount rounded to hundredths. -/
theorem formatFixed2_spec (u : ℚ) (h : 0 ≤ u) :
    (∀ c ∈ (formatFixed2 u).data, c ∈ "0123456789.".data)
    ∧ (formatFixed2 u).data ≠ []
    ∧ parseDecimal (formatFixed2 u) = some ((roundCents u : ℚ) / 100) := by
  have hn := roundCents_nonneg u h
  have habs : |u| = u := abs_of_nonneg h
  have hneg : ¬ (u < 0) := not_lt.mpr h
  obtain ⟨wne, wdig, wval, _⟩ := natDigits_spec ((roundCents u).toNat / 100)
  have d1 := digitChar_dec ((roundCents u).toNat / 10 % 10) (Nat.mod_lt _ (by norm_num))
  have d2 := digitChar_dec ((roundCents u).toNat % 10) (Nat.mod_lt _ (by norm_num))
  have e : formatFixed2 u = String.mk ((toString ((roundCents u).toNat / 100)).data
      ++ '.' :: [Nat.digitChar ((roundCents u).toNat / 10 % 10),
        Nat.digitChar ((roundCents u).toNat % 10)]) := by
    unfold formatFixed2
    simp only [habs, hneg, if_false]
    apply String.ext
    simp [String.data_append]
  have hfrac : ∀ c ∈ [Nat.digitChar ((roundCents u).toNat / 10 % 10),
      Nat.digitChar ((roundCents u).toNat % 10)], c.isDigit = true := by
    intro c hc
    simp only [List.mem_cons, List.mem_singleton, List.not_mem_nil, or_false] at hc
    rcases hc with hc | hc
    · rw [hc]; exact d1.1
    · rw [hc]; exact d2.1
  refine ⟨?_, ?_, ?_⟩
  · intro c hc
    rw [e] at hc
    simp only [List.mem_append, List.mem_cons] at hc
    have hd : ∀ c : Char, c.isDigit = true → c ∈ "0123456789.".data := fun c hc =>
      (by decide : ∀ c ∈ "0123456789".data, c ∈ "0123456789.".data) c (isDigit_mem c hc)
    rcases hc with hc | hc | hc
    · exact hd c (wdig c hc)
    · rw [hc]; decide
    · exact hd c (hfrac c (by simpa using hc))
  · rw [e]
    simp
  · rw [e, parseDecimal_dot _ _ wdig hfrac (Or.inl wne), digitsValue_append, wval]
    congr 1
    have hv : digitsValue [Nat.digitChar ((roundCents u).toNat / 10 % 10),
        Nat.digitChar ((roundCents u).toNat % 10)]
        = 10 * ((roundCents u).toNat / 10 % 10) + (roundCents u).toNat % 10 := by
      simp only [digitsValue, List.foldl_cons, List.foldl_nil]
      rw [d1.2, d2.2]
      omega
    rw [hv]
    have hsum : (roundCents u).toNat / 100 * 10 ^ 2
        + (10 * ((roundCents u).toNat / 10 % 10) + (roundCents u).toNat % 10)
        = (roundCents u).toNat := by
      omega
    have hcast : ((roundCents u).toNat : ℚ) = (roundCents u : ℚ) := by
      have := Int.toNat_of_nonneg hn
      exact_mod_cast this
    simp only [List.length_cons, List.length_nil]
    rw [← hcast]
    have : (((roundCents u).toNat / 100 * 10 ^ 2
        + (10 * ((roundCents u).toNat / 10 % 10) + (roundCents u).toNat % 10) : Nat) : ℚ)
        = ((roundCents u).toNat : ℚ) := by
      rw [hsum]
    rw [← this]
    push_cast
    norm_num

/-! ## The body of a transfer message -/

theorem plainAlphabet_plain :
    ∀ c ∈ plainAlphabet, c.val < 128 ∧ c.toLower ≠ 'o' ∧ c ≠ '$' := by decide

/-- A piece of plain characters has no dollar sign and is lower-cased to a quiet
text. -/
theorem lower_plain (f : Char → Char) (hascii : ∀ c : Char, c.val < 128 → f c = c.toLower)
    (p : List Char) (hp : ∀ c ∈ p, c ∈ plainAlphabet) :
    quietText (p.map f) ∧ '$' ∉ p := by
  constructor
  · apply quietText_of_no_o
    intro c hc
    rw [List.mem_map] at hc
    obtain ⟨a, ha, hfa⟩ := hc
    have := plainAlphabet_plain a (hp a ha)
    rw [← hfa, hascii a this.1]
    exact this.2.1
  · intro h
    exact (plainAlphabet_plain '$' (hp '$' h)).2.2 rfl

/-- A fixed text of ASCII characters and caseless symbols is lower-cased as by
`Char.toLower`. -/
theorem lower_literal (f : Char → Char) (hascii : ∀ c : Char, c.val < 128 → f c = c.toLower)
    (hsym : ∀ c ∈ caselessSymbols, f c = c) (lit : List Char)
    (h : ∀ c ∈ lit, c.val < 128 ∨ c ∈ caselessSymbols) :
    lit.map f = lit.map Char.toLower := by
  apply List.map_congr_left
  intro c hc
  rcases h c hc with h1 | h1
  · exact hascii c h1
  · rw [hsym c h1]
    exact ((by decide : ∀ c ∈ caselessSymbols, c.toLower = c) c h1).symm

theorem lower_literal_quiet (f : Char → Char)
    (hascii : ∀ c : Char, c.val < 128 → f c = c.toLower)
    (hsym : ∀ c ∈ caselessSymbols, f c = c) (lit : List Char)
    (h : ∀ c ∈ lit, c.val < 128 ∨ c ∈ caselessSymbols)
    (hq : quietText (lit.map Char.toLower)) : quietText (lit.map f) := by
  rw [lower_literal f hascii hsym lit h]
  exact hq

/-- The line on the special wallet is lower-cased to a quiet text, whatever
becomes of its three letters outside ASCII. -/
theorem special_quiet (f : Char → Char) (hascii : ∀ c : Char, c.val < 128 → f c = c.toLower) :
    quietText ("🚨 **ÖZEL CÜZDAN İLGİLİ**\n".data.map f) := by
  have e : "🚨 **ÖZEL CÜZDAN İLGİLİ**\n".data
      = ['🚨', ' ', '*', '*', 'Ö', 'Z', 'E', 'L', ' ', 'C', 'Ü', 'Z', 'D', 'A', 'N', ' ',
          'İ', 'L', 'G', 'İ', 'L', 'İ', '*', '*', '\n'] := by decide
  have h0 : f ' ' = ' ' := (hascii ' ' (by decide)).trans (by decide)
  have h1 : f '*' = '*' := (hascii '*' (by decide)).trans (by decide)
  have h2 : f 'Z' = 'z' := (hascii 'Z' (by decide)).trans (by decide)
  have h3 : f 'E' = 'e' := (hascii 'E' (by decide)).trans (by decide)
  have h4 : f 'L' = 'l' := (hascii 'L' (by decide)).trans (by decide)
  have h5 : f 'C' = 'c' := (hascii 'C' (by decide)).trans (by decide)
  have h6 : f 'D' = 'd' := (hascii 'D' (by decide)).trans (by decide)
  have h7 : f 'A' = 'a' := (hascii 'A' (by decide)).trans (by decide)
  have h8 : f 'N' = 'n' := (hascii 'N' (by decide)).trans (by decide)
  have h9 : f 'G' = 'g' := (hascii 'G' (by decide)).trans (by decide)
  have h10 : f '\n' = '\n' := (hascii '\n' (by decide)).trans (by decide)
  rw [e]
  simp only [List.map_cons, List.map_nil, h0, h1, h2, h3, h4, h5, h6, h7, h8, h9, h10]
  constructor
  · simp [noPair]
  · simp


/-- The body of a Transfer message is lower-cased to a quiet text. -/
theorem transferBody_quiet (f : Char → Char)
    (hascii : ∀ c : Char, c.val < 128 → f c = c.toLower)
    (hsym : ∀ c ∈ caselessSymbols, f c = c)
    (tx src dst amount sym usdText stamp : String) (usd special : Bool)
    (htx : ∀ c ∈ tx.data, c ∈ plainAlphabet) (hsrc : ∀ c ∈ src.data, c ∈ plainAlphabet)
    (hdst : ∀ c ∈ dst.data, c ∈ plainAlphabet)
    (hamount : ∀ c ∈ amount.data, c ∈ plainAlphabet)
    (hsymbol : ∀ c ∈ sym.data, c ∈ plainAlphabet)
    (husd : ∀ c ∈ usdText.data, c ∈ plainAlphabet)
    (hstamp : ∀ c ∈ stamp.data, c ∈ plainAlphabet) :
    quietText ((transferBodyText tx src dst amount sym usd usdText special stamp).data.map f) := by
  have q1 := (lower_plain f hascii _ htx).1
  have q2 := (lower_plain f hascii _ hsrc).1
  have q3 := (lower_plain f hascii _ hdst).1
  have q4 := (lower_plain f hascii _ hamount).1
  have q5 := (lower_plain f hascii _ hsymbol).1
  have q6 := (lower_plain f hascii _ husd).1
  have q7 := (lower_plain f hascii _ hstamp).1
  have qs := special_quiet f hascii
  unfold transferBodyText
  by_cases hs : sym = "" <;> cases usd <;> cases special <;>
    simp only [hs, ne_eq, not_true_eq_false, not_false_eq_true, if_true, if_false,
      Bool.false_eq_true, String.data_append, List.map_append] <;>
    repeat' apply quietText_append
  all_goals
    first
      | assumption
      | exact quietText_nil
      | exact lower_literal_quiet f hascii hsym _ (by decide) ⟨by decide, by decide⟩

/-- Without the line of the dollar amount the body has no dollar sign. -/
theorem transferBody_no_dollar (tx src dst amount sym usdText stamp : String) (special : Bool)
    (htx : ∀ c ∈ tx.data, c ∈ plainAlphabet) (hsrc : ∀ c ∈ src.data, c ∈ plainAlphabet)
    (hdst : ∀ c ∈ dst.data, c ∈ plainAlphabet)
    (hamount : ∀ c ∈ amount.data, c ∈ plainAlphabet)
    (hsymbol : ∀ c ∈ sym.data, c ∈ plainAlphabet)
    (hstamp : ∀ c ∈ stamp.data, c ∈ plainAlphabet) :
    '$' ∉ (transferBodyText tx src dst amount sym false usdText special stamp).data := by
  have hpl : ∀ p : List Char, (∀ c ∈ p, c ∈ plainAlphabet) → '$' ∉ p := fun p hp h =>
    (plainAlphabet_plain '$' (hp '$' h)).2.2 rfl
  have q1 := hpl _ htx
  have q2 := hpl _ hsrc
  have q3 := hpl _ hdst
  have q4 := hpl _ hamount
  have q5 := hpl _ hsymbol
  have q7 := hpl _ hstamp
  unfold transferBodyText
  by_cases hs : sym = "" <;> cases special <;>
    simp only [hs, ne_eq, not_true_eq_false, not_false_eq_true, if_true, if_false,
      Bool.false_eq_true, String.data_append] <;>
    repeat' apply List.not_mem_append
  all_goals
    first
      | assumption
      | decide

/-- With the line of the dollar amount, `extractUSDFromBody` reads the amount of
that line. -/
theorem transferBody_extract (env : Env) (tx src dst amount sym usdText stamp : String)
    (special : Bool)
    (htx : ∀ c ∈ tx.data, c ∈ plainAlphabet) (hsrc : ∀ c ∈ src.data, c ∈ plainAlphabet)
    (hdst : ∀ c ∈ dst.data, c ∈ plainAlphabet)
    (hamount : ∀ c ∈ amount.data, c ∈ plainAlphabet)
    (hsymbol : ∀ c ∈ sym.data, c ∈ plainAlphabet)
    (husd : ∀ c ∈ usdText.data, c ∈ decimalAlphabet) (hne : usdText.data ≠ []) :
    extractUSDFromBody env (transferBodyText tx src dst amount sym true usdText special stamp)
      = (env.parseFloat usdText).getD 0 := by
  have hpl : ∀ p : List Char, (∀ c ∈ p, c ∈ plainAlphabet) → '$' ∉ p := fun p hp h =>
    (plainAlphabet_plain '$' (hp '$' h)).2.2 rfl
  have q1 := hpl _ htx
  have q2 := hpl _ hsrc
  have q3 := hpl _ hdst
  have q4 := hpl _ hamount
  have q5 := hpl _ hsymbol
  have e : transferBodyText tx src dst amount sym true usdText special stamp
      = String.mk ((("📋 **Tx:** \x60" ++ tx ++ "\x60\n"
          ++ ("📤 **From:** \x60" ++ src ++ "\x60\n")
          ++ ("📥 **To:** \x60" ++ dst ++ "\x60\n")
          ++ (if sym ≠ "" then "💰 **Value:** \x60" ++ amount ++ " " ++ sym ++ "\x60\n"
              else "💰 **Value:** \x60" ++ amount ++ "\x60\n")).data
            ++ "💵 **USD:** \x60~".data)
          ++ '$' :: (usdText.data ++ ('\x60' :: '\n' ::
              ((if special then "🚨 **ÖZEL CÜZDAN İLGİLİ**\n" else "")
                ++ ("⏰ **Zaman:** \x60" ++ stamp ++ "\x60")).data))) := by
    apply String.ext
    unfold transferBodyText
    simp [String.data_append]
  rw [e, extractUSD_at env _ _ _ ?_ ?_ hne ?_]
  · by_cases hs : sym = "" <;>
      simp only [hs, ne_eq, not_true_eq_false, not_false_eq_true, if_true, if_false,
        String.data_append] <;>
      repeat' apply List.not_mem_append
    all_goals
      first
        | assumption
        | decide
  · intro c hc
    exact (by decide : ∀ c ∈ decimalAlphabet, (c.isDigit || c == '.') = true) c (husd c hc)
  · intro c hc
    simp only [List.head?_cons, Option.some.injEq] at hc
    rw [← hc]
    decide

theorem roundCents_zero : roundCents 0 = 0 := by
  simp [roundCents]

/-- A Transfer body under a title without the keywords is rated by the amount as
printed: the amount rounded to hundredths against the threshold. -/
theorem transferBody_importance (env : Env) (hlow : GoToLower env)
    (title tx src dst amount sym stamp : String) (special : Bool) (u : ℚ) (hu : 0 ≤ u)
    (htx : ∀ c ∈ tx.data, c ∈ plainAlphabet) (hsrc : ∀ c ∈ src.data, c ∈ plainAlphabet)
    (hdst : ∀ c ∈ dst.data, c ∈ plainAlphabet)
    (hamount : ∀ c ∈ amount.data, c ∈ plainAlphabet)
    (hsymbol : ∀ c ∈ sym.data, c ∈ plainAlphabet)
    (hstamp : ∀ c ∈ stamp.data, c ∈ plainAlphabet)
    (hT : Contains title "Transfer" = true)
    (hkw : ¬ (Contains (env.toLower title) "install" = true
        ∧ Contains (env.toLower title) "module" = true))
    (hdc : Contains (env.toLower title) "diamondcut" = false) :
    determineImportance env title
        (transferBodyText tx src dst amount sym (decide (u > 0)) (formatFixed2 u) special stamp)
      = decide ((0 < u ∧ usdThreshold env ≤ (env.parseFloat (formatFixed2 u)).getD 0)) := by
  obtain ⟨f, hf, hascii, hsym⟩ := hlow
  obtain ⟨fch, fne, fval⟩ := formatFixed2_spec u hu
  have husd : ∀ c ∈ (formatFixed2 u).data, c ∈ plainAlphabet := fun c hc =>
    (by decide : ∀ c ∈ "0123456789.".data, c ∈ plainAlphabet) c (fch c hc)
  have hq := transferBody_quiet f hascii hsym tx src dst amount sym (formatFixed2 u) stamp
    (decide (u > 0)) special htx hsrc hdst hamount hsymbol husd hstamp
  have hmod : Contains (env.toLower
      (transferBodyText tx src dst amount sym (decide (u > 0)) (formatFixed2 u) special stamp))
      "module" = false := by
    apply quietText_no_module
    rw [hf]
    exact hq
  have a : (Contains (env.toLower title) "install"
      && Contains (env.toLower title) "module") = false := by
    simpa using hkw
  rw [determineImportance_eq, a, hdc, hmod, hT]
  simp only [Bool.and_false, Bool.or_false, Bool.false_or, Bool.true_and]
  by_cases hpos : u > 0
  · have hd : decide (u > 0) = true := decide_eq_true hpos
    rw [hd, transferBody_extract env tx src dst amount sym (formatFixed2 u) stamp special
      htx hsrc hdst hamount hsymbol fch fne]
    simp [hpos]
  · have hz : u = 0 := le_antisymm (not_lt.mp hpos) hu
    have hd : decide (u > 0) = false := decide_eq_false hpos
    rw [hd, extractUSDFromBody_no_dollar env _
      (transferBody_no_dollar tx src dst amount sym (formatFixed2 u) stamp special
        htx hsrc hdst hamount hsymbol hstamp), hz]
    have := usdThreshold_pos env
    simp [this]

theorem getAssetSymbol_chars (a : Nat) : ∀ c ∈ (getAssetSymbol a).data, c ∈ plainAlphabet := by
  unfold getAssetSymbol tokenSymbols
  split_ifs <;> decide

theorem getTokenDecimals_pos (a : Nat) : 0 < getTokenDecimals a := by
  unfold getTokenDecimals tokenDecimals
  split_ifs <;> decide

/-- The characters of a formatted amount are digits and the dot. -/
theorem formatTokenAmount_chars (v : Nat) (dec : Int) (hdec : 0 < dec) :
    ∀ c ∈ (formatTokenAmount v dec).data, c ∈ plainAlphabet := by
  have hd : ∀ c : Char, c.isDigit = true → c ∈ plainAlphabet := fun c hc =>
    (by decide : ∀ c ∈ "0123456789".data, c ∈ plainAlphabet) c (isDigit_mem c hc)
  obtain ⟨d, rfl⟩ : ∃ d : Nat, dec = d := ⟨dec.toNat, (Int.toNat_of_nonneg hdec.le).symm⟩
  have hd0 : 0 < d := by omega
  by_cases hv : v = 0
  · subst hv
    have e : formatTokenAmount ((0 : Nat) : Int) d = "0" := by simp [formatTokenAmount]
    rw [e]
    decide
  · obtain ⟨_, wdig, _, _⟩ := natDigits_spec (v / 10 ^ d)
    obtain ⟨s1, s2⟩ := formatTokenAmount_shape v d hd0 hv
    by_cases hr : v % 10 ^ d = 0
    · rw [s1 hr]
      exact fun c hc => hd c (wdig c hc)
    · obtain ⟨t, ht, _, tdig, _, _, _⟩ := s2 hr
      rw [ht]
      intro c hc
      simp only [String.data_append, List.mem_append] at hc
      rcases hc with (hc | hc) | hc
      · exact hd c (wdig c hc)
      · revert c
        decide
      · exact hd c (tdig c hc)

/-- The message of a Transfer log with a watched side. -/
theorem formatEventMessage_transfer (env : Env) (reg : Registry) (io : LogIO) (lg : Log)
    (t1 t2 : Nat) (rest : List Nat) (htop : lg.Topics = transferTopic :: t1 :: t2 :: rest)
    (hw : reg.WatchMap (lowerHex (topicAddress t1)) = true
      ∨ reg.WatchMap (lowerHex (topicAddress t2)) = true) :
    formatEventMessage env reg io lg
      = some ((if determineImportance env
              ("[" ++ (if getAssetSymbol lg.Address ≠ "" then getAssetSymbol lg.Address
                else GetCategoryLabel reg lg.Address) ++ "] Transfer")
              (transferBodyText (hashHex lg.TxHash) (io.addressHex (topicAddress t1))
                (io.addressHex (topicAddress t2))
                (formatTokenAmount ((if lg.Data.length ≥ 32 then bytesValue lg.Data else 0 : Nat)
                  : Int) (getTokenDecimals lg.Address))
                (getAssetSymbol lg.Address) (decide (io.usdValue > 0)) io.usdText
                (isSpecialTransfer (topicAddress t1) (topicAddress t2)) io.stamp) = true
            then "🔴" else "🔵") ++ " ["
          ++ (if getAssetSymbol lg.Address ≠ "" then getAssetSymbol lg.Address
                else GetCategoryLabel reg lg.Address) ++ "] Transfer",
        transferBodyText (hashHex lg.TxHash) (io.addressHex (topicAddress t1))
          (io.addressHex (topicAddress t2))
          (formatTokenAmount ((if lg.Data.length ≥ 32 then bytesValue lg.Data else 0 : Nat)
            : Int) (getTokenDecimals lg.Address))
          (getAssetSymbol lg.Address) (decide (io.usdValue > 0)) io.usdText
          (isSpecialTransfer (topicAddress t1) (topicAddress t2)) io.stamp) := by
  have hne : ¬ (transferTopic = moduleInstalledTopic) := by decide
  have hw2 : (!reg.WatchMap (lowerHex (topicAddress t1))
      && !reg.WatchMap (lowerHex (topicAddress t2))) = false := by
    rcases hw with h | h <;> simp [h]
  unfold formatEventMessage
  simp only [htop, List.head?_cons, Option.some.injEq, hne, if_false, if_true,
    parseTransferDetails, hw2, Bool.false_eq_true, transferBodyText, decide_eq_true_eq]

theorem containsChars_cons_of_not_mem (x : Char) (l p : List Char) (h : x ∉ p) (hne : p ≠ []) :
    containsChars (x :: l) p = containsChars l p := by
  cases p with
  | nil => exact absurd rfl hne
  | cons d p =>
    have hx : (x == d) = false := by
      have : x ≠ d := fun e => h (by rw [e]; simp)
      simpa using this
    simp [containsChars, startsWith, hx]

/-- The marker and the blank in front of a title add no occurrence of a keyword. -/
theorem marker_adds_no_keyword (f : Char → Char) (hascii : ∀ c : Char, c.val < 128 → f c = c.toLower)
    (hsym : ∀ c ∈ caselessSymbols, f c = c) (e inner p : String)
    (he : e = "🔴" ∨ e = "🔵")
    (hp : p = "install" ∨ p = "module" ∨ p = "diamondcut") :
    Contains (String.mk ((e ++ " " ++ inner).data.map f)) p
      = Contains (String.mk (inner.data.map f)) p := by
  have h0 : f ' ' = ' ' := (hascii ' ' (by decide)).trans (by decide)
  have h1 : f '🔴' = '🔴' := hsym _ (by decide)
  have h2 : f '🔵' = '🔵' := hsym _ (by decide)
  unfold Contains
  rcases he with rfl | rfl <;> rcases hp with rfl | rfl | rfl <;>
    simp only [String.data_append, List.map_append]
  all_goals
    first
      | (have e1 : "🔴".data.map f = ['🔴'] := by
           show [f '🔴'] = ['🔴']
           rw [h1]
         have e2 : " ".data.map f = [' '] := by
           show [f ' '] = [' ']
           rw [h0]
         rw [e1, e2]
         simp only [List.singleton_append, List.cons_append, List.nil_append]
         rw [containsChars_cons_of_not_mem _ _ _ (by decide) (by decide),
           containsChars_cons_of_not_mem _ _ _ (by decide) (by decide)])
      | (have e1 : "🔵".data.map f = ['🔵'] := by
           show [f '🔵'] = ['🔵']
           rw [h2]
         have e2 : " ".data.map f = [' '] := by
           show [f ' '] = [' ']
           rw [h0]
         rw [e1, e2]
         simp only [List.singleton_append, List.cons_append, List.nil_append]
         rw [containsChars_cons_of_not_mem _ _ _ (by decide) (by decide),
           containsChars_cons_of_not_mem _ _ _ (by decide) (by decide)])


/-- The hundredths `%.2f` prints are within half a hundredth of the amount. -/
theorem roundCents_near (x : ℚ) : |(roundCents x : ℚ) - 100 * x| ≤ 1 / 2 := by
  have h1 := Int.floor_le (100 * x)
  have h2 := Int.lt_floor_add_one (100 * x)
  unfold roundCents
  simp only []
  rw [abs_le]
  split_ifs with a b c
  · constructor <;> linarith
  · push_cast
    constructor <;> linarith
  · constructor <;> linarith
  · push_cast
    constructor <;> linarith

theorem hashHex_chars (h : Nat) : ∀ c ∈ (hashHex h).data, c ∈ plainAlphabet := by
  intro c hc
  simp only [hashHex, List.mem_cons] at hc
  rcases hc with hc | hc | hc
  · rw [hc]; decide
  · rw [hc]; decide
  · exact (by decide : ∀ c ∈ "0123456789abcdef".data, c ∈ plainAlphabet) c
      (hexFixed_chars 64 h c hc)

theorem lowerHex_chars (a : Nat) : ∀ c ∈ (lowerHex a).data, c ∈ hexAlphabet := by
  intro c hc
  simp only [lowerHex, List.mem_cons] at hc
  rcases hc with hc | hc | hc
  · rw [hc]; decide
  · rw [hc]; decide
  · exact (by decide : ∀ c ∈ "0123456789abcdef".data, c ∈ hexAlphabet) c
      (hexFixed_chars 40 a c hc)

/-- A title that ends in `] Transfer` contains `Transfer`. -/
theorem title_has_Transfer (pre : String) : Contains (pre ++ "] Transfer") "Transfer" = true := by
  unfold Contains
  rw [containsChars_iff]
  exact ⟨pre.data ++ "] ".data, [], by simp [String.data_append]⟩

/-- The message of a Transfer log with a watched side, with a title category free
of the keywords: the marker and the rating follow the amount as printed. -/
theorem transfer_message (env : Env) (reg : Registry) (io : LogIO) (lg : Log)
    (t1 t2 : Nat) (rest : List Nat) (hlow : GoToLower env)
    (htop : lg.Topics = transferTopic :: t1 :: t2 :: rest)
    (hw : reg.WatchMap (lowerHex (topicAddress t1)) = true
      ∨ reg.WatchMap (lowerHex (topicAddress t2)) = true)
    (hu : 0 ≤ io.usdValue) (htext : io.usdText = formatFixed2 io.usdValue)
    (haddr : ∀ a, ∀ c ∈ (io.addressHex a).data, c ∈ hexAlphabet)
    (hstamp : ∀ c ∈ io.stamp.data, c ∈ stampAlphabet)
    (hkw : ¬ (Contains (env.toLower ("[" ++ (if getAssetSymbol lg.Address ≠ "" then
              getAssetSymbol lg.Address else GetCategoryLabel reg lg.Address) ++ "] Transfer"))
            "install" = true
          ∧ Contains (env.toLower ("[" ++ (if getAssetSymbol lg.Address ≠ "" then
              getAssetSymbol lg.Address else GetCategoryLabel reg lg.Address) ++ "] Transfer"))
            "module" = true))
    (hdc : Contains (env.toLower ("[" ++ (if getAssetSymbol lg.Address ≠ "" then
              getAssetSymbol lg.Address else GetCategoryLabel reg lg.Address) ++ "] Transfer"))
            "diamondcut" = false) :
    ∃ body,
      formatEventMessage env reg io lg
        = some ((if (0 < io.usdValue ∧ usdThreshold env ≤ (env.parseFloat (formatFixed2 io.usdValue)).getD 0) then "🔴" else "🔵")
            ++ " [" ++ (if getAssetSymbol lg.Address ≠ "" then getAssetSymbol lg.Address
                else GetCategoryLabel reg lg.Address) ++ "] Transfer", body)
      ∧ (determineImportance env
            ((if (0 < io.usdValue ∧ usdThreshold env ≤ (env.parseFloat (formatFixed2 io.usdValue)).getD 0) then "🔴" else "🔵")
              ++ " [" ++ (if getAssetSymbol lg.Address ≠ "" then getAssetSymbol lg.Address
                else GetCategoryLabel reg lg.Address) ++ "] Transfer") body
          = decide ((0 < io.usdValue ∧ usdThreshold env ≤ (env.parseFloat (formatFixed2 io.usdValue)).getD 0)))
      ∧ (¬ (0 < io.usdValue) → '$' ∉ body.data) := by
  have hhex : ∀ c ∈ hexAlphabet, c ∈ plainAlphabet := by decide
  have hst : ∀ c ∈ stampAlphabet, c ∈ plainAlphabet := by decide
  have p1 := hashHex_chars lg.TxHash
  have p2 : ∀ c ∈ (io.addressHex (topicAddress t1)).data, c ∈ plainAlphabet :=
    fun c hc => hhex c (haddr _ c hc)
  have p3 : ∀ c ∈ (io.addressHex (topicAddress t2)).data, c ∈ plainAlphabet :=
    fun c hc => hhex c (haddr _ c hc)
  have p4 := formatTokenAmount_chars (if lg.Data.length ≥ 32 then bytesValue lg.Data else 0)
    (getTokenDecimals lg.Address) (getTokenDecimals_pos lg.Address)
  have p5 := getAssetSymbol_chars lg.Address
  have p6 : ∀ c ∈ io.stamp.data, c ∈ plainAlphabet := fun c hc => hst c (hstamp c hc)
  generalize htc : (if getAssetSymbol lg.Address ≠ "" then getAssetSymbol lg.Address
      else GetCategoryLabel reg lg.Address) = tc at hkw hdc
  have hshape := formatEventMessage_transfer env reg io lg t1 t2 rest htop hw
  rw [htc, htext] at hshape
  have himp := transferBody_importance env hlow ("[" ++ tc ++ "] Transfer")
    (hashHex lg.TxHash) (io.addressHex (topicAddress t1)) (io.addressHex (topicAddress t2))
    (formatTokenAmount ((if lg.Data.length ≥ 32 then bytesValue lg.Data else 0 : Nat) : Int)
      (getTokenDecimals lg.Address))
    (getAssetSymbol lg.Address) io.stamp (isSpecialTransfer (topicAddress t1) (topicAddress t2))
    io.usdValue hu p1 p2 p3 p4 p5 p6 (title_has_Transfer _) hkw hdc
  rw [himp] at hshape
  simp only [decide_eq_true_eq] at hshape
  refine ⟨_, hshape, ?_, ?_⟩
  · have hfull : ∀ e : String, e = "🔴" ∨ e = "🔵" →
        determineImportance env (e ++ " [" ++ tc ++ "] Transfer")
          (transferBodyText (hashHex lg.TxHash) (io.addressHex (topicAddress t1))
            (io.addressHex (topicAddress t2))
            (formatTokenAmount
              ((if lg.Data.length ≥ 32 then bytesValue lg.Data else 0 : Nat) : Int)
              (getTokenDecimals lg.Address))
            (getAssetSymbol lg.Address) (decide (io.usdValue > 0)) (formatFixed2 io.usdValue)
            (isSpecialTransfer (topicAddress t1) (topicAddress t2)) io.stamp)
          = decide ((0 < io.usdValue ∧ usdThreshold env ≤ (env.parseFloat (formatFixed2 io.usdValue)).getD 0)) := by
      intro e he
      obtain ⟨f, hf, hascii, hsym⟩ := hlow
      have et : e ++ " [" ++ tc ++ "] Transfer" = e ++ " " ++ ("[" ++ tc ++ "] Transfer") := by
        apply String.ext
        simp [String.data_append]
      have k1 := marker_adds_no_keyword f hascii hsym e ("[" ++ tc ++ "] Transfer") "install" he
        (Or.inl rfl)
      have k2 := marker_adds_no_keyword f hascii hsym e ("[" ++ tc ++ "] Transfer") "module" he
        (Or.inr (Or.inl rfl))
      have k3 := marker_adds_no_keyword f hascii hsym e ("[" ++ tc ++ "] Transfer") "diamondcut" he
        (Or.inr (Or.inr rfl))
      rw [← hf, ← hf] at k1 k2 k3
      apply transferBody_importance env ⟨f, hf, hascii, hsym⟩ _ _ _ _ _ _ _ _ _ hu
        p1 p2 p3 p4 p5 p6
      · exact title_has_Transfer _
      · rw [et, k1, k2]
        exact hkw
      · rw [et, k3]
        exact hdc
    by_cases hthr : (0 < io.usdValue ∧ usdThreshold env ≤ (env.parseFloat (formatFixed2 io.usdValue)).getD 0)
    · simp only [hthr, if_true]
      have := hfull "🔴" (Or.inl rfl)
      simpa [hthr] using this
    · simp only [hthr, if_false]
      have := hfull "🔵" (Or.inr rfl)
      simpa [hthr] using this
  · intro hpos
    have hd : decide (io.usdValue > 0) = false := decide_eq_false hpos
    rw [hd]
    exact transferBody_no_dollar _ _ _ _ _ _ _ _ p1 p2 p3 p4 p5 p6

/-! ## The body of a native transfer found by the block scanner -/

/-- The body the scanner writes is lower-cased to a quiet text. -/
theorem scanBody_quiet (f : Char → Char)
    (hascii : ∀ c : Char, c.val < 128 → f c = c.toLower)
    (hsym : ∀ c ∈ caselessSymbols, f c = c)
    (hash fromAddr toAddr valStr usdText dir status effGas stamp : String)
    (h1 : ∀ c ∈ hash.data, c ∈ plainAlphabet) (h2 : ∀ c ∈ fromAddr.data, c ∈ plainAlphabet)
    (h3 : ∀ c ∈ toAddr.data, c ∈ plainAlphabet) (h4 : ∀ c ∈ valStr.data, c ∈ plainAlphabet)
    (h5 : ∀ c ∈ usdText.data, c ∈ plainAlphabet)
    (hdir : dir = "internal" ∨ dir = "out" ∨ dir = "in")
    (hstatus : status = "success" ∨ status = "reverted" ∨ status = "")
    (heff : effGas = "" ∨ ∃ g : String, effGas = g ++ " gwei" ∧ ∀ c ∈ g.data, c ∈ plainAlphabet)
    (h6 : ∀ c ∈ stamp.data, c ∈ plainAlphabet) :
    quietText ((scanBodyText hash fromAddr toAddr valStr usdText dir status effGas stamp).data.map
      f) := by
  have q1 := (lower_plain f hascii _ h1).1
  have q2 := (lower_plain f hascii _ h2).1
  have q3 := (lower_plain f hascii _ h3).1
  have q4 := (lower_plain f hascii _ h4).1
  have q5 := (lower_plain f hascii _ h5).1
  have q6 := (lower_plain f hascii _ h6).1
  unfold scanBodyText
  rcases heff with rfl | ⟨g, rfl, hg⟩
  · rcases hdir with rfl | rfl | rfl <;> rcases hstatus with rfl | rfl | rfl <;>
      simp only [String.data_append, List.map_append] <;>
      repeat' apply quietText_append
    all_goals
      first
        | assumption
        | exact quietText_nil
        | exact lower_literal_quiet f hascii hsym _ (by decide) ⟨by decide, by decide⟩
  · have q7 := (lower_plain f hascii _ hg).1
    rcases hdir with rfl | rfl | rfl <;> rcases hstatus with rfl | rfl | rfl <;>
      simp only [String.data_append, List.map_append] <;>
      repeat' apply quietText_append
    all_goals
      first
        | assumption
        | exact quietText_nil
        | exact lower_literal_quiet f hascii hsym _ (by decide) ⟨by decide, by decide⟩

/-- In the body the scanner writes, `extractUSDFromBody` reads the amount of the
line of the dollar amount. -/
theorem scanBody_extract (env : Env)
    (hash fromAddr toAddr valStr usdText dir status effGas stamp : String)
    (h1 : ∀ c ∈ hash.data, c ∈ plainAlphabet) (h2 : ∀ c ∈ fromAddr.data, c ∈ plainAlphabet)
    (h3 : ∀ c ∈ toAddr.data, c ∈ plainAlphabet) (h4 : ∀ c ∈ valStr.data, c ∈ plainAlphabet)
    (husd : ∀ c ∈ usdText.data, c ∈ decimalAlphabet) (hne : usdText.data ≠ []) :
    extractUSDFromBody env
        (scanBodyText hash fromAddr toAddr valStr usdText dir status effGas stamp)
      = (env.parseFloat usdText).getD 0 := by
  have hpl : ∀ p : List Char, (∀ c ∈ p, c ∈ plainAlphabet) → '$' ∉ p := fun p hp h =>
    (plainAlphabet_plain '$' (hp '$' h)).2.2 rfl
  have q1 := hpl _ h1
  have q2 := hpl _ h2
  have q3 := hpl _ h3
  have q4 := hpl _ h4
  have e : scanBodyText hash fromAddr toAddr valStr usdText dir status effGas stamp
      = String.mk ((("📋 **Tx:** \x60" ++ hash ++ "\x60\n📤 **From:** \x60" ++ fromAddr
          ++ "\x60\n📥 **To:** \x60" ++ toAddr ++ "\x60\n💰 **Value:** \x60" ++ valStr
          ++ " ETH\x60\n💵 **USD:** \x60").data ++ ['~'])
          ++ '$' :: (usdText.data ++ ('\x60' :: ("\n🏷️ **Dir:** \x60" ++ dir
            ++ "\x60\n📊 **Status:** \x60" ++ status ++ "\x60\n⛽ **Gas:** \x60" ++ effGas
            ++ "\x60\n⏰ **Zaman:** \x60" ++ stamp ++ "\x60").data))) := by
    apply String.ext
    unfold scanBodyText
    simp [String.data_append]
  rw [e, extractUSD_at env _ _ _ ?_ ?_ hne ?_]
  · simp only [String.data_append]
    repeat' apply List.not_mem_append
    all_goals
      first
        | assumption
        | decide
  · intro c hc
    exact (by decide : ∀ c ∈ decimalAlphabet, (c.isDigit || c == '.') = true) c (husd c hc)
  · intro c hc
    simp only [List.head?_cons, Option.some.injEq] at hc
    rw [← hc]
    decide

/-- The rating of a scanner message: the amount as printed against the threshold. -/
theorem scanBody_importance (env : Env) (hlow : GoToLower env)
    (title hash fromAddr toAddr valStr dir status effGas stamp : String) (u : ℚ) (hu : 0 ≤ u)
    (ht : title = "[ETH] Transfer (ETH)" ∨ title = "🔴 [ETH] Transfer (ETH)"
      ∨ title = "🔵 [ETH] Transfer (ETH)")
    (h1 : ∀ c ∈ hash.data, c ∈ plainAlphabet) (h2 : ∀ c ∈ fromAddr.data, c ∈ plainAlphabet)
    (h3 : ∀ c ∈ toAddr.data, c ∈ plainAlphabet) (h4 : ∀ c ∈ valStr.data, c ∈ plainAlphabet)
    (hdir : dir = "internal" ∨ dir = "out" ∨ dir = "in")
    (hstatus : status = "success" ∨ status = "reverted" ∨ status = "")
    (heff : effGas = "" ∨ ∃ g : String, effGas = g ++ " gwei" ∧ ∀ c ∈ g.data, c ∈ plainAlphabet)
    (h6 : ∀ c ∈ stamp.data, c ∈ plainAlphabet) :
    determineImportance env title
        (scanBodyText hash fromAddr toAddr valStr (formatFixed2 u) dir status effGas stamp)
      = decide (usdThreshold env ≤ (env.parseFloat (formatFixed2 u)).getD 0) := by
  obtain ⟨f, hf, hascii, hsym⟩ := hlow
  obtain ⟨fch, fne, fval⟩ := formatFixed2_spec u hu
  have husd : ∀ c ∈ (formatFixed2 u).data, c ∈ plainAlphabet := fun c hc =>
    (by decide : ∀ c ∈ "0123456789.".data, c ∈ plainAlphabet) c (fch c hc)
  have hq := scanBody_quiet f hascii hsym hash fromAddr toAddr valStr (formatFixed2 u) dir
    status effGas stamp h1 h2 h3 h4 husd hdir hstatus heff h6
  have hmod : Contains (env.toLower
      (scanBodyText hash fromAddr toAddr valStr (formatFixed2 u) dir status effGas stamp))
      "module" = false := by
    generalize scanBodyText hash fromAddr toAddr valStr (formatFixed2 u) dir status effGas
      stamp = B at hq
    apply quietText_no_module
    rw [hf]
    exact hq
  have hlt : env.toLower title = asciiLower title := by
    rw [hf]
    unfold asciiLower
    congr 1
    apply lower_literal f hascii hsym
    rcases ht with rfl | rfl | rfl <;> decide
  have a : Contains (env.toLower title) "install" = false := by
    rw [hlt]
    rcases ht with rfl | rfl | rfl <;> decide
  have b : Contains (env.toLower title) "diamondcut" = false := by
    rw [hlt]
    rcases ht with rfl | rfl | rfl <;> decide
  have c : Contains title "Transfer" = true := by
    rcases ht with rfl | rfl | rfl <;> decide
  rw [determineImportance_eq, a, b, hmod, c,
    scanBody_extract env hash fromAddr toAddr valStr (formatFixed2 u) dir status effGas stamp
      h1 h2 h3 h4 fch fne]
  simp

/-! ## Transfers rated by the amount as printed -/

theorem roundCents_49996 : roundCents (49996 / 1000) = 5000 := by
  have hfl : ⌊(100 : ℚ) * (49996 / 1000)⌋ = 4999 := by
    rw [Int.floor_eq_iff]
    norm_num
  unfold roundCents
  simp only [hfl]
  norm_num

theorem formatFixed2_49996 : formatFixed2 (49996 / 1000) = "50.00" := by
  have hneg : ¬ ((49996 / 1000 : ℚ) < 0) := by norm_num
  unfold formatFixed2
  rw [abs_of_nonneg (by norm_num), roundCents_49996]
  simp only [hneg, if_false]
  decide

set_option maxRecDepth 100000 in
/-- C22 fails as stated: a transfer of 49.996 USDT to the watched wallet `mainApp`
is estimated at 49.996 dollars, below the threshold of 50; the body prints the
amount as `~$50.00`, `determineImportance` reads 50.00 back from the body, and the
event is emitted with the red marker and rated important. -/
theorem just_below_threshold_is_important :
    (49996 / 1000 : ℚ) < usdThreshold (refEnv 1 2)
    ∧ formatFixed2 (49996 / 1000) = "50.00"
    ∧ formatEventMessage (refEnv 1 2) sampleRegistry
        { stamp := "01.01.2025 12:00:00", now := 0, usdValue := 49996 / 1000,
          usdText := "50.00", addressHex := fun a => lowerHex a }
        { Address := 0xFd086bC7CD5C481DCC9C85ebE478A1C0b69FCbb9,
          Topics := [transferTopic, 1, mainApp],
          Data := List.replicate 28 0 ++ [2, 250, 224, 224], TxHash := 0xabc }
      = some ("🔴 [USDT] Transfer",
          "📋 **Tx:** \x600x0000000000000000000000000000000000000000000000000000000000000abc\x60\n📤 **From:** \x600x0000000000000000000000000000000000000001\x60\n📥 **To:** \x600x33381ec82dd811b1baba841f1e2410468aed7047\x60\n💰 **Value:** \x6049.996 USDT\x60\n💵 **USD:** \x60~$50.00\x60\n⏰ **Zaman:** \x6001.01.2025 12:00:00\x60")
    ∧ determineImportance (refEnv 1 2) "🔴 [USDT] Transfer"
        "📋 **Tx:** \x600x0000000000000000000000000000000000000000000000000000000000000abc\x60\n📤 **From:** \x600x0000000000000000000000000000000000000001\x60\n📥 **To:** \x600x33381ec82dd811b1baba841f1e2410468aed7047\x60\n💰 **Value:** \x6049.996 USDT\x60\n💵 **USD:** \x60~$50.00\x60\n⏰ **Zaman:** \x6001.01.2025 12:00:00\x60"
      = true := by
  have hd : decide ((49996 / 1000 : ℚ) > 0) = true := by
    rw [decide_eq_true_eq]
    norm_num
  have himp : ∀ title : String, Contains (asciiLower title) "install" = false →
      Contains (asciiLower title) "diamondcut" = false → Contains title "Transfer" = true →
      determineImportance (refEnv 1 2) title
        "📋 **Tx:** \x600x0000000000000000000000000000000000000000000000000000000000000abc\x60\n📤 **From:** \x600x0000000000000000000000000000000000000001\x60\n📥 **To:** \x600x33381ec82dd811b1baba841f1e2410468aed7047\x60\n💰 **Value:** \x6049.996 USDT\x60\n💵 **USD:** \x60~$50.00\x60\n⏰ **Zaman:** \x6001.01.2025 12:00:00\x60"
        = true := by
    intro title h1 h3 h4
    rw [determineImportance_refEnv_transfer 1 2 _ _ h1 (by decide) h3 h4]
    simp [extractUSDFromBody, refEnv, parseDecimal, digitsValue]
    norm_num
  refine ⟨?_, formatFixed2_49996, ?_, himp _ (by decide) (by decide) (by decide)⟩
  · rw [usdThreshold_refEnv]
    norm_num
  · rw [formatEventMessage_transfer (refEnv 1 2) sampleRegistry _ _ 1 mainApp [] rfl
      (Or.inr (by decide))]
    simp only [hd]
    have hb : transferBodyText (hashHex 0xabc) (lowerHex (topicAddress 1))
        (lowerHex (topicAddress mainApp))
        (formatTokenAmount ((if (List.replicate 28 0 ++ [2, 250, 224, 224] : List Nat).length
            ≥ 32 then bytesValue (List.replicate 28 0 ++ [2, 250, 224, 224]) else 0 : Nat) : Int)
          (getTokenDecimals 0xFd086bC7CD5C481DCC9C85ebE478A1C0b69FCbb9))
        (getAssetSymbol 0xFd086bC7CD5C481DCC9C85ebE478A1C0b69FCbb9) true "50.00"
        (isSpecialTransfer (topicAddress 1) (topicAddress mainApp)) "01.01.2025 12:00:00"
        = "📋 **Tx:** \x600x0000000000000000000000000000000000000000000000000000000000000abc\x60\n📤 **From:** \x600x0000000000000000000000000000000000000001\x60\n📥 **To:** \x600x33381ec82dd811b1baba841f1e2410468aed7047\x60\n💰 **Value:** \x6049.996 USDT\x60\n💵 **USD:** \x60~$50.00\x60\n⏰ **Zaman:** \x6001.01.2025 12:00:00\x60" := by
      decide
    have hs : getAssetSymbol 0xFd086bC7CD5C481DCC9C85ebE478A1C0b69FCbb9 = "USDT" := by decide
    rw [hb]
    simp only [hs]
    rw [himp _ (by decide) (by decide) (by decide)]
    decide

theorem roundCents_bound (x : ℚ) : |(roundCents x : ℚ) / 100 - x| ≤ 1 / 200 := by
  have h := roundCents_near x
  rw [abs_le] at h ⊢
  constructor <;> linarith [h.1, h.2]

theorem roundCents_100 : roundCents 100 = 10000 := by
  have hfl : ⌊(100 : ℚ) * 100⌋ = 10000 := by
    rw [Int.floor_eq_iff]
    norm_num
  unfold roundCents
  simp only [hfl]
  norm_num

theorem formatFixed2_100 : formatFixed2 100 = "100.00" := by
  have hneg : ¬ ((100 : ℚ) < 0) := by norm_num
  unfold formatFixed2
  rw [abs_of_nonneg (by norm_num), roundCents_100]
  simp only [hneg, if_false]
  decide

/-- C22 as amended: for every Transfer log with a watched side whose estimated
value `u ≥ 0` is printed in the body as `%.2f` prints it, and whose title category
does not bring the keywords `install` with `module`, or `diamondcut`, into the
title, `formatEventMessage` puts the red marker in the title exactly when `u > 0`
and the amount as printed, read back by `strconv.ParseFloat`, is at least the
threshold, and `determineImportance` rates the emitted title and body important
in exactly the same case.  The printed text is the numeral of `u` rounded to
hundredths, which differs from `u` by at most half a hundredth. -/
theorem transfer_rated_by_printed_amount (env : Env) (reg : Registry) (io : LogIO) (lg : Log)
    (t1 t2 : Nat) (rest : List Nat) (hlow : GoToLower env)
    (htop : lg.Topics = transferTopic :: t1 :: t2 :: rest)
    (hw : reg.WatchMap (lowerHex (topicAddress t1)) = true
      ∨ reg.WatchMap (lowerHex (topicAddress t2)) = true)
    (hu : 0 ≤ io.usdValue) (htext : io.usdText = formatFixed2 io.usdValue)
    (haddr : ∀ a, ∀ c ∈ (io.addressHex a).data, c ∈ hexAlphabet)
    (hstamp : ∀ c ∈ io.stamp.data, c ∈ stampAlphabet)
    (hkw : ¬ (Contains (env.toLower ("[" ++ (if getAssetSymbol lg.Address ≠ "" then
              getAssetSymbol lg.Address else GetCategoryLabel reg lg.Address) ++ "] Transfer"))
            "install" = true
          ∧ Contains (env.toLower ("[" ++ (if getAssetSymbol lg.Address ≠ "" then
              getAssetSymbol lg.Address else GetCategoryLabel reg lg.Address) ++ "] Transfer"))
            "module" = true))
    (hdc : Contains (env.toLower ("[" ++ (if getAssetSymbol lg.Address ≠ "" then
              getAssetSymbol lg.Address else GetCategoryLabel reg lg.Address) ++ "] Transfer"))
            "diamondcut" = false) :
    ∃ body,
      formatEventMessage env reg io lg
        = some ((if (0 < io.usdValue
                ∧ usdThreshold env ≤ (env.parseFloat (formatFixed2 io.usdValue)).getD 0)
              then "🔴" else "🔵")
            ++ " [" ++ (if getAssetSymbol lg.Address ≠ "" then getAssetSymbol lg.Address
                else GetCategoryLabel reg lg.Address) ++ "] Transfer", body)
      ∧ (determineImportance env
            ((if (0 < io.usdValue
                ∧ usdThreshold env ≤ (env.parseFloat (formatFixed2 io.usdValue)).getD 0)
              then "🔴" else "🔵")
              ++ " [" ++ (if getAssetSymbol lg.Address ≠ "" then getAssetSymbol lg.Address
                else GetCategoryLabel reg lg.Address) ++ "] Transfer") body = true
          ↔ (0 < io.usdValue
              ∧ usdThreshold env ≤ (env.parseFloat (formatFixed2 io.usdValue)).getD 0))
      ∧ parseDecimal (formatFixed2 io.usdValue) = some ((roundCents io.usdValue : ℚ) / 100)
      ∧ |(roundCents io.usdValue : ℚ) / 100 - io.usdValue| ≤ 1 / 200 := by
  obtain ⟨body, h1, h2, _⟩ := transfer_message env reg io lg t1 t2 rest hlow htop hw hu
    htext haddr hstamp hkw hdc
  refine ⟨body, h1, ?_, (formatFixed2_spec _ hu).2.2, roundCents_bound _⟩
  rw [h2]
  simp

/-- Witness of the amended C22: 100 USDT sent to the wallet `mainApp`. -/
theorem transfer_rated_by_printed_amount_witness :
    ∃ body,
      formatEventMessage (refEnv 1 2) sampleRegistry sampleTransferAnswers sampleTransfer
        = some ((if (0 < sampleTransferAnswers.usdValue
                ∧ usdThreshold (refEnv 1 2)
                  ≤ ((refEnv 1 2).parseFloat (formatFixed2 sampleTransferAnswers.usdValue)).getD 0)
              then "🔴" else "🔵")
            ++ " [" ++ (if getAssetSymbol sampleTransfer.Address ≠ "" then
                getAssetSymbol sampleTransfer.Address
                else GetCategoryLabel sampleRegistry sampleTransfer.Address) ++ "] Transfer", body)
      ∧ (determineImportance (refEnv 1 2)
            ((if (0 < sampleTransferAnswers.usdValue
                ∧ usdThreshold (refEnv 1 2)
                  ≤ ((refEnv 1 2).parseFloat (formatFixed2 sampleTransferAnswers.usdValue)).getD 0)
              then "🔴" else "🔵")
              ++ " [" ++ (if getAssetSymbol sampleTransfer.Address ≠ "" then
                getAssetSymbol sampleTransfer.Address
                else GetCategoryLabel sampleRegistry sampleTransfer.Address) ++ "] Transfer") body
            = true
          ↔ (0 < sampleTransferAnswers.usdValue
              ∧ usdThreshold (refEnv 1 2)
                ≤ ((refEnv 1 2).parseFloat (formatFixed2 sampleTransferAnswers.usdValue)).getD 0))
      ∧ parseDecimal (formatFixed2 sampleTransferAnswers.usdValue)
          = some ((roundCents sampleTransferAnswers.usdValue : ℚ) / 100)
      ∧ |(roundCents sampleTransferAnswers.usdValue : ℚ) / 100 - sampleTransferAnswers.usdValue|
          ≤ 1 / 200 :=
  transfer_rated_by_printed_amount (refEnv 1 2) sampleRegistry sampleTransferAnswers sampleTransfer
    1 mainApp [] ⟨Char.toLower, fun _ => rfl, fun _ _ => rfl, by decide⟩ rfl
    (Or.inr (by decide)) (by simp [sampleTransferAnswers]) formatFixed2_100.symm
    (fun a => lowerHex_chars a) (by decide) (by decide) (by decide)

/-! ## Native transfers -/

theorem getNativeUSDPrice_pos (env : Env) (nativeVar importantVar : String) :
    0 < getNativeUSDPrice env nativeVar importantVar := by
  unfold getNativeUSDPrice
  simp only []
  split
  · rename_i f hf
    split at hf
    · split at hf
      · split at hf
        · simp only [Option.some.injEq] at hf
          rw [← hf]
          assumption
        · simp at hf
      · simp at hf
    · simp at hf
  · split
    · rename_i f hf
      split at hf
      · split at hf
        · split at hf
          · simp only [Option.some.injEq] at hf
            rw [← hf]
            assumption
          · simp at hf
        · simp at hf
      · simp at hf
    · norm_num

theorem getNativeUSDPrice_refEnv (c1 c2 : Int) : getNativeUSDPrice (refEnv c1 c2) "" "" = 3000 := by
  simp [getNativeUSDPrice]

/-- The amount the scanner computes, as roundings of the exact quotient and
product. -/
theorem ethUSD_Float64 (price : ℚ) (value : Int) :
    (ethUSD price value).Float64
      = float64Round (roundToPrec (max (Nat.size value.natAbs) 64)
          (price * roundToPrec (max (Nat.size value.natAbs) 64) ((value : ℚ) / 10 ^ 18))) := by
  have e1 : max (max (Nat.size value.natAbs) 64) 53 = max (Nat.size value.natAbs) 64 := by
    omega
  have e2 : max 53 (max (Nat.size value.natAbs) 64) = max (Nat.size value.natAbs) 64 := by
    omega
  simp [ethUSD, BigFloat.Float64, BigFloat.Mul, BigFloat.Quo, BigFloat.SetInt,
    BigFloat.SetFloat64, e1, e2]

/-- The amount the scanner computes is not negative. -/
theorem ethUSD_nonneg (price : ℚ) (value : Int) (hp : 0 ≤ price) (hv : 0 ≤ value) :
    0 ≤ (ethUSD price value).Float64 := by
  rw [ethUSD_Float64]
  apply float64Round_nonneg
  apply roundToPrec_nonneg
  apply mul_nonneg hp
  apply roundToPrec_nonneg
  have : (0 : ℚ) ≤ (value : ℚ) := by exact_mod_cast hv
  positivity

/-- The amount the scanner computes is within the fraction `2 ^ (-52)` of
value × price / 10^18 (and `2 ^ (-1075)` more below the normal range). -/
theorem ethUSD_close (price : ℚ) (value : Int) (hp : 0 ≤ price) (hv : 0 ≤ value) :
    |(ethUSD price value).Float64 - price * ((value : ℚ) / 10 ^ 18)|
      ≤ price * ((value : ℚ) / 10 ^ 18) * 2 ^ (-52 : Int) + 2 ^ (-1075 : Int) := by
  have h0 : (0 : ℚ) ≤ (value : ℚ) / 10 ^ 18 := by
    have : (0 : ℚ) ≤ (value : ℚ) := by exact_mod_cast hv
    positivity
  have h := rounded_product_rel (max (Nat.size value.natAbs) 64) (le_max_right _ _)
    ((value : ℚ) / 10 ^ 18) price h0 hp true
  rw [ethUSD_Float64, mul_comm price ((value : ℚ) / 10 ^ 18)]
  simpa using h

/-- The amount `extractUSDFromBody` reads when the first dollar sign is followed by
a character that is neither a digit nor a dot. -/
theorem extractUSD_nothing_at (env : Env) (pre post : List Char) (hpre : '$' ∉ pre)
    (hpost : ∀ c, post.head? = some c → (c.isDigit || c == '.') = false) :
    extractUSDFromBody env (String.mk (pre ++ '$' :: post)) = 0 := by
  unfold extractUSDFromBody
  have h1 : (pre ++ '$' :: post).dropWhile (fun c => c != '$') = '$' :: post := by
    rw [List.dropWhile_append_of_pos]
    · simp
    · intro c hc
      have : c ≠ '$' := fun e => hpre (e ▸ hc)
      simpa using this
  have h2 : post.takeWhile (fun c => c.isDigit || c == '.') = [] := by
    cases post with
    | nil => rfl
    | cons c post =>
      have := hpost c rfl
      simp [List.takeWhile_cons, this]
  simp only [h1, h2]
  rfl

/-- The body the scanner writes for an infinite amount is lower-cased to a quiet
text. -/
theorem scanBody_quiet_inf (f : Char → Char)
    (hascii : ∀ c : Char, c.val < 128 → f c = c.toLower)
    (hsym : ∀ c ∈ caselessSymbols, f c = c)
    (hash fromAddr toAddr valStr dir status effGas stamp : String)
    (h1 : ∀ c ∈ hash.data, c ∈ plainAlphabet) (h2 : ∀ c ∈ fromAddr.data, c ∈ plainAlphabet)
    (h3 : ∀ c ∈ toAddr.data, c ∈ plainAlphabet) (h4 : ∀ c ∈ valStr.data, c ∈ plainAlphabet)
    (hdir : dir = "internal" ∨ dir = "out" ∨ dir = "in")
    (hstatus : status = "success" ∨ status = "reverted" ∨ status = "")
    (heff : effGas = "" ∨ ∃ g : String, effGas = g ++ " gwei" ∧ ∀ c ∈ g.data, c ∈ plainAlphabet)
    (h6 : ∀ c ∈ stamp.data, c ∈ plainAlphabet) :
    quietText ((scanBodyText hash fromAddr toAddr valStr "+Inf" dir status effGas stamp).data.map
      f) := by
  have q1 := (lower_plain f hascii _ h1).1
  have q2 := (lower_plain f hascii _ h2).1
  have q3 := (lower_plain f hascii _ h3).1
  have q4 := (lower_plain f hascii _ h4).1
  have q6 := (lower_plain f hascii _ h6).1
  unfold scanBodyText
  rcases heff with rfl | ⟨g, rfl, hg⟩
  · rcases hdir with rfl | rfl | rfl <;> rcases hstatus with rfl | rfl | rfl <;>
      simp only [String.data_append, List.map_append] <;>
      repeat' apply quietText_append
    all_goals
      first
        | assumption
        | exact quietText_nil
        | exact lower_literal_quiet f hascii hsym _ (by decide) ⟨by decide, by decide⟩
  · have q7 := (lower_plain f hascii _ hg).1
    rcases hdir with rfl | rfl | rfl <;> rcases hstatus with rfl | rfl | rfl <;>
      simp only [String.data_append, List.map_append] <;>
      repeat' apply quietText_append
    all_goals
      first
        | assumption
        | exact quietText_nil
        | exact lower_literal_quiet f hascii hsym _ (by decide) ⟨by decide, by decide⟩

/-- In the body the scanner writes for an infinite amount, `extractUSDFromBody`
finds no number after the dollar sign. -/
theorem scanBody_extract_inf (env : Env)
    (hash fromAddr toAddr valStr dir status effGas stamp : String)
    (h1 : ∀ c ∈ hash.data, c ∈ plainAlphabet) (h2 : ∀ c ∈ fromAddr.data, c ∈ plainAlphabet)
    (h3 : ∀ c ∈ toAddr.data, c ∈ plainAlphabet) (h4 : ∀ c ∈ valStr.data, c ∈ plainAlphabet) :
    extractUSDFromBody env
        (scanBodyText hash fromAddr toAddr valStr "+Inf" dir status effGas stamp) = 0 := by
  have hpl : ∀ p : List Char, (∀ c ∈ p, c ∈ plainAlphabet) → '$' ∉ p := fun p hp h =>
    (plainAlphabet_plain '$' (hp '$' h)).2.2 rfl
  have q1 := hpl _ h1
  have q2 := hpl _ h2
  have q3 := hpl _ h3
  have q4 := hpl _ h4
  have e : scanBodyText hash fromAddr toAddr valStr "+Inf" dir status effGas stamp
      = String.mk ((("📋 **Tx:** \x60" ++ hash ++ "\x60\n📤 **From:** \x60" ++ fromAddr
          ++ "\x60\n📥 **To:** \x60" ++ toAddr ++ "\x60\n💰 **Value:** \x60" ++ valStr
          ++ " ETH\x60\n💵 **USD:** \x60").data ++ ['~'])
          ++ '$' :: ("+Inf".data ++ ('\x60' :: ("\n🏷️ **Dir:** \x60" ++ dir
            ++ "\x60\n📊 **Status:** \x60" ++ status ++ "\x60\n⛽ **Gas:** \x60" ++ effGas
            ++ "\x60\n⏰ **Zaman:** \x60" ++ stamp ++ "\x60").data))) := by
    apply String.ext
    unfold scanBodyText
    simp [String.data_append]
  rw [e, extractUSD_nothing_at env _ _ ?_ ?_]
  · simp only [String.data_append]
    repeat' apply List.not_mem_append
    all_goals
      first
        | assumption
        | decide
  · intro c hc
    have : c = '+' := by
      simpa using hc.symm
    rw [this]
    decide

/-- The body the scanner writes is rated by the amount as printed, and an infinite
amount is rated not important. -/
theorem scanBody_rating (env : Env) (hlow : GoToLower env)
    (title hash fromAddr toAddr valStr dir status effGas stamp : String) (u : ℚ) (hu : 0 ≤ u)
    (ht : title = "[ETH] Transfer (ETH)" ∨ title = "🔴 [ETH] Transfer (ETH)"
      ∨ title = "🔵 [ETH] Transfer (ETH)")
    (h1 : ∀ c ∈ hash.data, c ∈ plainAlphabet) (h2 : ∀ c ∈ fromAddr.data, c ∈ plainAlphabet)
    (h3 : ∀ c ∈ toAddr.data, c ∈ plainAlphabet) (h4 : ∀ c ∈ valStr.data, c ∈ plainAlphabet)
    (hdir : dir = "internal" ∨ dir = "out" ∨ dir = "in")
    (hstatus : status = "success" ∨ status = "reverted" ∨ status = "")
    (heff : effGas = "" ∨ ∃ g : String, effGas = g ++ " gwei" ∧ ∀ c ∈ g.data, c ∈ plainAlphabet)
    (h6 : ∀ c ∈ stamp.data, c ∈ plainAlphabet) :
    determineImportance env title
        (scanBodyText hash fromAddr toAddr valStr
          (if u ≥ 2 ^ 1024 then "+Inf" else formatFixed2 u) dir status effGas stamp)
      = decide (u < 2 ^ 1024
          ∧ usdThreshold env ≤ (env.parseFloat (formatFixed2 u)).getD 0) := by
  by_cases hinf : u ≥ 2 ^ 1024
  · have hn : ¬ (u < 2 ^ 1024) := not_lt.mpr hinf
    simp only [hinf, if_true, hn, false_and, decide_False]
    obtain ⟨f, hf, hascii, hsym⟩ := hlow
    have hq := scanBody_quiet_inf f hascii hsym hash fromAddr toAddr valStr dir
      status effGas stamp h1 h2 h3 h4 hdir hstatus heff h6
    have hmod : Contains (env.toLower
        (scanBodyText hash fromAddr toAddr valStr "+Inf" dir status effGas stamp))
        "module" = false := by
      generalize scanBodyText hash fromAddr toAddr valStr "+Inf" dir status effGas
        stamp = B at hq
      apply quietText_no_module
      rw [hf]
      exact hq
    have hlt : env.toLower title = asciiLower title := by
      rw [hf]
      unfold asciiLower
      congr 1
      apply lower_literal f hascii hsym
      rcases ht with rfl | rfl | rfl <;> decide
    have a : Contains (env.toLower title) "install" = false := by
      rw [hlt]
      rcases ht with rfl | rfl | rfl <;> decide
    have b : Contains (env.toLower title) "diamondcut" = false := by
      rw [hlt]
      rcases ht with rfl | rfl | rfl <;> decide
    have c : Contains title "Transfer" = true := by
      rcases ht with rfl | rfl | rfl <;> decide
    rw [determineImportance_eq, a, b, hmod, c,
      scanBody_extract_inf env hash fromAddr toAddr valStr dir status effGas stamp h1 h2 h3 h4]
    have := usdThreshold_pos env
    simp [this]
  · have hn : u < 2 ^ 1024 := not_le.mp hinf
    simp only [hinf, if_false, hn, true_and]
    exact scanBody_importance env hlow title hash fromAddr toAddr valStr dir status effGas
      stamp u hu ht h1 h2 h3 h4 hdir hstatus heff h6

/-- The notification the scanner builds for a transaction with a positive value
and a watched side that was not seen lately. -/
theorem scanNativeTx_shape (env : Env) (reg : Registry) (nativeSeen : String → Option Int)
    (tx : ScannedTx) (io : ScanIO) (hv : 0 < tx.value)
    (hw : (decide (tx.toAddr ≠ "") && reg.WatchMap tx.toAddr) = true
      ∨ reg.WatchMap tx.fromAddr = true)
    (hseen : ∀ ts, nativeSeen tx.hash = some ts → ¬ (io.sinceNow - ts < nativeSeenTTL)) :
    ∃ dir status effGas : String,
      (dir = "internal" ∨ dir = "out" ∨ dir = "in")
      ∧ (status = "success" ∨ status = "reverted" ∨ status = "")
      ∧ (effGas = "" ∨ ∃ g : String, effGas = g ++ " gwei"
          ∧ ∃ r, tx.receipt = some r ∧ r.gasText = some g)
      ∧ (scanNativeTx env reg nativeSeen tx io).1
        = some ((if determineImportance env "[ETH] Transfer (ETH)"
              (scanBodyText tx.hash tx.fromAddr tx.toAddr tx.valStr
                (if (ethUSD (getNativeUSDPrice env io.nativeVar io.importantVar)
                    tx.value).Float64 ≥ 2 ^ 1024 then "+Inf"
                  else formatFixed2 (ethUSD (getNativeUSDPrice env io.nativeVar io.importantVar)
                    tx.value).Float64)
                dir status effGas io.stamp) = true then "🔴" else "🔵")
            ++ " [ETH] Transfer (ETH)",
          scanBodyText tx.hash tx.fromAddr tx.toAddr tx.valStr
            (if (ethUSD (getNativeUSDPrice env io.nativeVar io.importantVar)
                tx.value).Float64 ≥ 2 ^ 1024 then "+Inf"
              else formatFixed2 (ethUSD (getNativeUSDPrice env io.nativeVar io.importantVar)
                tx.value).Float64)
            dir status effGas io.stamp) := by
  have hv2 : ¬ (tx.value ≤ 0) := not_le.mpr hv
  have hw2 : (!(decide (tx.toAddr ≠ "") && reg.WatchMap tx.toAddr)
      && !reg.WatchMap tx.fromAddr) = false := by
    rcases hw with h | h
    · rw [h]
      rfl
    · rw [h]
      simp
  refine ⟨if (reg.WatchMap tx.fromAddr && (decide (tx.toAddr ≠ "") && reg.WatchMap tx.toAddr))
      = true then "internal" else if reg.WatchMap tx.fromAddr = true then "out" else "in",
    match tx.receipt with
      | some r => if r.Status = 1 then "success" else if r.Status = 0 then "reverted" else ""
      | none => "",
    match tx.receipt with
      | some r =>
        match r.gasText with
        | some g => g ++ " gwei"
        | none => ""
      | none => "", ?_, ?_, ?_, ?_⟩
  · split_ifs <;> simp
  · cases tx.receipt with
    | none => simp
    | some r =>
      simp only []
      split_ifs <;> simp
  · cases hr : tx.receipt with
    | none => simp
    | some r =>
      cases hg : r.gasText with
      | none =>
        left
        simp [hg]
      | some g =>
        right
        exact ⟨g, by simp [hg], r, rfl, hg⟩
  · unfold scanNativeTx
    simp only [hv2, if_false, hw2, Bool.false_eq_true, scanBodyText]
    cases hn : nativeSeen tx.hash with
    | none => simp only [Bool.false_eq_true, if_false]
    | some ts =>
      have := hseen ts hn
      simp only [this, decide_False, Bool.false_eq_true, if_false]

/-- The body the scanner writes contains the line of the dollar amount. -/
theorem scanBody_has_usd (hash fromAddr toAddr valStr usdText dir status effGas stamp : String) :
    Contains (scanBodyText hash fromAddr toAddr valStr usdText dir status effGas stamp)
      ("💵 **USD:** \x60~$" ++ usdText ++ "\x60") = true := by
  unfold Contains
  rw [containsChars_iff]
  refine ⟨("📋 **Tx:** \x60" ++ hash ++ "\x60\n📤 **From:** \x60" ++ fromAddr
      ++ "\x60\n📥 **To:** \x60" ++ toAddr ++ "\x60\n💰 **Value:** \x60" ++ valStr).data
      ++ " ETH\x60\n".data,
    ("\n🏷️ **Dir:** \x60" ++ dir ++ "\x60\n📊 **Status:** \x60" ++ status
      ++ "\x60\n⛽ **Gas:** \x60" ++ effGas ++ "\x60\n⏰ **Zaman:** \x60" ++ stamp
      ++ "\x60").data, ?_⟩
  unfold scanBodyText
  simp [String.data_append]

/-- The notification of the scanner, with its marker and rating. -/
theorem scan_message (env : Env) (reg : Registry) (nativeSeen : String → Option Int)
    (tx : ScannedTx) (io : ScanIO) (hlow : GoToLower env)
    (hv : 0 < tx.value)
    (hw : (decide (tx.toAddr ≠ "") && reg.WatchMap tx.toAddr) = true
      ∨ reg.WatchMap tx.fromAddr = true)
    (hseen : ∀ ts, nativeSeen tx.hash = some ts → ¬ (io.sinceNow - ts < nativeSeenTTL))
    (hhash : ∀ c ∈ tx.hash.data, c ∈ hexAlphabet)
    (hfrom : ∀ c ∈ tx.fromAddr.data, c ∈ hexAlphabet)
    (hto : ∀ c ∈ tx.toAddr.data, c ∈ hexAlphabet)
    (hval : ∀ c ∈ tx.valStr.data, c ∈ decimalAlphabet)
    (hgas : ∀ r g, tx.receipt = some r → r.gasText = some g →
      ∀ c ∈ g.data, c ∈ decimalAlphabet)
    (hstamp : ∀ c ∈ io.stamp.data, c ∈ stampAlphabet) :
    ∃ body,
      (scanNativeTx env reg nativeSeen tx io).1
        = some ((if ((ethUSD (getNativeUSDPrice env io.nativeVar io.importantVar)
                  tx.value).Float64 < 2 ^ 1024
                ∧ usdThreshold env ≤ (env.parseFloat (formatFixed2
                    (ethUSD (getNativeUSDPrice env io.nativeVar io.importantVar)
                      tx.value).Float64)).getD 0) then "🔴" else "🔵")
            ++ " [ETH] Transfer (ETH)", body)
      ∧ determineImportance env
          ((if ((ethUSD (getNativeUSDPrice env io.nativeVar io.importantVar)
                  tx.value).Float64 < 2 ^ 1024
                ∧ usdThreshold env ≤ (env.parseFloat (formatFixed2
                    (ethUSD (getNativeUSDPrice env io.nativeVar io.importantVar)
                      tx.value).Float64)).getD 0) then "🔴" else "🔵")
            ++ " [ETH] Transfer (ETH)") body
        = decide ((ethUSD (getNativeUSDPrice env io.nativeVar io.importantVar)
                  tx.value).Float64 < 2 ^ 1024
                ∧ usdThreshold env ≤ (env.parseFloat (formatFixed2
                    (ethUSD (getNativeUSDPrice env io.nativeVar io.importantVar)
                      tx.value).Float64)).getD 0)
      ∧ Contains body ("💵 **USD:** \x60~$"
          ++ (if (ethUSD (getNativeUSDPrice env io.nativeVar io.importantVar)
                tx.value).Float64 ≥ 2 ^ 1024 then "+Inf"
              else formatFixed2 (ethUSD (getNativeUSDPrice env io.nativeVar io.importantVar)
                tx.value).Float64) ++ "\x60") = true := by
  have hhex : ∀ c ∈ hexAlphabet, c ∈ plainAlphabet := by decide
  have hdec : ∀ c ∈ decimalAlphabet, c ∈ plainAlphabet := by decide
  have hst : ∀ c ∈ stampAlphabet, c ∈ plainAlphabet := by decide
  have hu : 0 ≤ (ethUSD (getNativeUSDPrice env io.nativeVar io.importantVar)
      tx.value).Float64 :=
    ethUSD_nonneg _ _ (le_of_lt (getNativeUSDPrice_pos env io.nativeVar io.importantVar))
      (le_of_lt hv)
  obtain ⟨dir, status, effGas, hdir, hstatus, heff, hshape⟩ :=
    scanNativeTx_shape env reg nativeSeen tx io hv hw hseen
  have heff2 : effGas = "" ∨ ∃ g : String, effGas = g ++ " gwei"
      ∧ ∀ c ∈ g.data, c ∈ plainAlphabet := by
    rcases heff with h | ⟨g, hg, r, hr, hrg⟩
    · exact Or.inl h
    · exact Or.inr ⟨g, hg, fun c hc => hdec c (hgas r g hr hrg c hc)⟩
  have himp := fun (title : String) (ht : title = "[ETH] Transfer (ETH)"
      ∨ title = "🔴 [ETH] Transfer (ETH)" ∨ title = "🔵 [ETH] Transfer (ETH)") =>
    scanBody_rating env hlow title tx.hash tx.fromAddr tx.toAddr tx.valStr dir
      status effGas io.stamp _ hu ht (fun c hc => hhex c (hhash c hc))
      (fun c hc => hhex c (hfrom c hc)) (fun c hc => hhex c (hto c hc))
      (fun c hc => hdec c (hval c hc)) hdir hstatus heff2 (fun c hc => hst c (hstamp c hc))
  rw [himp _ (Or.inl rfl)] at hshape
  simp only [decide_eq_true_eq] at hshape
  refine ⟨_, hshape, ?_, scanBody_has_usd _ _ _ _ _ _ _ _ _⟩
  by_cases hthr : ((ethUSD (getNativeUSDPrice env io.nativeVar io.importantVar)
                  tx.value).Float64 < 2 ^ 1024
                ∧ usdThreshold env ≤ (env.parseFloat (formatFixed2
                    (ethUSD (getNativeUSDPrice env io.nativeVar io.importantVar)
                      tx.value).Float64)).getD 0)
  · have h := himp ("🔴" ++ " [ETH] Transfer (ETH)") (Or.inr (Or.inl (by decide)))
    simpa only [hthr, if_true] using h
  · have h := himp ("🔵" ++ " [ETH] Transfer (ETH)") (Or.inr (Or.inr (by decide)))
    simpa only [hthr, if_false] using h

/-- The amount the scanner computes for 0.0166654 ether at a price of 3000. -/
theorem ethUSD_just_below :
    (ethUSD 3000 16665400000000000).Float64 = 3518169807655325 / 70368744177664 := by
  have hs : Nat.size (16665400000000000 : Int).natAbs = 54 :=
    size_eq _ 53 (by norm_num) (by norm_num)
  have q1 : roundToPrec 64 (((16665400000000000 : Int) : ℚ) / 10 ^ 18)
      = (9837515797951973168 : Int) * 2 ^ ((-6 : Int) + 1 - (64 : Nat)) := by
    apply roundToPrec_eq <;> norm_num
  have q2 : roundToPrec 64 (3000 * ((9837515797951973168 : Int) * 2 ^ ((-6 : Int) + 1 - (64 : Nat))))
      = (14410423532156210695 : Int) * 2 ^ ((5 : Int) + 1 - (64 : Nat)) := by
    apply roundToPrec_eq <;> norm_num
  have q3 : float64Round ((14410423532156210695 : Int) * 2 ^ ((5 : Int) + 1 - (64 : Nat)))
      = (7036339615310650 : Int) * 2 ^ ((5 : Int) - 52) := by
    apply float64Round_eq <;> norm_num
  rw [ethUSD_Float64, hs, show max 54 64 = 64 from rfl, q1, q2, q3]
  norm_num

theorem roundCents_scan_just_below :
    roundCents (3518169807655325 / 70368744177664) = 5000 := by
  have hfl : ⌊(100 : ℚ) * (3518169807655325 / 70368744177664)⌋ = 4999 := by
    rw [Int.floor_eq_iff]
    norm_num
  unfold roundCents
  simp only [hfl]
  norm_num

theorem formatFixed2_scan_just_below :
    formatFixed2 (3518169807655325 / 70368744177664) = "50.00" := by
  have hneg : ¬ ((3518169807655325 / 70368744177664 : ℚ) < 0) := by norm_num
  unfold formatFixed2
  rw [abs_of_nonneg (by norm_num), roundCents_scan_just_below]
  simp only [hneg, if_false]
  decide

/-- The amount the scanner computes for 0.016665 ether at a price of 3000 is the
`float64` just below 49.995, which `%.2f` prints as `49.99`. -/
theorem ethUSD_prints_49_99 :
    (ethUSD 3000 16665000000000000).Float64 = 7036170730324623 / 140737488355328
    ∧ (7036170730324623 / 140737488355328 : ℚ) < 49995 / 1000
    ∧ formatFixed2 (ethUSD 3000 16665000000000000).Float64 = "49.99" := by
  have hs : Nat.size (16665000000000000 : Int).natAbs = 54 :=
    size_eq _ 53 (by norm_num) (by norm_num)
  have q1 : roundToPrec 64 (((16665000000000000 : Int) : ℚ) / 10 ^ 18)
      = (9837279679627829686 : Int) * 2 ^ ((-6 : Int) + 1 - (64 : Nat)) := by
    apply roundToPrec_eq <;> norm_num
  have q2 : roundToPrec 64
      (3000 * ((9837279679627829686 : Int) * 2 ^ ((-6 : Int) + 1 - (64 : Nat))))
      = (14410077655704828642 : Int) * 2 ^ ((5 : Int) + 1 - (64 : Nat)) := by
    apply roundToPrec_eq <;> norm_num
  have q3 : float64Round ((14410077655704828642 : Int) * 2 ^ ((5 : Int) + 1 - (64 : Nat)))
      = (7036170730324623 : Int) * 2 ^ ((5 : Int) - 52) := by
    apply float64Round_eq <;> norm_num
  have e : (ethUSD 3000 16665000000000000).Float64
      = 7036170730324623 / 140737488355328 := by
    rw [ethUSD_Float64, hs, show max 54 64 = 64 from rfl, q1, q2, q3]
    norm_num
  have hfl : ⌊(100 : ℚ) * (7036170730324623 / 140737488355328)⌋ = 4999 := by
    rw [Int.floor_eq_iff]
    norm_num
  have hc : roundCents (7036170730324623 / 140737488355328) = 4999 := by
    unfold roundCents
    simp only [hfl]
    norm_num
  have hneg : ¬ ((7036170730324623 / 140737488355328 : ℚ) < 0) := by norm_num
  refine ⟨e, by norm_num, ?_⟩
  rw [e]
  unfold formatFixed2
  rw [abs_of_nonneg (by norm_num), hc]
  simp only [hneg, if_false]
  decide

set_option maxRecDepth 100000 in
/-- C21 fails as stated, on two counts.  On the log-triggered path a transfer of
100 ether to the watched wallet `mainApp`, worth 300000 dollars at the default
price of 3000, gets a body without any dollar amount and the blue marker, and
`determineImportance` rates it not important.  On the scanner path a transfer of
0.0166654 ether, worth 49.9962 dollars, below the threshold of 50, has its amount
printed as `~$50.00` and is rated important from that text. -/
theorem native_transfer_rating_off :
    (tryBuildNativeTransferNotification sampleRegistry (fun _ => none)
        { Address := mainApp, Topics := [approvalTopic], Data := [], TxHash := 0xabc }
        { sinceNow := 0, storeNow := 0, stamp := "01.01.2025 12:00:00",
          tx := some { value := 100000000000000000000, recipient := some mainApp,
                       sender := some 5, valStr := "100.000000" } }).1
      = some ("🔵 [ETH] Transfer (ETH)",
          "📋 **Tx:** \x600x0000000000000000000000000000000000000000000000000000000000000abc\x60\n📤 **From:** \x600x0000000000000000000000000000000000000005\x60\n📥 **To:** \x600x33381ec82dd811b1baba841f1e2410468aed7047\x60\n💰 **Value:** \x60100.000000 ETH\x60\n🏷️ **Dir:** \x60in\x60\n⏰ **Zaman:** \x6001.01.2025 12:00:00\x60")
    ∧ determineImportance (refEnv 1 2) "🔵 [ETH] Transfer (ETH)"
        "📋 **Tx:** \x600x0000000000000000000000000000000000000000000000000000000000000abc\x60\n📤 **From:** \x600x0000000000000000000000000000000000000005\x60\n📥 **To:** \x600x33381ec82dd811b1baba841f1e2410468aed7047\x60\n💰 **Value:** \x60100.000000 ETH\x60\n🏷️ **Dir:** \x60in\x60\n⏰ **Zaman:** \x6001.01.2025 12:00:00\x60"
      = false
    ∧ usdThreshold (refEnv 1 2)
        ≤ getNativeUSDPrice (refEnv 1 2) "" "" * ((100000000000000000000 : ℚ) / 10 ^ 18)
    ∧ getNativeUSDPrice (refEnv 1 2) "" "" * ((16665400000000000 : ℚ) / 10 ^ 18)
        < usdThreshold (refEnv 1 2)
    ∧ (ethUSD (getNativeUSDPrice (refEnv 1 2) "" "") 16665400000000000).Float64
        < usdThreshold (refEnv 1 2)
    ∧ ∃ body,
        (scanNativeTx (refEnv 1 2) sampleRegistry (fun _ => none)
          { hash := hashHex 0xabc, value := 16665400000000000, fromAddr := lowerHex 5,
            toAddr := lowerHex mainApp, valStr := "0.016665", receipt := none }
          sampleScanIO).1
          = some ("🔴 [ETH] Transfer (ETH)", body)
        ∧ Contains body "💵 **USD:** \x60~$50.00\x60" = true
        ∧ determineImportance (refEnv 1 2) "🔴 [ETH] Transfer (ETH)" body = true := by
  have hp := getNativeUSDPrice_refEnv 1 2
  have ht := usdThreshold_refEnv 1 2
  refine ⟨by decide, ?_, ?_, ?_, ?_, ?_⟩
  · rw [determineImportance_refEnv_transfer 1 2 _ _ (by decide) (by decide) (by decide)
      (by decide), extractUSDFromBody_no_dollar _ _ (by decide)]
    simp
  · rw [hp, ht]
    norm_num
  · rw [hp, ht]
    norm_num
  · rw [hp, ht, ethUSD_just_below]
    norm_num
  · obtain ⟨body, h1, h2, h3⟩ := scan_message (refEnv 1 2) sampleRegistry (fun _ => none)
      { hash := hashHex 0xabc, value := 16665400000000000, fromAddr := lowerHex 5,
        toAddr := lowerHex mainApp, valStr := "0.016665", receipt := none }
      sampleScanIO ⟨Char.toLower, fun _ => rfl, fun _ _ => rfl, by decide⟩
      (by decide) (Or.inl (by decide)) (fun ts h => by simp at h) (by decide) (by decide)
      (by decide) (by decide) (fun r g h => by simp at h) (by decide)
    have e : (ethUSD (getNativeUSDPrice (refEnv 1 2) sampleScanIO.nativeVar
        sampleScanIO.importantVar) 16665400000000000).Float64
        = 3518169807655325 / 70368744177664 := by
      have e0 : getNativeUSDPrice (refEnv 1 2) sampleScanIO.nativeVar sampleScanIO.importantVar
          = 3000 := hp
      rw [e0, ethUSD_just_below]
    have hfin : ((3518169807655325 / 70368744177664 : ℚ) < 2 ^ 1024) := by norm_num
    have hge : ¬ ((3518169807655325 / 70368744177664 : ℚ) ≥ 2 ^ 1024) := not_le.mpr hfin
    have hparse : ((refEnv 1 2).parseFloat "50.00").getD 0 = 50 := by
      simp [refEnv, parseDecimal, digitsValue]
      norm_num
    dsimp only at h1 h2 h3
    rw [e] at h1 h2 h3
    simp only [formatFixed2_scan_just_below, hparse, ht, hfin, le_refl, and_self, if_true,
      decide_True, hge, if_false] at h1 h2 h3
    exact ⟨body, h1, h3, h2⟩

/-- C21 as amended: for every native transfer the block scanner reports (on the
typed and on the raw path: a positive value, a watched sender or recipient, a hash
not seen within the last ten minutes), the notification gets the red marker, and
`determineImportance` rates the emitted title and body important, exactly when
the amount the scanner computes for value × native USD price / 10^18, a `float64`,
is finite and its text with two decimals, as printed in the body and read back by
`strconv.ParseFloat`, is at least the threshold.  The amount is not negative and
within the fraction `2 ^ (-52)` of value × price / 10^18 (and `2 ^ (-1075)` more
below the normal range); when it is finite the printed text is the numeral of
the amount rounded to hundredths, which differs from it by at most half a
hundredth.  The hash, the addresses, the value text, the gas text and the time
stamp are taken to be hexadecimal, decimal and time-stamp text. -/
theorem scanner_rated_by_printed_amount (env : Env) (reg : Registry)
    (nativeSeen : String → Option Int) (tx : ScannedTx) (io : ScanIO)
    (hlow : GoToLower env) (hv : 0 < tx.value)
    (hw : (decide (tx.toAddr ≠ "") && reg.WatchMap tx.toAddr) = true
      ∨ reg.WatchMap tx.fromAddr = true)
    (hseen : ∀ ts, nativeSeen tx.hash = some ts → ¬ (io.sinceNow - ts < nativeSeenTTL))
    (hhash : ∀ c ∈ tx.hash.data, c ∈ hexAlphabet)
    (hfrom : ∀ c ∈ tx.fromAddr.data, c ∈ hexAlphabet)
    (hto : ∀ c ∈ tx.toAddr.data, c ∈ hexAlphabet)
    (hval : ∀ c ∈ tx.valStr.data, c ∈ decimalAlphabet)
    (hgas : ∀ r g, tx.receipt = some r → r.gasText = some g →
      ∀ c ∈ g.data, c ∈ decimalAlphabet)
    (hstamp : ∀ c ∈ io.stamp.data, c ∈ stampAlphabet) :
    ∃ body,
      (scanNativeTx env reg nativeSeen tx io).1
        = some ((if ((ethUSD (getNativeUSDPrice env io.nativeVar io.importantVar)
                  tx.value).Float64 < 2 ^ 1024
                ∧ usdThreshold env ≤ (env.parseFloat (formatFixed2
                    (ethUSD (getNativeUSDPrice env io.nativeVar io.importantVar)
                      tx.value).Float64)).getD 0) then "🔴" else "🔵")
            ++ " [ETH] Transfer (ETH)", body)
      ∧ (determineImportance env
          ((if ((ethUSD (getNativeUSDPrice env io.nativeVar io.importantVar)
                  tx.value).Float64 < 2 ^ 1024
                ∧ usdThreshold env ≤ (env.parseFloat (formatFixed2
                    (ethUSD (getNativeUSDPrice env io.nativeVar io.importantVar)
                      tx.value).Float64)).getD 0) then "🔴" else "🔵")
            ++ " [ETH] Transfer (ETH)") body = true
        ↔ ((ethUSD (getNativeUSDPrice env io.nativeVar io.importantVar)
                  tx.value).Float64 < 2 ^ 1024
                ∧ usdThreshold env ≤ (env.parseFloat (formatFixed2
                    (ethUSD (getNativeUSDPrice env io.nativeVar io.importantVar)
                      tx.value).Float64)).getD 0))
      ∧ Contains body ("💵 **USD:** \x60~$"
          ++ (if (ethUSD (getNativeUSDPrice env io.nativeVar io.importantVar)
                tx.value).Float64 ≥ 2 ^ 1024 then "+Inf"
              else formatFixed2 (ethUSD (getNativeUSDPrice env io.nativeVar io.importantVar)
                tx.value).Float64) ++ "\x60") = true
      ∧ 0 ≤ (ethUSD (getNativeUSDPrice env io.nativeVar io.importantVar) tx.value).Float64
      ∧ parseDecimal (formatFixed2
            (ethUSD (getNativeUSDPrice env io.nativeVar io.importantVar) tx.value).Float64)
          = some ((roundCents
            (ethUSD (getNativeUSDPrice env io.nativeVar io.importantVar) tx.value).Float64 : ℚ)
              / 100)
      ∧ |(roundCents
            (ethUSD (getNativeUSDPrice env io.nativeVar io.importantVar) tx.value).Float64 : ℚ)
              / 100
          - (ethUSD (getNativeUSDPrice env io.nativeVar io.importantVar) tx.value).Float64|
        ≤ 1 / 200
      ∧ |(ethUSD (getNativeUSDPrice env io.nativeVar io.importantVar) tx.value).Float64
          - getNativeUSDPrice env io.nativeVar io.importantVar * ((tx.value : ℚ) / 10 ^ 18)|
        ≤ getNativeUSDPrice env io.nativeVar io.importantVar * ((tx.value : ℚ) / 10 ^ 18)
            * 2 ^ (-52 : Int) + 2 ^ (-1075 : Int) := by
  obtain ⟨body, h1, h2, h3⟩ := scan_message env reg nativeSeen tx io hlow hv hw hseen
    hhash hfrom hto hval hgas hstamp
  have hu : 0 ≤ (ethUSD (getNativeUSDPrice env io.nativeVar io.importantVar)
      tx.value).Float64 :=
    ethUSD_nonneg _ _ (le_of_lt (getNativeUSDPrice_pos env io.nativeVar io.importantVar))
      (le_of_lt hv)
  refine ⟨body, h1, ?_, h3, hu, (formatFixed2_spec _ hu).2.2, roundCents_bound _,
    ethUSD_close _ _ (le_of_lt (getNativeUSDPrice_pos env io.nativeVar io.importantVar))
      (le_of_lt hv)⟩
  rw [h2]
  simp

/-- Witness of the amended C21: 0.1 ether sent to the wallet `mainApp`. -/
theorem scanner_rated_by_printed_amount_witness :
    ∃ body,
      (scanNativeTx (refEnv 1 2) sampleRegistry (fun _ => none) sampleScannedTx sampleScanIO).1
        = some ((if ((ethUSD (getNativeUSDPrice (refEnv 1 2) sampleScanIO.nativeVar
                  sampleScanIO.importantVar) sampleScannedTx.value).Float64 < 2 ^ 1024
                ∧ usdThreshold (refEnv 1 2) ≤ ((refEnv 1 2).parseFloat (formatFixed2
                    (ethUSD (getNativeUSDPrice (refEnv 1 2) sampleScanIO.nativeVar
                      sampleScanIO.importantVar) sampleScannedTx.value).Float64)).getD 0)
              then "🔴" else "🔵")
            ++ " [ETH] Transfer (ETH)", body)
      ∧ (determineImportance (refEnv 1 2)
          ((if ((ethUSD (getNativeUSDPrice (refEnv 1 2) sampleScanIO.nativeVar
                  sampleScanIO.importantVar) sampleScannedTx.value).Float64 < 2 ^ 1024
                ∧ usdThreshold (refEnv 1 2) ≤ ((refEnv 1 2).parseFloat (formatFixed2
                    (ethUSD (getNativeUSDPrice (refEnv 1 2) sampleScanIO.nativeVar
                      sampleScanIO.importantVar) sampleScannedTx.value).Float64)).getD 0)
              then "🔴" else "🔵")
            ++ " [ETH] Transfer (ETH)") body = true
        ↔ ((ethUSD (getNativeUSDPrice (refEnv 1 2) sampleScanIO.nativeVar
                  sampleScanIO.importantVar) sampleScannedTx.value).Float64 < 2 ^ 1024
                ∧ usdThreshold (refEnv 1 2) ≤ ((refEnv 1 2).parseFloat (formatFixed2
                    (ethUSD (getNativeUSDPrice (refEnv 1 2) sampleScanIO.nativeVar
                      sampleScanIO.importantVar) sampleScannedTx.value).Float64)).getD 0))
      ∧ Contains body ("💵 **USD:** \x60~$"
          ++ (if (ethUSD (getNativeUSDPrice (refEnv 1 2) sampleScanIO.nativeVar
                sampleScanIO.importantVar) sampleScannedTx.value).Float64 ≥ 2 ^ 1024 then "+Inf"
              else formatFixed2 (ethUSD (getNativeUSDPrice (refEnv 1 2) sampleScanIO.nativeVar
                sampleScanIO.importantVar) sampleScannedTx.value).Float64) ++ "\x60") = true
      ∧ 0 ≤ (ethUSD (getNativeUSDPrice (refEnv 1 2) sampleScanIO.nativeVar
            sampleScanIO.importantVar) sampleScannedTx.value).Float64
      ∧ parseDecimal (formatFixed2
            (ethUSD (getNativeUSDPrice (refEnv 1 2) sampleScanIO.nativeVar
              sampleScanIO.importantVar) sampleScannedTx.value).Float64)
          = some ((roundCents
            (ethUSD (getNativeUSDPrice (refEnv 1 2) sampleScanIO.nativeVar
              sampleScanIO.importantVar) sampleScannedTx.value).Float64 : ℚ) / 100)
      ∧ |(roundCents
            (ethUSD (getNativeUSDPrice (refEnv 1 2) sampleScanIO.nativeVar
              sampleScanIO.importantVar) sampleScannedTx.value).Float64 : ℚ) / 100
          - (ethUSD (getNativeUSDPrice (refEnv 1 2) sampleScanIO.nativeVar
              sampleScanIO.importantVar) sampleScannedTx.value).Float64|
        ≤ 1 / 200
      ∧ |(ethUSD (getNativeUSDPrice (refEnv 1 2) sampleScanIO.nativeVar
              sampleScanIO.importantVar) sampleScannedTx.value).Float64
          - getNativeUSDPrice (refEnv 1 2) sampleScanIO.nativeVar sampleScanIO.importantVar
              * ((sampleScannedTx.value : ℚ) / 10 ^ 18)|
        ≤ getNativeUSDPrice (refEnv 1 2) sampleScanIO.nativeVar sampleScanIO.importantVar
              * ((sampleScannedTx.value : ℚ) / 10 ^ 18) * 2 ^ (-52 : Int)
            + 2 ^ (-1075 : Int) :=
  scanner_rated_by_printed_amount (refEnv 1 2) sampleRegistry (fun _ => none) sampleScannedTx
    sampleScanIO ⟨Char.toLower, fun _ => rfl, fun _ _ => rfl, by decide⟩
    (by decide) (Or.inl (by decide)) (fun ts h => by simp at h) (by decide) (by decide)
    (by decide) (by decide)
    (fun r g hr hg => by
      simp only [sampleScannedTx, Option.some.injEq] at hr
      subst hr
      simp only [Option.some.injEq] at hg
      subst hg
      decide)
    (by decide)

/-! ## The cap on the estimated value -/

theorem getTokenDecimals_le (a : Nat) : ¬ (getTokenDecimals a > 30) := by
  unfold getTokenDecimals tokenDecimals
  split_ifs <;> decide

/-- The estimate of an amount at a price, as roundings of the exact quotient and
product. -/
theorem usdFloat64_valueFloat (value decimals : Int) (price : ℚ) :
    usdFloat64 (valueFloat value decimals) price
      = float64Round (roundToPrec (max (Nat.size value.natAbs) 64)
          (roundToPrec (max (Nat.size value.natAbs) 64) ((value : ℚ) / Pow10 decimals)
            * price)) := by
  have e0 : max (Nat.size value.natAbs) 64 ≠ 0 := by omega
  have e1 : max (max (Nat.size value.natAbs) 64) 53 = max (Nat.size value.natAbs) 64 := by
    omega
  simp [usdFloat64, valueFloat, BigFloat.Float64, BigFloat.Mul, BigFloat.Quo, BigFloat.SetInt,
    BigFloat.SetFloat64, e0, e1]

/-- The estimate of an amount that is not negative, at a price that is not
negative, is not negative. -/
theorem usdFloat64_nonneg (value decimals : Int) (price : ℚ) (hv : 0 ≤ value)
    (hp : 0 ≤ price) : 0 ≤ usdFloat64 (valueFloat value decimals) price := by
  rw [usdFloat64_valueFloat]
  apply float64Round_nonneg
  apply roundToPrec_nonneg
  apply mul_nonneg _ hp
  apply roundToPrec_nonneg
  have h1 : (0 : ℚ) ≤ (value : ℚ) := by exact_mod_cast hv
  have h2 : (0 : ℚ) ≤ Pow10 decimals := by
    unfold Pow10
    apply float64Round_nonneg
    positivity
  exact div_nonneg h1 h2

/-- The result of `estimateUSDValue` is 0, or the estimate of the amount at a
positive price, and then at most the cap. -/
theorem estimateUSDValue_cases (st : OracleState) (value : Int) (tokenAddr : Nat)
    (w1 w2 w3 : FetchWorld) :
    (estimateUSDValue st value tokenAddr w1 w2 w3).1 = 0
    ∨ ∃ p : ℚ, 0 < p
        ∧ (estimateUSDValue st value tokenAddr w1 w2 w3).1
          = usdFloat64 (valueFloat value (getTokenDecimals tokenAddr)) p
        ∧ usdFloat64 (valueFloat value (getTokenDecimals tokenAddr)) p ≤ 1000000 := by
  unfold estimateUSDValue
  lift_lets
  extract_lets addr r1 price1 decimals0 decimals vf usd1 r2 check1 r3 check2
  have hdec : decimals = getTokenDecimals tokenAddr := by
    simp only [decimals, decimals0, getTokenDecimals_le, if_false]
  by_cases h0 : r1.price ≤ 0 ∧ isUSDCAddress addr = false
  · left
    simp only [h0, and_self, if_true]
  · have hp1 : 0 < price1 := by
      simp only [price1]
      split_ifs with h
      · norm_num
      · exact not_le.mp h
    have hc1 : ∃ p : ℚ, 0 < p ∧ check1.1 = usdFloat64 vf p := by
      simp only [check1]
      split_ifs with a b
      · exact ⟨_, b, rfl⟩
      · exact ⟨price1, hp1, rfl⟩
      · exact ⟨price1, hp1, rfl⟩
    have hc2 : ∃ p : ℚ, 0 < p ∧ check2.1 = usdFloat64 vf p := by
      obtain ⟨p1, hp, he⟩ := hc1
      simp only [check2]
      split_ifs with a b
      · exact ⟨_, b, rfl⟩
      · exact ⟨p1, hp, he⟩
      · exact ⟨p1, hp, he⟩
    obtain ⟨p2, hp, he⟩ := hc2
    simp only [h0, if_false]
    by_cases hcap : check2.1 > 1000000
    · left
      simp only [hcap, if_true]
    · right
      simp only [hcap, if_false]
      refine ⟨p2, hp, ?_, ?_⟩
      · rw [he]
        simp only [vf, hdec]
      · have : usdFloat64 vf p2 ≤ 1000000 := by
          rw [← he]
          exact not_lt.mp hcap
        simpa only [vf, hdec] using this

/-- With an oracle that answers the same positive price at every fetch of the
call, the result is the estimate of the amount at that price, or 0 when the
estimate exceeds the cap. -/
theorem estimateUSDValue_steady (st : OracleState) (value : Int) (tokenAddr : Nat)
    (w1 w2 w3 : FetchWorld) (p : ℚ) (hp : 0 < p)
    (h1 : (fetchTokenUSDPrice st (lowerHex tokenAddr) w1).price = p)
    (h2 : (fetchTokenUSDPrice (fetchTokenUSDPrice st (lowerHex tokenAddr) w1).state
        (lowerHex tokenAddr) w2).price = p)
    (h3 : isStablecoin (lowerHex tokenAddr) = true →
      (fetchTokenUSDPrice (fetchTokenUSDPrice st (lowerHex tokenAddr) w1).state
        (lowerHex tokenAddr) w3).price = p)
    (h4 : isStablecoin (lowerHex tokenAddr) = true →
      (fetchTokenUSDPrice (fetchTokenUSDPrice (fetchTokenUSDPrice st (lowerHex tokenAddr)
        w1).state (lowerHex tokenAddr) w2).state (lowerHex tokenAddr) w3).price = p) :
    (estimateUSDValue st value tokenAddr w1 w2 w3).1
      = if usdFloat64 (valueFloat value (getTokenDecimals tokenAddr)) p > 1000000 then 0
        else usdFloat64 (valueFloat value (getTokenDecimals tokenAddr)) p := by
  unfold estimateUSDValue
  lift_lets
  extract_lets addr r1 price1 decimals0 decimals vf usd1 r2 check1 r3 check2
  have hdec : decimals = getTokenDecimals tokenAddr := by
    simp only [decimals, decimals0, getTokenDecimals_le, if_false]
  have hr1 : r1.price = p := h1
  have hr2 : r2.price = p := h2
  have hn : ¬ (r1.price ≤ 0) := by
    rw [hr1]
    exact not_le.mpr hp
  have hprice1 : price1 = p := by
    simp only [price1, hr1, not_le.mpr hp, if_false]
  have hc1 : check1.1 = usdFloat64 vf p := by
    simp only [check1, usd1, hprice1, hr2, hp, gt_iff_lt, if_true]
    split_ifs <;> rfl
  have hr3 : isStablecoin addr = true → r3.price = p := by
    intro hs
    simp only [r3, check1]
    split_ifs <;> first | exact h4 hs | exact h3 hs
  have hc2 : check2.1 = usdFloat64 vf p := by
    simp only [check2]
    split_ifs with a b
    · rw [hr3 a.1]
    · exact absurd (hr3 a.1 ▸ hp : 0 < r3.price) b
    · exact hc1
  have h0 : ¬ (r1.price ≤ 0 ∧ isUSDCAddress addr = false) := fun h => hn h.1
  simp only [h0, if_false, hc2]
  have hvf : vf = valueFloat value (getTokenDecimals tokenAddr) := by
    simp only [vf, hdec]
  rw [← hvf]
  split_ifs with a
  · rfl
  · exact hc2

/-- A Transfer body written without the line of the dollar amount does not depend
on the amount text. -/
theorem transferBody_without_usd (tx src dst amount sym x y stamp : String) (special : Bool) :
    transferBodyText tx src dst amount sym false x special stamp
      = transferBodyText tx src dst amount sym false y special stamp := by
  simp [transferBodyText]

/-- Go `math.Pow10(18)` is `10 ^ 18`. -/
theorem Pow10_18 : Pow10 18 = 10 ^ 18 := by
  unfold Pow10
  rw [show (18 : Int).toNat = 18 from rfl,
    float64Round_eq ((10 : ℚ) ^ 18) 59 7812500000000000 (by norm_num) (by norm_num)
      (by norm_num) (by norm_num) (by norm_num)]
  norm_num

/-- Go `math.Pow10(6)` is `10 ^ 6`. -/
theorem Pow10_6 : Pow10 6 = 10 ^ 6 := by
  unfold Pow10
  rw [show (6 : Int).toNat = 6 from rfl,
    float64Round_eq ((10 : ℚ) ^ 6) 19 8589934592000000 (by norm_num) (by norm_num)
      (by norm_num) (by norm_num) (by norm_num)]
  norm_num

/-- Go `math.Pow10(8)` is `10 ^ 8`. -/
theorem Pow10_8 : Pow10 8 = 10 ^ 8 := by
  unfold Pow10
  rw [show (8 : Int).toNat = 8 from rfl,
    float64Round_eq ((10 : ℚ) ^ 8) 26 6710886400000000 (by norm_num) (by norm_num)
      (by norm_num) (by norm_num) (by norm_num)]
  norm_num

/-- For the decimals of every token, `math.Pow10` is the exact power of ten. -/
theorem Pow10_getTokenDecimals (a : Nat) :
    Pow10 (getTokenDecimals a) = 10 ^ (getTokenDecimals a).toNat := by
  unfold getTokenDecimals tokenDecimals
  split_ifs
  · exact Pow10_6
  · exact Pow10_18
  · exact Pow10_8
  · exact Pow10_6
  · exact Pow10_6
  · exact Pow10_18
  · exact Pow10_18

/-- The estimate of an amount at a price is within the fraction `2 ^ (-52)` of
value × price / 10^decimals (and `2 ^ (-1075)` more below the normal range). -/
theorem usdFloat64_close (value : Int) (tokenAddr : Nat) (price : ℚ) (hv : 0 ≤ value)
    (hp : 0 ≤ price) :
    |usdFloat64 (valueFloat value (getTokenDecimals tokenAddr)) price
        - (value : ℚ) / 10 ^ (getTokenDecimals tokenAddr).toNat * price|
      ≤ (value : ℚ) / 10 ^ (getTokenDecimals tokenAddr).toNat * price * 2 ^ (-52 : Int)
        + 2 ^ (-1075 : Int) := by
  have h0 : (0 : ℚ) ≤ (value : ℚ) / 10 ^ (getTokenDecimals tokenAddr).toNat := by
    have : (0 : ℚ) ≤ (value : ℚ) := by exact_mod_cast hv
    positivity
  have h := rounded_product_rel (max (Nat.size value.natAbs) 64) (le_max_right _ _)
    ((value : ℚ) / 10 ^ (getTokenDecimals tokenAddr).toNat) price h0 hp false
  rw [usdFloat64_valueFloat, Pow10_getTokenDecimals]
  simpa using h

/-- An exact product that exceeds the cap by more than the fraction `2 ^ (-51)`
has an estimate above the cap. -/
theorem usdFloat64_over_cap (value : Int) (tokenAddr : Nat) (price : ℚ) (hv : 0 ≤ value)
    (hp : 0 ≤ price)
    (hbig : 1000000 * (1 + 2 ^ (-51 : Int))
      ≤ (value : ℚ) / 10 ^ (getTokenDecimals tokenAddr).toNat * price) :
    usdFloat64 (valueFloat value (getTokenDecimals tokenAddr)) price > 1000000 := by
  have h := usdFloat64_close value tokenAddr price hv hp
  have c51 : (2 : ℚ) ^ (-51 : Int) = 1 / 2251799813685248 := by norm_num
  have c52 : (2 : ℚ) ^ (-52 : Int) = 1 / 4503599627370496 := by norm_num
  have d : (2 : ℚ) ^ (-1075 : Int) ≤ 2 ^ (-64 : Int) :=
    zpow_le_zpow_right₀ (by norm_num) (by norm_num)
  have c64 : (2 : ℚ) ^ (-64 : Int) = 1 / 18446744073709551616 := by norm_num
  rw [c51] at hbig
  rw [c52] at h
  rw [c64] at d
  generalize (2 : ℚ) ^ (-1075 : Int) = dl at h d
  rw [abs_le] at h
  linarith [h.1]

/-- One WETH at 2000000 is estimated at 2000000. -/
theorem usdFloat64_one_at_2000000 :
    usdFloat64 (valueFloat 1000000000000000000 18) 2000000 = 2000000 := by
  have hs : Nat.size (1000000000000000000 : Int).natAbs = 60 :=
    size_eq _ 59 (by norm_num) (by norm_num)
  have q1 : roundToPrec 64 (((1000000000000000000 : Int) : ℚ) / 10 ^ 18)
      = (9223372036854775808 : Int) * 2 ^ ((0 : Int) + 1 - (64 : Nat)) := by
    apply roundToPrec_eq <;> norm_num
  have q2 : roundToPrec 64
      ((9223372036854775808 : Int) * 2 ^ ((0 : Int) + 1 - (64 : Nat)) * 2000000)
      = (17592186044416000000 : Int) * 2 ^ ((20 : Int) + 1 - (64 : Nat)) := by
    apply roundToPrec_eq <;> norm_num
  have q3 : float64Round ((17592186044416000000 : Int) * 2 ^ ((20 : Int) + 1 - (64 : Nat)))
      = (8589934592000000 : Int) * 2 ^ ((20 : Int) - 52) := by
    apply float64Round_eq <;> norm_num
  rw [usdFloat64_valueFloat, hs, show max 60 64 = 64 from rfl, Pow10_18, q1, q2, q3]
  norm_num

/-- One WETH at 2500 is estimated at 2500. -/
theorem usdFloat64_one_at_2500 :
    usdFloat64 (valueFloat 1000000000000000000 18) 2500 = 2500 := by
  have hs : Nat.size (1000000000000000000 : Int).natAbs = 60 :=
    size_eq _ 59 (by norm_num) (by norm_num)
  have q1 : roundToPrec 64 (((1000000000000000000 : Int) : ℚ) / 10 ^ 18)
      = (9223372036854775808 : Int) * 2 ^ ((0 : Int) + 1 - (64 : Nat)) := by
    apply roundToPrec_eq <;> norm_num
  have q2 : roundToPrec 64
      ((9223372036854775808 : Int) * 2 ^ ((0 : Int) + 1 - (64 : Nat)) * 2500)
      = (11258999068426240000 : Int) * 2 ^ ((11 : Int) + 1 - (64 : Nat)) := by
    apply roundToPrec_eq <;> norm_num
  have q3 : float64Round ((11258999068426240000 : Int) * 2 ^ ((11 : Int) + 1 - (64 : Nat)))
      = (5497558138880000 : Int) * 2 ^ ((11 : Int) - 52) := by
    apply float64Round_eq <;> norm_num
  rw [usdFloat64_valueFloat, hs, show max 60 64 = 64 from rfl, Pow10_18, q1, q2, q3]
  norm_num

/-- The estimate of 400 WETH and one wei at 2500: the amount is a `big.Float` of 69
bits, the quotient is rounded to `400 + 2 ^ (-60)`, the product to
`1000000 + 2 ^ (-49)`, and the `float64` of that is 1000000. -/
theorem usdFloat64_400_and_one_wei :
    usdFloat64 (valueFloat 400000000000000000001 18) 2500 = 1000000 := by
  have hs : Nat.size (400000000000000000001 : Int).natAbs = 69 :=
    size_eq _ 68 (by norm_num) (by norm_num)
  have q1 : roundToPrec 69 (((400000000000000000001 : Int) : ℚ) / 10 ^ 18)
      = (461168601842738790401 : Int) * 2 ^ ((8 : Int) + 1 - (69 : Nat)) := by
    apply roundToPrec_eq <;> norm_num
  have q2 : roundToPrec 69
      ((461168601842738790401 : Int) * 2 ^ ((8 : Int) + 1 - (69 : Nat)) * 2500)
      = (562949953421312000001 : Int) * 2 ^ ((19 : Int) + 1 - (69 : Nat)) := by
    apply roundToPrec_eq <;> norm_num
  have q3 : float64Round ((562949953421312000001 : Int) * 2 ^ ((19 : Int) + 1 - (69 : Nat)))
      = (8589934592000000 : Int) * 2 ^ ((19 : Int) - 52) := by
    apply float64Round_eq <;> norm_num
  rw [usdFloat64_valueFloat, hs, show max 69 64 = 69 from rfl, Pow10_18, q1, q2, q3]
  norm_num

/-- When the first estimate exceeds the cap and the token is no stablecoin, the
result is the estimate at the price of the second fetch, or 0 when that exceeds
the cap. -/
theorem estimateUSDValue_second_price (st : OracleState) (value : Int) (tokenAddr : Nat)
    (w1 w2 w3 : FetchWorld) (p1 p2 : ℚ) (hp1 : 0 < p1) (hp2 : 0 < p2)
    (h1 : (fetchTokenUSDPrice st (lowerHex tokenAddr) w1).price = p1)
    (h2 : (fetchTokenUSDPrice (fetchTokenUSDPrice st (lowerHex tokenAddr) w1).state
        (lowerHex tokenAddr) w2).price = p2)
    (hs : isStablecoin (lowerHex tokenAddr) = false)
    (hbig : usdFloat64 (valueFloat value (getTokenDecimals tokenAddr)) p1 > 1000000) :
    (estimateUSDValue st value tokenAddr w1 w2 w3).1
      = if usdFloat64 (valueFloat value (getTokenDecimals tokenAddr)) p2 > 1000000 then 0
        else usdFloat64 (valueFloat value (getTokenDecimals tokenAddr)) p2 := by
  unfold estimateUSDValue
  lift_lets
  extract_lets addr r1 price1 decimals0 decimals vf usd1 r2 check1 r3 check2
  have hdec : decimals = getTokenDecimals tokenAddr := by
    simp only [decimals, decimals0, getTokenDecimals_le, if_false]
  have hvf : vf = valueFloat value (getTokenDecimals tokenAddr) := by
    simp only [vf, hdec]
  have hr1 : r1.price = p1 := h1
  have hr2 : r2.price = p2 := h2
  have hn : ¬ (r1.price ≤ 0) := by
    rw [hr1]
    exact not_le.mpr hp1
  have hprice1 : price1 = p1 := by
    simp only [price1, hr1, not_le.mpr hp1, if_false]
  have hu1 : usd1 > 1000000 := by
    simp only [usd1, hprice1, hvf]
    exact hbig
  have hc1 : check1.1 = usdFloat64 vf p2 := by
    simp only [check1, hu1, if_true, hr2, hp2, gt_iff_lt]
  have hs2 : ¬ (isStablecoin addr = true ∧ check1.1 > 100 ∧ check1.1 < 1000) := by
    intro h
    have : isStablecoin addr = false := hs
    rw [this] at h
    exact absurd h.1 (by decide)
  have hc2 : check2.1 = usdFloat64 vf p2 := by
    simp only [check2, hs2, if_false]
    exact hc1
  have h0 : ¬ (r1.price ≤ 0 ∧ isUSDCAddress addr = false) := fun h => hn h.1
  simp only [h0, if_false, hc2]
  rw [← hvf]
  split_ifs with a
  · rfl
  · exact hc2

set_option maxRecDepth 100000 in
/-- C28 fails as stated, on three counts.  For one WETH, a first price of 2000000
gives an estimate above the cap; the first check fetches the price again, the
cache lifetime being 0 (as with `TOKEN_PRICE_CACHE_TTL=0.01`), and gets 2500: the
result is 2500, not 0.  For 400 WETH and one wei at a price of 2500 at every
fetch, the exact product exceeds 1000000, but the `float64` the code compares
with the cap is 1000000, and that is the result, not 0.  And a transfer whose
estimate is 0, of a token without a symbol whose contract is labelled
`Module Installer`, is emitted with the red marker and rated important. -/
theorem estimate_over_cap_not_zero :
    (fetchTokenUSDPrice
        { tokenPriceCache := fun _ => none,
          limiter := { lastRequestTime := 0, requestCount := 0 } }
        (lowerHex 0x82aF49447D8a07e3bd95BD0d56f35241523fBab1)
        { ttl := 0, sinceNow := 0, limiterNow := 0, storeNow := 0,
          dexScreener := 2000000, coinGecko := 0 }).price = 2000000
    ∧ ((1000000000000000000 : Int) : ℚ)
        / 10 ^ (getTokenDecimals 0x82aF49447D8a07e3bd95BD0d56f35241523fBab1).toNat * 2000000
        > 1000000
    ∧ (estimateUSDValue
        { tokenPriceCache := fun _ => none,
          limiter := { lastRequestTime := 0, requestCount := 0 } }
        1000000000000000000 0x82aF49447D8a07e3bd95BD0d56f35241523fBab1
        { ttl := 0, sinceNow := 0, limiterNow := 0, storeNow := 0,
          dexScreener := 2000000, coinGecko := 0 }
        { ttl := 0, sinceNow := 0, limiterNow := 0, storeNow := 0,
          dexScreener := 2500, coinGecko := 0 }
        { ttl := 0, sinceNow := 0, limiterNow := 0, storeNow := 0,
          dexScreener := 2500, coinGecko := 0 }).1 = 2500
    ∧ getTokenPriceTTL (refEnv 1 2) "0.01" = some 0
    ∧ ((400000000000000000001 : Int) : ℚ)
        / 10 ^ (getTokenDecimals 0x82aF49447D8a07e3bd95BD0d56f35241523fBab1).toNat * 2500
        > 1000000
    ∧ (estimateUSDValue
        { tokenPriceCache := fun _ => none,
          limiter := { lastRequestTime := 0, requestCount := 0 } }
        400000000000000000001 0x82aF49447D8a07e3bd95BD0d56f35241523fBab1
        { ttl := 30000000000, sinceNow := 5, limiterNow := 5, storeNow := 5,
          dexScreener := 2500, coinGecko := 0 }
        { ttl := 30000000000, sinceNow := 6, limiterNow := 6, storeNow := 6,
          dexScreener := 2500, coinGecko := 0 }
        { ttl := 30000000000, sinceNow := 7, limiterNow := 7, storeNow := 7,
          dexScreener := 2500, coinGecko := 0 }).1 = 1000000
    ∧ (formatEventMessage (refEnv 1 2)
        { sampleRegistry with AddressCategory := fun _ => some "Module Installer" }
        sampleIO
        { Address := 0x1234, Topics := [transferTopic, 1, mainApp],
          Data := List.replicate 31 0 ++ [7], TxHash := 0xabc }).map Prod.fst
      = some "🔴 [Module Installer] Transfer" := by
  have hk : lowerHex 0x82aF49447D8a07e3bd95BD0d56f35241523fBab1
      = "0x82af49447d8a07e3bd95bd0d56f35241523fbab1" := by decide
  have hd : getTokenDecimals 0x82aF49447D8a07e3bd95BD0d56f35241523fBab1 = 18 := by decide
  refine ⟨?_, ?_, ?_, ?_, ?_, ?_, ?_⟩
  · rw [hk]
    simp [fetchTokenUSDPrice, fetchFromMultipleSources, isRateLimited, minute, isStablecoin,
      tokenSymbols]
  · rw [hd]
    have e18 : (18 : Int).toNat = 18 := rfl
    rw [e18]
    norm_num
  · rw [estimateUSDValue_second_price _ _ _ _ _ _ 2000000 2500 (by norm_num) (by norm_num)
      (by rw [hk]; simp [fetchTokenUSDPrice, fetchFromMultipleSources, isRateLimited, minute,
        isStablecoin, tokenSymbols])
      (by rw [hk]; simp [fetchTokenUSDPrice, fetchFromMultipleSources, isRateLimited, minute,
        isStablecoin, tokenSymbols])
      (by rw [hk]; decide)
      (by rw [hd, usdFloat64_one_at_2000000]; norm_num), hd, usdFloat64_one_at_2500]
    norm_num
  · have p0 : (refEnv 1 2).parseFloat "0.01" = some (1 / 100) := by
      simp [refEnv, parseDecimal, digitsValue]
      norm_num
    have r0 : float64Round ((1 / 100 : ℚ) * 60)
        = (5404319552844595 : Int) * 2 ^ ((-1 : Int) - 52) := by
      apply float64Round_eq <;> norm_num
    have f0 : ⌊float64Round ((1 / 100 : ℚ) * 60)⌋ = 0 := by
      rw [r0, Int.floor_eq_iff]
      norm_num
    have hpos : ((1 : ℚ) / 100 > 0) := by norm_num
    have hlt : ¬ ((1 : ℚ) / 100 ≥ 1) := by norm_num
    unfold getTokenPriceTTL
    rw [p0]
    simp only [hpos, hlt, if_true, if_false, f0]
    decide
  · rw [hd]
    have e18 : (18 : Int).toNat = 18 := rfl
    rw [e18]
    norm_num
  · rw [estimateUSDValue_steady _ _ _ _ _ _ 2500 (by norm_num)
      (by rw [hk]; simp [fetchTokenUSDPrice, fetchFromMultipleSources, isRateLimited, minute,
        isStablecoin, tokenSymbols])
      (by rw [hk]; simp [fetchTokenUSDPrice, fetchFromMultipleSources, isRateLimited, minute,
        isStablecoin, tokenSymbols])
      (fun h => absurd h (by rw [hk]; decide))
      (fun h => absurd h (by rw [hk]; decide)), hd, usdFloat64_400_and_one_wei]
    norm_num
  · have hs : getAssetSymbol 0x1234 = "" := by decide
    have himp : ∀ B : String,
        determineImportance (refEnv 1 2) ("[" ++ "Module Installer" ++ "] Transfer") B = true := by
      intro B
      have a : Contains ((refEnv 1 2).toLower ("[" ++ "Module Installer" ++ "] Transfer"))
          "install" = true := by decide
      have b : Contains ((refEnv 1 2).toLower ("[" ++ "Module Installer" ++ "] Transfer"))
          "module" = true := by decide
      rw [determineImportance_eq, a, b]
      rfl
    rw [formatEventMessage_transfer _ _ _ _ 1 mainApp [] rfl (Or.inr (by decide))]
    simp only [Option.map_some', hs, ne_eq, not_true_eq_false, if_false, GetCategoryLabel,
      GetAddressCategory, himp, if_true]
    decide

/-- C28 as amended: for every amount `value ≥ 0`, every token address and every
answer of the oracle, the result of `estimateUSDValue` lies between 0 and 1000000
inclusive; when the oracle answers the same positive price `p` at every fetch of
the call, the result is the `float64` the code computes for
`value × p / 10^decimals` (quotient and product as `big.Float` values of the
precision of the amount, then `Float64()`), or 0 when that `float64` exceeds
1000000; the `float64` is within the fraction `2 ^ (-52)` of the exact product
(and `2 ^ (-1075)` more below the normal range), so the result is 0 whenever the
exact product exceeds 1000000 by more than the fraction `2 ^ (-51)`; and a
Transfer with a watched side whose estimate is 0 gets a body without a dollar
sign and the blue marker, and is rated not important, provided the title
category does not bring the keywords `install` with `module`, or `diamondcut`,
into the title. -/
theorem estimate_capped :
    (∀ (st : OracleState) (value : Int) (tokenAddr : Nat) (w1 w2 w3 : FetchWorld),
      0 ≤ value →
      0 ≤ (estimateUSDValue st value tokenAddr w1 w2 w3).1
      ∧ (estimateUSDValue st value tokenAddr w1 w2 w3).1 ≤ 1000000)
    ∧ (∀ (st : OracleState) (value : Int) (tokenAddr : Nat) (w1 w2 w3 : FetchWorld) (p : ℚ),
      0 ≤ value → 0 < p →
      (fetchTokenUSDPrice st (lowerHex tokenAddr) w1).price = p →
      (fetchTokenUSDPrice (fetchTokenUSDPrice st (lowerHex tokenAddr) w1).state
        (lowerHex tokenAddr) w2).price = p →
      (isStablecoin (lowerHex tokenAddr) = true →
        (fetchTokenUSDPrice (fetchTokenUSDPrice st (lowerHex tokenAddr) w1).state
          (lowerHex tokenAddr) w3).price = p) →
      (isStablecoin (lowerHex tokenAddr) = true →
        (fetchTokenUSDPrice (fetchTokenUSDPrice (fetchTokenUSDPrice st (lowerHex tokenAddr)
          w1).state (lowerHex tokenAddr) w2).state (lowerHex tokenAddr) w3).price = p) →
      (estimateUSDValue st value tokenAddr w1 w2 w3).1
        = (if usdFloat64 (valueFloat value (getTokenDecimals tokenAddr)) p > 1000000 then 0
          else usdFloat64 (valueFloat value (getTokenDecimals tokenAddr)) p)
      ∧ |usdFloat64 (valueFloat value (getTokenDecimals tokenAddr)) p
          - (value : ℚ) / 10 ^ (getTokenDecimals tokenAddr).toNat * p|
        ≤ (value : ℚ) / 10 ^ (getTokenDecimals tokenAddr).toNat * p * 2 ^ (-52 : Int)
          + 2 ^ (-1075 : Int)
      ∧ (1000000 * (1 + 2 ^ (-51 : Int))
          ≤ (value : ℚ) / 10 ^ (getTokenDecimals tokenAddr).toNat * p →
        (estimateUSDValue st value tokenAddr w1 w2 w3).1 = 0))
    ∧ (∀ (env : Env) (reg : Registry) (io : LogIO) (lg : Log) (t1 t2 : Nat) (rest : List Nat),
      GoToLower env →
      lg.Topics = transferTopic :: t1 :: t2 :: rest →
      (reg.WatchMap (lowerHex (topicAddress t1)) = true
        ∨ reg.WatchMap (lowerHex (topicAddress t2)) = true) →
      io.usdValue = 0 →
      (∀ a, ∀ c ∈ (io.addressHex a).data, c ∈ hexAlphabet) →
      (∀ c ∈ io.stamp.data, c ∈ stampAlphabet) →
      ¬ (Contains (env.toLower ("[" ++ (if getAssetSymbol lg.Address ≠ "" then
              getAssetSymbol lg.Address else GetCategoryLabel reg lg.Address) ++ "] Transfer"))
            "install" = true
          ∧ Contains (env.toLower ("[" ++ (if getAssetSymbol lg.Address ≠ "" then
              getAssetSymbol lg.Address else GetCategoryLabel reg lg.Address) ++ "] Transfer"))
            "module" = true) →
      Contains (env.toLower ("[" ++ (if getAssetSymbol lg.Address ≠ "" then
              getAssetSymbol lg.Address else GetCategoryLabel reg lg.Address) ++ "] Transfer"))
            "diamondcut" = false →
      ∃ body,
        formatEventMessage env reg io lg
          = some ("🔵" ++ " [" ++ (if getAssetSymbol lg.Address ≠ "" then
              getAssetSymbol lg.Address else GetCategoryLabel reg lg.Address) ++ "] Transfer",
              body)
        ∧ '$' ∉ body.data
        ∧ determineImportance env ("🔵" ++ " [" ++ (if getAssetSymbol lg.Address ≠ "" then
              getAssetSymbol lg.Address else GetCategoryLabel reg lg.Address) ++ "] Transfer")
            body = false) := by
  refine ⟨?_, ?_, ?_⟩
  · intro st value tokenAddr w1 w2 w3 hv
    rcases estimateUSDValue_cases st value tokenAddr w1 w2 w3 with h | ⟨p, hp, he, hle⟩
    · rw [h]
      norm_num
    · rw [he]
      exact ⟨usdFloat64_nonneg _ _ _ hv (le_of_lt hp), hle⟩
  · intro st value tokenAddr w1 w2 w3 p hv hp h1 h2 h3 h4
    have e := estimateUSDValue_steady st value tokenAddr w1 w2 w3 p hp h1 h2 h3 h4
    refine ⟨e, usdFloat64_close value tokenAddr p hv (le_of_lt hp), ?_⟩
    intro hbig
    rw [e, if_pos (usdFloat64_over_cap value tokenAddr p hv (le_of_lt hp) hbig)]
  · intro env reg io lg t1 t2 rest hlow htop hw hz haddr hstamp hkw hdc
    have hz2 : (({ io with usdText := formatFixed2 0 } : LogIO)).usdValue = 0 := hz
    have hsame : formatEventMessage env reg io lg
        = formatEventMessage env reg { io with usdText := formatFixed2 0 } lg := by
      rw [formatEventMessage_transfer env reg io lg t1 t2 rest htop hw,
        formatEventMessage_transfer env reg { io with usdText := formatFixed2 0 } lg t1 t2 rest
          htop hw]
      have hd : decide (io.usdValue > 0) = false := by
        rw [hz]
        simp
      simp only [hd]
      rw [transferBody_without_usd _ _ _ _ _ io.usdText (formatFixed2 0)]
    obtain ⟨body, h1, h2, h3⟩ := transfer_message env reg { io with usdText := formatFixed2 0 }
      lg t1 t2 rest hlow htop hw (le_of_eq hz2.symm)
      (by show formatFixed2 0 = formatFixed2 io.usdValue; rw [hz]) haddr hstamp hkw hdc
    have hthr : ¬ (0 < io.usdValue
        ∧ usdThreshold env ≤ (env.parseFloat (formatFixed2 io.usdValue)).getD 0) := by
      rw [hz]
      simp
    dsimp only at h1 h2 h3
    simp only [hthr, if_false, decide_False] at h1 h2
    refine ⟨body, ?_, h3 (by rw [hz]; norm_num), h2⟩
    rw [hsame]
    exact h1

/-- Witness of the amended C28: 1000 units of WETH with an empty cache and a
quote of 2500. -/
theorem estimate_capped_witness :
    0 ≤ (estimateUSDValue
        { tokenPriceCache := fun _ => none,
          limiter := { lastRequestTime := 0, requestCount := 0 } }
        1000 0x82aF49447D8a07e3bd95BD0d56f35241523fBab1
        { ttl := 30000000000, sinceNow := 5, limiterNow := 5, storeNow := 5,
          dexScreener := 2500, coinGecko := 0 }
        { ttl := 30000000000, sinceNow := 6, limiterNow := 6, storeNow := 6,
          dexScreener := 2500, coinGecko := 0 }
        { ttl := 30000000000, sinceNow := 7, limiterNow := 7, storeNow := 7,
          dexScreener := 2500, coinGecko := 0 }).1
    ∧ (estimateUSDValue
        { tokenPriceCache := fun _ => none,
          limiter := { lastRequestTime := 0, requestCount := 0 } }
        1000 0x82aF49447D8a07e3bd95BD0d56f35241523fBab1
        { ttl := 30000000000, sinceNow := 5, limiterNow := 5, storeNow := 5,
          dexScreener := 2500, coinGecko := 0 }
        { ttl := 30000000000, sinceNow := 6, limiterNow := 6, storeNow := 6,
          dexScreener := 2500, coinGecko := 0 }
        { ttl := 30000000000, sinceNow := 7, limiterNow := 7, storeNow := 7,
          dexScreener := 2500, coinGecko := 0 }).1 ≤ 1000000 :=
  estimate_capped.1 _ 1000 _ _ _ _ (by decide)

end EventListener
